import Mathlib

/-! DirectShow access / demux module (`modules/access/dshow/dshow.cpp`).

A shallow embedding of the container format that the access part writes
(`AccessOpen`, `OpenDevice`, `Read`) and the demux part parses (`DemuxOpen`,
`Demux`).  Bytes are natural numbers; machine integers are naturals or
integers with the conversions written out.
-/

namespace DShow

/-! ## Machine integers and byte buffers -/

/-- Conversion of a value to `uint32_t`. -/
def toUInt32 (i : Int) : Nat := (i % 4294967296).toNat

/-- Conversion of a 32-bit pattern to `int` (two's complement). -/
def toInt32 (n : Nat) : Int :=
  if n % 4294967296 < 2147483648 then ((n % 4294967296 : Nat) : Int)
  else ((n % 4294967296 : Nat) : Int) - 4294967296

/-- Conversion of a value to `uint64_t`. -/
def toUInt64 (i : Int) : Nat := (i % 18446744073709551616).toNat

/-- Conversion of a 64-bit pattern to a signed 64-bit integer (`mtime_t`, `LONGLONG`). -/
def toInt64 (n : Nat) : Int :=
  if n % 18446744073709551616 < 9223372036854775808 then ((n % 18446744073709551616 : Nat) : Int)
  else ((n % 18446744073709551616 : Nat) : Int) - 18446744073709551616

/-- The four bytes `SetDWBE( p, dw )` stores at `p[0..3]`:
`(dw >> 24)&0xff`, `(dw >> 16)&0xff`, `(dw >> 8)&0xff`, `dw&0xff`. -/
def SetDWBE (dw : Nat) : List Nat :=
  [(dw / 16777216) % 256, (dw / 65536) % 256, (dw / 256) % 256, dw % 256]

/-- The eight bytes `SetQWBE( p, qw )` stores: `SetDWBE( p, (qw >> 32)&0xffffffff )`
followed by `SetDWBE( &p[4], qw&0xffffffff )`. -/
def SetQWBE (qw : Nat) : List Nat :=
  SetDWBE ((qw / 4294967296) % 4294967296) ++ SetDWBE (qw % 4294967296)

/-- Modelled from the spec: `GetDWBE` is a host header function that is not in
the source file; it reads a big-endian u32 from the four `uint8_t` at the start of `p`. -/
def GetDWBE : List Nat → Nat
  | a :: b :: c :: d :: _ => (a % 256) * 16777216 + (b % 256) * 65536 + (c % 256) * 256 + d % 256
  | _ => 0

/-- Modelled from the spec: `GetQWBE` is a host header function that is not in
the source file; it reads a big-endian u64 at the start of `p`. -/
def GetQWBE (p : List Nat) : Nat :=
  GetDWBE p * 4294967296 + GetDWBE (p.drop 4)

/-- Modelled from the spec: the host macro `VLC_FOURCC( a, b, c, d )` (not in
the source file) packs four characters so that the value's bytes in memory
are `a b c d` on the little-endian capture host. -/
def VLC_FOURCC (a b c d : Nat) : Nat :=
  a + b * 256 + c * 65536 + d * 16777216

/-- The four bytes `memcpy( dst, &i_fourcc, 4 )` copies (little-endian host). -/
def fourccBytes (v : Nat) : List Nat :=
  [v % 256, (v / 256) % 256, (v / 65536) % 256, (v / 16777216) % 256]

/-- Bytes of a C string literal (without the terminating NUL). -/
def cstr (s : String) : List Nat := s.toList.map Char.toNat

/-- The C string that starts at `p`: the bytes before the first NUL. -/
def cstring (p : List Nat) : List Nat := p.takeWhile (fun b => b != 0)

/-- Result of `strcmp( p, lit ) != 0` for a literal without embedded NUL. -/
def strcmp (p : List Nat) (lit : String) : Bool :=
  cstring p != cstr lit

/-- Result of `strncmp( p, lit, n ) != 0` for a literal without embedded NUL. -/
def strncmp (p : List Nat) (lit : String) (n : Nat) : Bool :=
  (cstring p).take n != (cstr lit).take n

/-- Store `src` at `buf[pos ..]` (`memcpy( &buf[pos], src, len )`). -/
def memcpy (buf : List Nat) (pos : Nat) (src : List Nat) : List Nat :=
  buf.take pos ++ src ++ buf.drop (pos + src.length)

/-- Resize a buffer to `n` bytes (`realloc`); new bytes read as 0 until written. -/
def realloc (buf : List Nat) (n : Nat) : List Nat :=
  buf.take n ++ List.replicate (n - buf.length) 0

/-! ## Access part: data model -/

inductive MajorType where
  | MEDIATYPE_Video
  | MEDIATYPE_Audio
  | other
  deriving DecidableEq, Repr

inductive FormatType where
  | FORMAT_WaveFormatEx
  | other
  deriving DecidableEq, Repr

inductive MediaSubtype where
  | RGB8 | RGB555 | RGB565 | RGB24 | RGB32 | ARGB32
  | YUYV | Y411 | Y41P | YUY2 | YVYU | YV12
  | PCM | IEEE_FLOAT | other
  deriving DecidableEq, Repr

/-- The media type of the capture pin.  `pbFormat` is read by the code either
as a `VIDEOINFOHEADER` (`biWidth`, `biHeight`: `LONG`) or as a `WAVEFORMATEX`
(`nChannels`, `wBitsPerSample`: `WORD`; `nSamplesPerSec`: `DWORD`); both
readings are carried. -/
structure AM_MEDIA_TYPE where
  majortype : MajorType
  subtype : MediaSubtype
  formattype : FormatType
  biWidth : Int
  biHeight : Int
  nChannels : Nat
  nSamplesPerSec : Nat
  wBitsPerSample : Nat
  deriving DecidableEq, Repr

/-- What the capture graph gives `OpenDevice` for one device kind. -/
structure CaptureDevice where
  /-- `FindCaptureDevice` returned a filter for the device name. -/
  found : Bool
  /-- `ConnectFilters` connected one of its output pins. -/
  connects : Bool
  /-- `CustomGetPin()->CustomGetMediaType()`. -/
  mt : AM_MEDIA_TYPE
  deriving DecidableEq, Repr

structure dshow_stream_t where
  mt : AM_MEDIA_TYPE
  i_fourcc : Nat
  i_data_size : Nat
  i_data_pos : Nat
  p_data : List Nat
  deriving DecidableEq, Repr

structure access_sys_t where
  i_header_size : Nat
  i_header_pos : Nat
  p_header : List Nat
  pp_streams : List dshow_stream_t
  i_current_stream : Nat
  deriving DecidableEq, Repr

/-- The field `i_streams` (always the length of `pp_streams`). -/
def access_sys_t.i_streams (p_sys : access_sys_t) : Nat := p_sys.pp_streams.length

/-- The video branch of the subtype-to-fourcc chain in `OpenDevice`
(`none` is `goto fail`). -/
def videoFourcc : MediaSubtype → Option Nat
  | .RGB8 => some (VLC_FOURCC 71 82 69 89)     -- 'G','R','E','Y'
  | .RGB555 => some (VLC_FOURCC 82 86 49 53)   -- 'R','V','1','5'
  | .RGB565 => some (VLC_FOURCC 82 86 49 54)   -- 'R','V','1','6'
  | .RGB24 => some (VLC_FOURCC 82 86 50 52)    -- 'R','V','2','4'
  | .RGB32 => some (VLC_FOURCC 82 86 51 50)    -- 'R','V','3','2'
  | .ARGB32 => some (VLC_FOURCC 82 71 66 65)   -- 'R','G','B','A'
  | .YUYV => some (VLC_FOURCC 89 85 89 86)     -- 'Y','U','Y','V'
  | .Y411 => some (VLC_FOURCC 73 52 49 78)     -- 'I','4','1','N'
  | .Y41P => some (VLC_FOURCC 73 52 49 49)     -- 'I','4','1','1'
  | .YUY2 => some (VLC_FOURCC 89 85 89 50)     -- 'Y','U','Y','2'
  | .YVYU => some (VLC_FOURCC 89 86 89 85)     -- 'Y','V','Y','U'
  | .YV12 => some (VLC_FOURCC 89 86 49 50)     -- 'Y','V','1','2'
  | _ => none

/-- The audio branch of the subtype-to-fourcc chain in `OpenDevice`. -/
def audioFourcc : MediaSubtype → Option Nat
  | .PCM => some (VLC_FOURCC 97 114 97 119)    -- 'a','r','a','w'
  | _ => none

/-- Append one stream to `pp_streams` and store the new count at header
offset 4 (the tail of the success path of `OpenDevice`). -/
def addStream (p_sys : access_sys_t) (mt : AM_MEDIA_TYPE) (i_fourcc : Nat) : access_sys_t :=
  let pp := p_sys.pp_streams ++
    [{ mt := mt, i_fourcc := i_fourcc, i_data_size := 0, i_data_pos := 0, p_data := [] }]
  { p_sys with
    pp_streams := pp
    p_header := memcpy p_sys.p_header 4 (SetDWBE (toUInt32 pp.length)) }

/-- `OpenDevice`: on success returns the updated session (`VLC_SUCCESS`), on
failure `none` (`VLC_EGENERIC`; the session is left as it was). -/
def OpenDevice (p_sys : access_sys_t) (dev : CaptureDevice) : Option access_sys_t :=
  if !dev.found then none
  else if !dev.connects then none
  else if dev.mt.majortype = .MEDIATYPE_Video then
    match videoFourcc dev.mt.subtype with
    | none => none
    | some i_fourcc =>
      let size := p_sys.i_header_size + 20
      let h0 := realloc p_sys.p_header size
      let h1 := memcpy h0 p_sys.i_header_pos (cstr "vids")
      let h2 := memcpy h1 (p_sys.i_header_pos + 4) (fourccBytes i_fourcc)
      let h3 := memcpy h2 (p_sys.i_header_pos + 8) (SetDWBE (toUInt32 dev.mt.biWidth))
      let h4 := memcpy h3 (p_sys.i_header_pos + 12) (SetDWBE (toUInt32 dev.mt.biHeight))
      let h5 := memcpy h4 (p_sys.i_header_pos + 16) (SetDWBE 0)
      some (addStream { p_sys with i_header_size := size, p_header := h5, i_header_pos := size }
        dev.mt i_fourcc)
  else if dev.mt.majortype = .MEDIATYPE_Audio ∧ dev.mt.formattype = .FORMAT_WaveFormatEx then
    match audioFourcc dev.mt.subtype with
    | none => none
    | some i_fourcc =>
      let size := p_sys.i_header_size + 20
      let h0 := realloc p_sys.p_header size
      let h1 := memcpy h0 p_sys.i_header_pos (cstr "auds")
      let h2 := memcpy h1 (p_sys.i_header_pos + 4) (fourccBytes i_fourcc)
      let h3 := memcpy h2 (p_sys.i_header_pos + 8) (SetDWBE dev.mt.nChannels)
      let h4 := memcpy h3 (p_sys.i_header_pos + 12) (SetDWBE dev.mt.nSamplesPerSec)
      let h5 := memcpy h4 (p_sys.i_header_pos + 16) (SetDWBE dev.mt.wBitsPerSample)
      some (addStream { p_sys with i_header_size := size, p_header := h5, i_header_pos := size }
        dev.mt i_fourcc)
  else none

/-- The session as `AccessOpen` sets it up before the devices are opened:
an 8-byte header `".dsh"`, count 1, with `i_header_pos = i_header_size`. -/
def initSys : access_sys_t :=
  { i_header_size := 8
    i_header_pos := 8
    p_header := memcpy (memcpy (realloc [] 8) 0 (cstr ".dsh")) 4 (SetDWBE 1)
    pp_streams := []
    i_current_stream := 0 }

/-- `OpenDevice` as `AccessOpen` calls it: a failure is logged and ignored. -/
def tryOpen (p_sys : access_sys_t) (dev : CaptureDevice) : access_sys_t :=
  (OpenDevice p_sys dev).getD p_sys

/-- `AccessOpen` after the selection string is parsed: video device, then
audio device; `none` is `VLC_EGENERIC`. -/
def AccessOpen (vdev adev : CaptureDevice) : Option access_sys_t :=
  let s1 := tryOpen initSys vdev
  let s2 := tryOpen s1 adev
  if s2.i_streams = 0 then none
  else some { s2 with i_current_stream := 0, i_header_pos := 0 }

/-! ## Access part: `Read` -/

/-- Result code of `IMediaSample::GetTime`. -/
inductive HRESULT where
  | S_OK
  | VFW_S_NO_STOP_TIME
  | failed
  deriving DecidableEq, Repr

/-- One media sample as `CustomGetSample` hands it over. -/
structure VLCMediaSample where
  /-- The `GetActualDataLength()` bytes at `GetPointer()`. -/
  data : List Nat
  /-- Result of `GetTime( &i_pts, &i_end_date )`. -/
  hr : HRESULT
  /-- Start time stored by `GetTime` (100 ns units, `REFERENCE_TIME`). -/
  i_pts : Int
  /-- The capture filter's own time stamp `sample.i_timestamp`. -/
  i_timestamp : Int
  deriving DecidableEq, Repr

/-- Signed 64-bit wrap-around of an arithmetic result. -/
def wrap64 (i : Int) : Int := toInt64 (toUInt64 i)

/-- Signed 32-bit wrap-around of an arithmetic result. -/
def wrap32 (i : Int) : Int := toInt32 (toUInt32 i)

/-- The time stamp `Read` keeps for a fetched sample: the start time of
`GetTime`, set to 0 when `hr` is neither `VFW_S_NO_STOP_TIME` nor `S_OK`, and
replaced by `sample.i_timestamp` when it is 0. -/
def samplePts (s : VLCMediaSample) : Int :=
  let i_pts := if s.hr ≠ .VFW_S_NO_STOP_TIME ∧ s.hr ≠ .S_OK then 0 else s.i_pts
  if i_pts = 0 then s.i_timestamp else i_pts

/-- The value `i_pts * 9 / 1000` in signed 64-bit arithmetic (C division
truncates towards zero). -/
def clock90k (i_pts : Int) : Int := Int.tdiv (wrap64 (i_pts * 9)) 1000

/-- The 16-byte pseudo header `Read` builds for a frame. -/
def pseudoHeader (i_current_stream i_data_size : Nat) (i_pts : Int) : List Nat :=
  SetDWBE (toUInt32 i_current_stream) ++ SetDWBE (toUInt32 i_data_size) ++
    SetQWBE (toUInt64 (clock90k i_pts))

/-- The local variables of `Read` together with the session. -/
structure ReadState where
  p_sys : access_sys_t
  /-- Bytes written to the caller's buffer so far (`p_buffer` has advanced past them). -/
  p_buffer : List Nat
  i_len : Nat
  i_data : Int
  deriving DecidableEq, Repr

/-- The stream `p_stream` points to. -/
def curStream (p_sys : access_sys_t) : dshow_stream_t :=
  p_sys.pp_streams.getD p_sys.i_current_stream
    { mt := ⟨.other, .other, .other, 0, 0, 0, 0, 0⟩, i_fourcc := 0, i_data_size := 0,
      i_data_pos := 0, p_data := [] }

/-- Store `st` back through `p_stream`. -/
def setCurStream (p_sys : access_sys_t) (st : dshow_stream_t) : access_sys_t :=
  { p_sys with pp_streams := p_sys.pp_streams.set p_sys.i_current_stream st }

/-- "First copy header if any": `none` when `i_copy` is negative (the `memcpy`
length is then out of range). -/
def copyHeader (r : ReadState) : Option ReadState :=
  if 0 < r.i_len ∧ r.p_sys.i_header_pos < r.p_sys.i_header_size then
    let i_copy : Int := min ((r.p_sys.i_header_size : Int) - r.p_sys.i_header_pos) (toInt32 r.i_len)
    if i_copy < 0 then none
    else some
      { p_sys := { r.p_sys with i_header_pos := r.p_sys.i_header_pos + i_copy.toNat }
        p_buffer := r.p_buffer ++ (r.p_sys.p_header.drop r.p_sys.i_header_pos).take i_copy.toNat
        i_len := r.i_len - i_copy.toNat
        i_data := wrap32 (r.i_data + i_copy) }
  else some r

/-- "Then copy stream data if any". -/
def copyData (r : ReadState) : Option ReadState :=
  let p_stream := curStream r.p_sys
  if 0 < r.i_len ∧ p_stream.i_data_pos < p_stream.i_data_size then
    let i_copy : Int := min ((p_stream.i_data_size : Int) - p_stream.i_data_pos) (toInt32 r.i_len)
    if i_copy < 0 then none
    else some
      { p_sys := setCurStream r.p_sys { p_stream with i_data_pos := p_stream.i_data_pos + i_copy.toNat }
        p_buffer := r.p_buffer ++ (p_stream.p_data.drop p_stream.i_data_pos).take i_copy.toNat
        i_len := r.i_len - i_copy.toNat
        i_data := wrap32 (r.i_data + i_copy) }
  else some r

/-- How one pass through the body of the `while` loop of `Read` ends before
the next sample is asked for. -/
inductive ReadStep where
  /-- A `return i_data`. -/
  | ret (r : ReadState)
  /-- Control reaches "Get new sample/frame from next stream". -/
  | next (r : ReadState)
  /-- A `memcpy` with a negative length. -/
  | undefined
  deriving DecidableEq, Repr

/-- The two copies and the two `return` tests of the loop body. -/
def ReadDrain (r : ReadState) : ReadStep :=
  match copyHeader r with
  | none => .undefined
  | some r1 =>
    match copyData r1 with
    | none => .undefined
    | some r2 =>
      if r2.i_len = 0 then .ret r2
      else
        let p_stream := curStream r2.p_sys
        if p_stream.i_data_size ≠ 0 ∧ r2.i_data ≠ 0 ∧ p_stream.i_data_pos = p_stream.i_data_size then
          .ret { r2 with
            p_sys := setCurStream r2.p_sys { p_stream with i_data_pos := 0, i_data_size := 0 } }
        else .next r2

/-- "Get new sample/frame from next stream": the cursor moves on, and the
answer `o` of `CustomGetSample` (`none`: not `S_OK`) is processed. -/
def ReadFetch (r : ReadState) (o : Option VLCMediaSample) : ReadState :=
  let p_sys := { r.p_sys with
    i_current_stream := (r.p_sys.i_current_stream + 1) % r.p_sys.i_streams }
  match o with
  | some s =>
    let p_stream := curStream p_sys
    let p_sys1 := setCurStream p_sys
      { p_stream with i_data_pos := 0, i_data_size := s.data.length, p_data := s.data }
    { r with
      p_sys := { p_sys1 with
        i_header_size := 16
        i_header_pos := 0
        p_header := memcpy p_sys1.p_header 0
          (pseudoHeader p_sys1.i_current_stream s.data.length (samplePts s)) } }
  | none => { r with p_sys := p_sys }

/-- What a call of `Read` comes to. -/
inductive ReadOutcome where
  /-- The call returned `i_data`, having written `p_buffer`; `rest` are the
  answers of the capture filters not yet asked for. -/
  | returned (i_data : Int) (p_buffer : List Nat) (p_sys : access_sys_t)
      (rest : List (Option VLCMediaSample))
  /-- All known answers are used up and the call is still polling. -/
  | polling (p_sys : access_sys_t)
  /-- A `memcpy` with a negative length. -/
  | undefined
  deriving DecidableEq, Repr

/-- The `while( i_len > 0 )` loop of `Read`; `env` lists the answers that the
successive `CustomGetSample` calls give. -/
def ReadLoop : List (Option VLCMediaSample) → ReadState → ReadOutcome
  | env, r =>
    if r.i_len = 0 then .returned r.i_data r.p_buffer r.p_sys env
    else
      match ReadDrain r with
      | .undefined => .undefined
      | .ret r1 => .returned r1.i_data r1.p_buffer r1.p_sys env
      | .next r1 =>
        match env with
        | [] => .polling r1.p_sys
        | o :: rest => ReadLoop rest (ReadFetch r1 o)

/-- `Read( p_input, p_buffer, i_len )`. -/
def Read (p_sys : access_sys_t) (env : List (Option VLCMediaSample)) (i_len : Nat) : ReadOutcome :=
  ReadLoop env { p_sys := p_sys, p_buffer := [], i_len := i_len, i_data := 0 }

/-! ## Demux part -/

inductive ESCat where
  | VIDEO_ES
  | AUDIO_ES
  deriving DecidableEq, Repr

structure WAVEFORMATEX where
  wFormatTag : Nat
  nChannels : Nat
  nSamplesPerSec : Nat
  nAvgBytesPerSec : Nat
  nBlockAlign : Nat
  wBitsPerSample : Nat
  cbSize : Nat
  deriving DecidableEq, Repr

structure BITMAPINFOHEADER where
  biSize : Nat
  biWidth : Int
  biHeight : Int
  biPlanes : Nat
  biBitCount : Nat
  biCompression : Nat
  biSizeImage : Nat
  biXPelsPerMeter : Int
  biYPelsPerMeter : Int
  biClrUsed : Nat
  biClrImportant : Nat
  deriving DecidableEq, Repr

/-- An elementary stream as `DemuxOpen` fills it in. -/
structure es_descriptor_t where
  /-- The id given to `input_AddES`. -/
  i_id : Nat
  i_stream_id : Nat
  i_cat : ESCat
  i_fourcc : Nat
  p_waveformatex : Option WAVEFORMATEX
  p_bitmapinfoheader : Option BITMAPINFOHEADER
  /-- Whether `input_SelectES` started a decoder (`p_decoder_fifo` is not NULL). -/
  p_decoder_fifo : Bool
  deriving DecidableEq, Repr

/-- Modelled from the spec: the host input layer is not in the source file.
These are the answers it gives that the demuxer does not control. -/
structure Host where
  /-- `input_InitStream` succeeds. -/
  initStream : Bool
  /-- `input_AddProgram` succeeds. -/
  addProgram : Bool
  /-- `input_SelectES` starts a decoder for this category and fourcc. -/
  selectES : ESCat → Nat → Bool
  /-- `input_NewPES` returns a packet. -/
  newPES : Bool
  /-- `input_ClockGetTS` for the references given so far and a clock value. -/
  clockGetTS : List Int → Int → Int

/-- The part of `input_thread_t` the demuxer works on. -/
structure input_thread_t where
  /-- Modelled from the spec: the bytes the host stream still has to deliver
  (`input_Peek` shows a prefix, `input_SplitBuffer` removes one). -/
  stream : List Nat
  /-- The table `p_selected_program->pp_es`, in the order of `input_AddES`
  (`DemuxOpen` starts it afresh with `input_InitStream` and `input_AddProgram`). -/
  pp_es : List es_descriptor_t
  /-- The clock values passed to `input_ClockManageRef`, oldest first. -/
  clockRefs : List Int
  deriving DecidableEq, Repr

/-- Modelled from the spec: `input_Peek( p_input, &p_peek, n )` of the host
input layer; the result's length is the returned count. -/
def input_Peek (p_input : input_thread_t) (n : Nat) : List Nat := p_input.stream.take n

/-- Modelled from the spec: `input_SplitBuffer( p_input, &p_data, n )` of the
host input layer: the bytes of the data packet (their number is the returned
count, 0 at the end of the input) and the input after it. -/
def input_SplitBuffer (p_input : input_thread_t) (n : Nat) : List Nat × input_thread_t :=
  (p_input.stream.take n, { p_input with stream := p_input.stream.drop n })

/-- Conversion to `WORD`. -/
def toUInt16 (i : Int) : Nat := (i % 65536).toNat

/-- The body of the `for` loop of `DemuxOpen` for record `i` at `p_peek`:
the stream it adds, if any. -/
def parseRecord (host : Host) (i : Nat) (p_peek : List Nat) : Option es_descriptor_t :=
  if !strncmp p_peek "auds" 4 then
    let i_fourcc := VLC_FOURCC (p_peek.getD 4 0) (p_peek.getD 5 0) (p_peek.getD 6 0) (p_peek.getD 7 0)
    let nChannels := toUInt16 (GetDWBE (p_peek.drop 8))
    let nSamplesPerSec := GetDWBE (p_peek.drop 12)
    let wBitsPerSample := toUInt16 (GetDWBE (p_peek.drop 16))
    let nBlockAlign := toUInt16 (Int.tdiv (wrap32 ((wBitsPerSample : Int) * nChannels)) 8)
    some
      { i_id := i + 1
        i_stream_id := i + 1
        i_cat := .AUDIO_ES
        i_fourcc := i_fourcc
        p_waveformatex := some
          { wFormatTag := 0
            nChannels := nChannels
            nSamplesPerSec := nSamplesPerSec
            nAvgBytesPerSec := (nBlockAlign * nSamplesPerSec) % 4294967296
            nBlockAlign := nBlockAlign
            wBitsPerSample := wBitsPerSample
            cbSize := 0 }
        p_bitmapinfoheader := none
        p_decoder_fifo := host.selectES .AUDIO_ES i_fourcc }
  else if !strncmp p_peek "vids" 4 then
    let i_fourcc := VLC_FOURCC (p_peek.getD 4 0) (p_peek.getD 5 0) (p_peek.getD 6 0) (p_peek.getD 7 0)
    some
      { i_id := i + 1
        i_stream_id := i + 1
        i_cat := .VIDEO_ES
        i_fourcc := i_fourcc
        p_waveformatex := none
        p_bitmapinfoheader := some
          { biSize := 40
            biWidth := toInt32 (GetDWBE (p_peek.drop 8))
            biHeight := toInt32 (GetDWBE (p_peek.drop 12))
            biPlanes := 0
            biBitCount := 0
            biCompression := 0
            biSizeImage := 0
            biXPelsPerMeter := 0
            biYPelsPerMeter := 0
            biClrUsed := 0
            biClrImportant := 0 }
        p_decoder_fifo := host.selectES .VIDEO_ES i_fourcc }
  else none

/-- The `for( i = 0; i < i_streams; i++ )` loop of `DemuxOpen`, from record
`i` on, with `k` records left; `p_peek` advances by 20 per record. -/
def parseRecords (host : Host) : Nat → Nat → List Nat → List es_descriptor_t → List es_descriptor_t
  | 0, _, _, pp_es => pp_es
  | k + 1, i, p_peek, pp_es =>
    parseRecords host k (i + 1) (p_peek.drop 20)
      (match parseRecord host i p_peek with
        | some p_es => pp_es ++ [p_es]
        | none => pp_es)

/-- `DemuxOpen`: `none` is `VLC_EGENERIC`, otherwise the input as it is left
on `VLC_SUCCESS`. -/
def DemuxOpen (host : Host) (p_input : input_thread_t) : Option input_thread_t :=
  let p_peek := input_Peek p_input 8
  if p_peek.length < 8 then none
  else if strcmp p_peek ".dsh" || decide (GetDWBE (p_peek.drop 4) ≤ 0) then none
  else if !host.initStream then none
  else if !host.addProgram then none
  else
    let i_streams : Int := toInt32 (GetDWBE (p_peek.drop 4))
    let need : Int := wrap32 (8 + wrap32 (20 * i_streams))
    let p_peek := input_Peek p_input (toUInt32 need)
    if (p_peek.length : Int) < need then none
    else
      let pp_es := parseRecords host i_streams.toNat 0 (p_peek.drop 8) []
      let split := input_SplitBuffer p_input (toUInt32 (wrap32 (8 + wrap32 (i_streams * 20))))
      some { split.2 with pp_es := pp_es }

/-- A PES packet: its data packets from `p_payload_start` on, and the
bookkeeping fields `Demux` sets. -/
structure pes_packet_t where
  /-- Payload bytes of the chained data packets, first to last. -/
  p_first : List (List Nat)
  i_nb_data : Nat
  i_pes_size : Int
  i_pts : Int
  i_dts : Int
  deriving DecidableEq, Repr

/-- The `while( i_size > 0 )` loop of `Demux`.  `fuel` bounds the number of
passes (each pass takes at least one byte, so `i_size` passes are enough).
The result is `(ok, data packets, i_pes_size, input)`, where `ok = false`
is the `return( 0 )` on an empty `input_SplitBuffer`. -/
def pullPES : Nat → Int → input_thread_t → List (List Nat) → Int →
    Bool × List (List Nat) × Int × input_thread_t
  | 0, _, p_input, acc, sz => (true, acc, sz, p_input)
  | fuel + 1, i_size, p_input, acc, sz =>
    if 0 < i_size then
      let split := input_SplitBuffer p_input (min i_size 10000).toNat
      let i_read : Int := split.1.length
      if i_read ≤ 0 then (false, acc, sz, split.2)
      else pullPES fuel (i_size - i_read) split.2 (acc ++ [split.1])
        (if acc = [] then i_read else sz + i_read)
    else (true, acc, sz, p_input)

/-- What a call of `Demux` comes to. -/
inductive DemuxOutcome where
  /-- The call returned `code`; `decoded` is the stream and packet handed to
  `input_DecodePES`, if any. -/
  | returned (code : Int) (p_input : input_thread_t)
      (decoded : Option (es_descriptor_t × pes_packet_t))
  /-- The read `pp_es[i_stream]` is outside the table, or `p_pes->p_first`
  is NULL when it is dereferenced. -/
  | undefined
  deriving DecidableEq, Repr

/-- `Demux`. -/
def Demux (host : Host) (p_input : input_thread_t) : DemuxOutcome :=
  let p_peek := input_Peek p_input 16
  if p_peek.length < 16 then .returned 0 p_input none
  else
    let i_stream : Int := toInt32 (GetDWBE p_peek)
    let i_size : Int := toInt32 (GetDWBE (p_peek.drop 4))
    let i_pcr : Int := toInt64 (GetQWBE (p_peek.drop 8))
    if i_stream < 0 then .undefined
    else
      match p_input.pp_es[i_stream.toNat]? with
      | none => .undefined
      | some p_es =>
        if !host.newPES then .returned 1 p_input none
        else
          let i_size := wrap32 (i_size + 16)
          match pullPES i_size.toNat i_size p_input [] 0 with
          | (false, _, _, p_input1) => .returned 0 p_input1 none
          | (true, [], _, _) => .undefined
          | (true, first :: more, i_pes_size, p_input1) =>
            let p_pes : pes_packet_t :=
              { p_first := first.drop 16 :: more
                i_nb_data := more.length + 1
                i_pes_size := wrap32 (i_pes_size - 16)
                i_pts := 0
                i_dts := 0 }
            if p_es.p_decoder_fifo then
              let p_input2 := { p_input1 with clockRefs := p_input1.clockRefs ++ [i_pcr] }
              let ts := if i_pcr ≤ 0 then 0 else host.clockGetTS p_input2.clockRefs i_pcr
              .returned 1 p_input2 (some (p_es, { p_pes with i_pts := ts, i_dts := ts }))
            else .returned 1 p_input1 none

/-! ## The container format in the words of its description -/

/-- The 20-byte record of one opened track: kind tag, fourcc, and three
big-endian fields (width, height, 0 for video; channels, sample rate, bits
per sample for audio). -/
def trackRecord (st : dshow_stream_t) : List Nat :=
  if st.mt.majortype = .MEDIATYPE_Video then
    cstr "vids" ++ fourccBytes st.i_fourcc ++ SetDWBE (toUInt32 st.mt.biWidth) ++
      SetDWBE (toUInt32 st.mt.biHeight) ++ SetDWBE 0
  else
    cstr "auds" ++ fourccBytes st.i_fourcc ++ SetDWBE st.mt.nChannels ++
      SetDWBE st.mt.nSamplesPerSec ++ SetDWBE st.mt.wBitsPerSample

/-- The container header for a list of opened tracks. -/
def containerHeader (pp_streams : List dshow_stream_t) : List Nat :=
  cstr ".dsh" ++ SetDWBE (toUInt32 pp_streams.length) ++ (pp_streams.map trackRecord).flatten

/-- A stream that `OpenDevice` can have added: its fourcc comes from the
subtype table of its kind. -/
def ValidStream (st : dshow_stream_t) : Prop :=
  (st.mt.majortype = .MEDIATYPE_Video ∧ videoFourcc st.mt.subtype = some st.i_fourcc) ∨
  (st.mt.majortype = .MEDIATYPE_Audio ∧ st.mt.formattype = .FORMAT_WaveFormatEx ∧
    audioFourcc st.mt.subtype = some st.i_fourcc)

instance (st : dshow_stream_t) : Decidable (ValidStream st) := by
  unfold ValidStream; infer_instance

/-- The state of the session between the `OpenDevice` calls of `AccessOpen`. -/
structure HeaderInv (s : access_sys_t) : Prop where
  size : s.i_header_size = 8 + 20 * s.pp_streams.length
  pos : s.i_header_pos = s.i_header_size
  hdr : ∃ cnt : List Nat, cnt.length = 4 ∧
    (s.pp_streams ≠ [] → cnt = SetDWBE (toUInt32 s.pp_streams.length)) ∧
    s.p_header = cstr ".dsh" ++ cnt ++ (s.pp_streams.map trackRecord).flatten
  valid : ∀ st ∈ s.pp_streams, ValidStream st ∧ st.i_data_size = 0 ∧ st.i_data_pos = 0
  cur : s.i_current_stream = 0

/-- The video device of the concrete scenario: RGB24 ("RV24"), 320x240. -/
def rv24Device : CaptureDevice :=
  ⟨true, true, ⟨.MEDIATYPE_Video, .RGB24, .other, 320, 240, 0, 0, 0⟩⟩

/-- The audio device of the concrete scenario: PCM ("araw"), 2 channels,
44100 Hz, 16 bits. -/
def arawDevice : CaptureDevice :=
  ⟨true, true, ⟨.MEDIATYPE_Audio, .PCM, .FORMAT_WaveFormatEx, 0, 0, 2, 44100, 16⟩⟩

/-- The session `AccessOpen` builds for the concrete scenario. -/
def scenarioSys : access_sys_t :=
  { i_header_size := 48
    i_header_pos := 0
    p_header :=
      [46, 100, 115, 104, 0, 0, 0, 2,
       118, 105, 100, 115, 82, 86, 50, 52, 0, 0, 1, 64, 0, 0, 0, 240, 0, 0, 0, 0,
       97, 117, 100, 115, 97, 114, 97, 119, 0, 0, 0, 2, 0, 0, 172, 68, 0, 0, 0, 16]
    pp_streams :=
      [⟨rv24Device.mt, VLC_FOURCC 82 86 50 52, 0, 0, []⟩,
       ⟨arawDevice.mt, VLC_FOURCC 97 114 97 119, 0, 0, []⟩]
    i_current_stream := 0 }

/-- A host on which stream and program set-up succeed, every stream gets a
decoder, packets can be allocated, and the clock maps a value to itself. -/
def okHost : Host :=
  { initStream := true
    addProgram := true
    selectES := fun _ _ => true
    newPES := true
    clockGetTS := fun _ i_pcr => i_pcr }

/-- A device that `FindCaptureDevice` does not find. -/
def noDevice : CaptureDevice :=
  ⟨false, false, ⟨.other, .other, .other, 0, 0, 0, 0, 0⟩⟩

/-- A track descriptor in the words of the description: kind, fourcc and the
kind's fields. -/
inductive TrackDescriptor where
  | video (fourcc : Nat) (width height : Int)
  | audio (fourcc : Nat) (channels sampleRate bitsPerSample : Nat)
  deriving DecidableEq, Repr

/-- The descriptor of a track the access part has opened. -/
def streamDescriptor (st : dshow_stream_t) : TrackDescriptor :=
  if st.mt.majortype = .MEDIATYPE_Video then
    .video st.i_fourcc st.mt.biWidth st.mt.biHeight
  else
    .audio st.i_fourcc st.mt.nChannels st.mt.nSamplesPerSec st.mt.wBitsPerSample

/-- The descriptor of an elementary stream the demux part has registered. -/
def esDescriptor (p_es : es_descriptor_t) : Option TrackDescriptor :=
  match p_es.i_cat, p_es.p_bitmapinfoheader, p_es.p_waveformatex with
  | .VIDEO_ES, some bih, _ => some (.video p_es.i_fourcc bih.biWidth bih.biHeight)
  | .AUDIO_ES, _, some wf =>
    some (.audio p_es.i_fourcc wf.nChannels wf.nSamplesPerSec wf.wBitsPerSample)
  | _, _, _ => none

/-- Each field of the track's format is within the range of the type that
stores it (`LONG` width and height, `WORD` channels and bits per sample,
`DWORD` sample rate). -/
def FieldsInRange (st : dshow_stream_t) : Prop :=
  -2147483648 ≤ st.mt.biWidth ∧ st.mt.biWidth < 2147483648 ∧
  -2147483648 ≤ st.mt.biHeight ∧ st.mt.biHeight < 2147483648 ∧
  st.mt.nChannels < 65536 ∧ st.mt.nSamplesPerSec < 4294967296 ∧ st.mt.wBitsPerSample < 65536

instance (st : dshow_stream_t) : Decidable (FieldsInRange st) := by
  unfold FieldsInRange; infer_instance

/-- The category `DemuxOpen` gives the stream of an opened track. -/
def streamCat (st : dshow_stream_t) : ESCat :=
  if st.mt.majortype = .MEDIATYPE_Video then .VIDEO_ES else .AUDIO_ES

/-- The session `AccessOpen` leaves when `OpenDevice` is called once for each
device of a list; `AccessOpen` itself is the case of the two devices
`[vdev, adev]` (with failure when no stream resulted). -/
def openDevices (devs : List CaptureDevice) : access_sys_t :=
  { devs.foldl tryOpen initSys with i_current_stream := 0, i_header_pos := 0 }

/-- The kind tag of record `i` of a header: the four bytes at offset
`8 + 20 * i`. -/
def kindTag (stream : List Nat) (i : Nat) : List Nat := (stream.drop (8 + 20 * i)).take 4

/-- What the description has `DemuxOpen` register for record `i` with kind
tag `tag`: id and stream id `i + 1` and the kind the tag names; nothing for
another tag. -/
def registration (i : Nat) (tag : List Nat) : Option (Nat × Nat × ESCat) :=
  if tag = cstr "auds" then some (i + 1, i + 1, .AUDIO_ES)
  else if tag = cstr "vids" then some (i + 1, i + 1, .VIDEO_ES)
  else none

/-- An 8-byte header declaring one track, followed by a 20-byte record whose
kind tag is `"xxxx"`. -/
def unknownKindHeader : List Nat :=
  [46, 100, 115, 104, 0, 0, 0, 1,
   120, 120, 120, 120, 0, 0, 0, 0, 0, 0, 0, 0, 0, 0, 0, 0, 0, 0, 0, 0]

/-! ## The byte stream of the access part in the words of its description -/

/-- One frame unit: the 16-byte micro-header (track index, payload length,
clock value) immediately followed by the payload bytes. -/
def frameUnit (track : Nat) (s : VLCMediaSample) : List Nat :=
  pseudoHeader track s.data.length (samplePts s) ++ s.data

/-- The successful sample fetches, in fetch order, when the cursor stands at
`c` and the capture filters give the answers `env`: each with the track index
it was fetched from (the cursor moves on before every request). -/
def fetches (n : Nat) : Nat → List (Option VLCMediaSample) → List (Nat × VLCMediaSample)
  | _, [] => []
  | c, some s :: env => ((c + 1) % n, s) :: fetches n ((c + 1) % n) env
  | c, none :: env => fetches n ((c + 1) % n) env

/-- The frame units of the fetched samples, in fetch order. -/
def frameUnits (n c : Nat) (env : List (Option VLCMediaSample)) : List Nat :=
  ((fetches n c env).map (fun f => frameUnit f.1 f.2)).flatten

/-- The header bytes not yet given to the caller. -/
def pendingHeader (p_sys : access_sys_t) : List Nat :=
  (p_sys.p_header.take p_sys.i_header_size).drop p_sys.i_header_pos

/-- The bytes of the current stream's sample not yet given to the caller. -/
def pendingData (p_sys : access_sys_t) : List Nat :=
  ((curStream p_sys).p_data.take (curStream p_sys).i_data_size).drop (curStream p_sys).i_data_pos

/-- The bytes `Read` still has to give out before it asks for a new sample. -/
def pending (p_sys : access_sys_t) : List Nat := pendingHeader p_sys ++ pendingData p_sys

/-- A sequence of `Read` calls with the requested lengths `lens`, each of
which returns: the concatenation of the returned bytes, the session and the
answers left. -/
def ReadCalls : access_sys_t → List (Option VLCMediaSample) → List Nat →
    Option (List Nat × access_sys_t × List (Option VLCMediaSample))
  | p_sys, env, [] => some ([], p_sys, env)
  | p_sys, env, i_len :: lens =>
    match Read p_sys env i_len with
    | .returned _ p_buffer p_sys1 rest =>
      match ReadCalls p_sys1 rest lens with
      | some (out, p_sys2, rest2) => some (p_buffer ++ out, p_sys2, rest2)
      | none => none
    | _ => none

/-- The sessions reachable from a successful `AccessOpen` by `Read` calls
that return (requested lengths below 2^31, the range of `int`). -/
inductive Reachable : access_sys_t → Prop where
  | opened (vdev adev : CaptureDevice) (p_sys : access_sys_t) :
      AccessOpen vdev adev = some p_sys → Reachable p_sys
  | read (p_sys p_sys1 : access_sys_t) (env rest : List (Option VLCMediaSample))
      (i_len : Nat) (i_data : Int) (p_buffer : List Nat) :
      Reachable p_sys → i_len < 2147483648 →
      Read p_sys env i_len = .returned i_data p_buffer p_sys1 rest → Reachable p_sys1

/-- What holds of the session between `Read` calls and inside its loop. -/
structure ReadInv (p_sys : access_sys_t) : Prop where
  nonempty : 0 < p_sys.pp_streams.length
  cur : p_sys.i_current_stream < p_sys.pp_streams.length
  buf : 16 ≤ p_sys.p_header.length
  size : p_sys.i_header_size ≤ p_sys.p_header.length
  pos : p_sys.i_header_pos ≤ p_sys.i_header_size
  streams : ∀ (i : Nat) (st : dshow_stream_t), p_sys.pp_streams[i]? = some st →
    st.i_data_pos ≤ st.i_data_size ∧ st.i_data_size ≤ st.p_data.length ∧
    (i ≠ p_sys.i_current_stream → st.i_data_pos = st.i_data_size)

/-- What holds of the local variables of `Read` at the top of its loop. -/
structure LoopInv (r : ReadState) : Prop where
  inv : ReadInv r.p_sys
  data : r.i_data = r.p_buffer.length
  len : r.p_buffer.length + r.i_len < 2147483648

/-- A five-byte sample whose start time `GetTime` reports (10000, i.e. 1 ms). -/
def sampleA : VLCMediaSample := ⟨[1, 2, 3, 4, 5], .S_OK, 10000, 0⟩

/-- A three-byte sample without a reported time, stamped 20000 by the filter. -/
def sampleB : VLCMediaSample := ⟨[9, 8, 7], .failed, 0, 20000⟩

/-- A sample with an empty payload. -/
def sampleZ : VLCMediaSample := ⟨[], .S_OK, 30000, 0⟩

/-- The returned count, the bytes written and the answers left of a `Read`
call that returned. -/
def ReadOutcome.result : ReadOutcome → Option (Int × List Nat × List (Option VLCMediaSample))
  | .returned i_data p_buffer _ rest => some (i_data, p_buffer, rest)
  | _ => none

/-- The session a `Read` call that returned leaves. -/
def ReadOutcome.session : ReadOutcome → Option access_sys_t
  | .returned _ _ p_sys _ => some p_sys
  | _ => none

/-- The session of the concrete scenario once its 48 header bytes are read. -/
def scenarioDrained : access_sys_t := { scenarioSys with i_header_pos := 48 }

/-- `Demux` called `k` times by the host loop, which goes on while the call
returns 1: the packets handed to the decoders, in order, and the input as it
is left. -/
def DemuxRun (host : Host) : Nat → input_thread_t →
    List (es_descriptor_t × pes_packet_t) × input_thread_t
  | 0, p_input => ([], p_input)
  | k + 1, p_input =>
    match Demux host p_input with
    | .returned code p_input1 decoded =>
      if code = 1 then
        (decoded.toList ++ (DemuxRun host k p_input1).1, (DemuxRun host k p_input1).2)
      else ([], p_input1)
    | .undefined => ([], p_input)

/-- The video stream `DemuxOpen` registers in the concrete scenario. -/
def rv24ES : es_descriptor_t :=
  { i_id := 1, i_stream_id := 1, i_cat := .VIDEO_ES, i_fourcc := VLC_FOURCC 82 86 50 52,
    p_waveformatex := none,
    p_bitmapinfoheader := some ⟨40, 320, 240, 0, 0, 0, 0, 0, 0, 0, 0⟩,
    p_decoder_fifo := true }

/-- The audio stream `DemuxOpen` registers in the concrete scenario. -/
def arawES : es_descriptor_t :=
  { i_id := 2, i_stream_id := 2, i_cat := .AUDIO_ES, i_fourcc := VLC_FOURCC 97 114 97 119,
    p_waveformatex := some ⟨0, 2, 44100, 176400, 4, 16, 0⟩,
    p_bitmapinfoheader := none,
    p_decoder_fifo := true }

/-- The two elementary streams `DemuxOpen` registers in the concrete
scenario. -/
def scenarioES : List es_descriptor_t := [rv24ES, arawES]

/-- The answers of the capture filters in the concrete run: a sample, no
sample, a sample. -/
def scenarioAnswers : List (Option VLCMediaSample) := [some sampleA, none, some sampleB]

/-- Answers for a run in which every request is answered with a sample. -/
def readyAnswers : List (Option VLCMediaSample) :=
  [some sampleA, some sampleB, some sampleA, some sampleB]

/-- The local variables of a `Read` call of 100 bytes on the drained session
of the concrete scenario, at the point where it asks for a sample. -/
def scenarioLoop : ReadState :=
  { p_sys := scenarioDrained, p_buffer := [], i_len := 100, i_data := 0 }

/-- The big-endian encoding of `v` in `k` bytes, most significant byte first. -/
def bigEndian : Nat → Nat → List Nat
  | 0, _ => []
  | k + 1, v => (v / 256 ^ k) % 256 :: bigEndian k v

/-! ## Scenarios for the demuxer -/

/-- The return code of a `Demux` call, if it returns. -/
def DemuxOutcome.code : DemuxOutcome → Option Int
  | .returned code _ _ => some code
  | .undefined => none

/-- The id of the elementary stream a returning `Demux` call handed its packet
to (`some none`: it handed no packet on), together with the packet payload. -/
def DemuxOutcome.target : DemuxOutcome → Option (Option (Nat × List Nat))
  | .returned _ _ decoded => some (decoded.map (fun d => (d.1.i_id, d.2.p_first.flatten)))
  | .undefined => none

/-- The input as a returning `Demux` call leaves it. -/
def DemuxOutcome.input : DemuxOutcome → Option input_thread_t
  | .returned _ p_input _ => some p_input
  | .undefined => none

/-- A header declaring two tracks: the first record has the kind tag
`"xxxx"`, the second is a video record ("RV24", 320x240). -/
def shiftedHeader : List Nat :=
  [46, 100, 115, 104, 0, 0, 0, 2,
   120, 120, 120, 120, 0, 0, 0, 0, 0, 0, 0, 0, 0, 0, 0, 0, 0, 0, 0, 0,
   118, 105, 100, 115, 82, 86, 50, 52, 0, 0, 1, 64, 0, 0, 0, 240, 0, 0, 0, 0]

/-- A host as `okHost` in which `input_SelectES` starts no decoder. -/
def noDecoderHost : Host := { okHost with selectES := fun _ _ => false }

/-- A host as `okHost` in which `input_NewPES` returns NULL. -/
def noPacketHost : Host := { okHost with newPES := false }

/-- The presentation and decode timestamps of the packet a returning `Demux`
call handed to a decoder (`some none`: it handed no packet on). -/
def DemuxOutcome.stamps : DemuxOutcome → Option (Option (Int × Int))
  | .returned _ _ decoded => some (decoded.map (fun d => (d.2.i_pts, d.2.i_dts)))
  | .undefined => none

/-- A frame unit given by its fields: track index, raw clock value, payload. -/
def rawUnit (track clock : Nat) (payload : List Nat) : List Nat :=
  SetDWBE track ++ SetDWBE payload.length ++ SetQWBE clock ++ payload

/-! ## The device-selection string -/

/-- One pass of the options loop `for( ;; )` of `AccessOpen` up to the
`while` that looks for the next `':'` (`psz_pos` stands for the pointer
`psz_parser`): the names `(vdevname, adevname)` after
it and the position of `psz_parser`.  A string is the list of its characters
before the terminating NUL; `strchr( psz_parser, ':' ) - psz_parser` or
`strlen( psz_parser )` is the number of characters before the first `':'`. -/
def AccessOpen_option (psz_pos : List Nat) (names : List Nat × List Nat) :
    (List Nat × List Nat) × List Nat :=
  if !strncmp psz_pos "vdev=" 5 then
    let p := psz_pos.drop 5
    let i_len := (p.takeWhile (fun c => c != 58)).length
    ((p.take i_len, names.2), p.drop i_len)
  else if !strncmp psz_pos "adev=" 5 then
    let p := psz_pos.drop 5
    let i_len := (p.takeWhile (fun c => c != 58)).length
    ((names.1, p.take i_len), p.drop i_len)
  else (names, psz_pos)

/-- The options loop `for( ;; )` of `AccessOpen`, entered with `psz_parser`
on a `':'`; the argument is the text after that `':'` (the loop starts with
`*psz_parser++ = 0`), and `fuel` bounds the number of passes (each pass moves
past one `':'`). -/
def AccessOpen_options : Nat → List Nat → List Nat × List Nat → List Nat × List Nat
  | 0, _, names => names
  | fuel + 1, psz_pos, names =>
    match (AccessOpen_option psz_pos names).2.dropWhile (fun c => c != 58) with
    | [] => (AccessOpen_option psz_pos names).1
    | _ :: rest => AccessOpen_options fuel rest (AccessOpen_option psz_pos names).1

/-- The "parse url" part of `AccessOpen`: the names `(vdevname, adevname)` it
hands to the two `OpenDevice` calls for the string `psz_name`. -/
def AccessOpen_names (psz_name : List Nat) : List Nat × List Nat :=
  match psz_name.dropWhile (fun c => c != 58) with
  | [] => ([], [])
  | _ :: rest => AccessOpen_options (rest.length + 1) rest ([], [])

/-- "If no device name was specified, pick the 1st one" in `OpenDevice`:
the name looked up among the enumerated devices; `none` when
`*list_devices.begin()` is read on an empty list. -/
def pickDevicename (devicename : List Nat) (list_devices : List (List Nat)) :
    Option (List Nat) :=
  if devicename.length = 0 then list_devices.head? else some devicename

/-- The `':'`-separated segments of a text, in the words of the description. -/
def segments : List Nat → List (List Nat)
  | [] => [[]]
  | c :: t =>
    if c = 58 then [] :: segments t
    else
      match segments t with
      | seg :: more => (c :: seg) :: more
      | [] => [[c]]

/-- The effect of one segment on the pair (video name, audio name), in the
words of the description. -/
def applySegment (names : List Nat × List Nat) (seg : List Nat) : List Nat × List Nat :=
  if seg.take 5 = cstr "vdev=" then (seg.drop 5, names.2)
  else if seg.take 5 = cstr "adev=" then (names.1, seg.drop 5)
  else names

/-- The device names a selection string gives, in the words of the
description: both empty, then changed by the segments after the first `':'`
from left to right. -/
def selectionNames (psz_name : List Nat) : List Nat × List Nat :=
  match psz_name.dropWhile (fun c => c != 58) with
  | [] => ([], [])
  | _ :: rest => (segments rest).foldl applySegment ([], [])

/-- A header with the magic `".dsh"`, the declared track count 2^24 (bytes
1, 0, 0, 0) and `20 * 2^24` further bytes. -/
def bigHeader : List Nat := [46, 100, 115, 104, 1, 0, 0, 0] ++ List.replicate 335544320 0

/-! ## Cancellation -/

/-- The part of `input_thread_t` the access part is called with.
Modelled from the spec: `b_die` is the flag of the host by which it asks the
input thread to stop; the source file never mentions it. -/
structure access_input_t where
  b_die : Bool
  p_access_data : access_sys_t
  deriving DecidableEq, Repr

/-- `Read( p_input, p_buffer, i_len )` from its first line,
`p_sys = p_input->p_access_data`; nothing else of `p_input` is read. -/
def ReadInput (p_input : access_input_t) (env : List (Option VLCMediaSample)) (i_len : Nat) :
    ReadOutcome :=
  Read p_input.p_access_data env i_len

/-! ## The loop states of a `Read` call -/

/-- The states of the local variables at the top of the `while` loop that a
`Read( p_input, p_buffer, i_len )` call on the session `p_sys` goes through,
whatever the capture filters answer: the initial one, and the one after each
"Get new sample/frame from next stream". -/
inductive LoopReach (p_sys : access_sys_t) (i_len : Nat) : ReadState → Prop where
  | start : LoopReach p_sys i_len { p_sys := p_sys, p_buffer := [], i_len := i_len, i_data := 0 }
  | pass (r r1 : ReadState) (o : Option VLCMediaSample) :
      LoopReach p_sys i_len r → r.i_len ≠ 0 → ReadDrain r = .next r1 →
      LoopReach p_sys i_len (ReadFetch r1 o)

/-! ## Lemmas on buffers -/

@[simp] theorem SetDWBE_length (dw : Nat) : (SetDWBE dw).length = 4 := rfl

@[simp] theorem SetQWBE_length (qw : Nat) : (SetQWBE qw).length = 8 := rfl

@[simp] theorem fourccBytes_length (v : Nat) : (fourccBytes v).length = 4 := rfl

theorem memcpy_mid (a x b src : List Nat) (n : Nat) (hn : n = a.length)
    (hx : x.length = src.length) : memcpy (a ++ x ++ b) n src = a ++ src ++ b := by
  subst hn
  have h1 : List.take a.length (a ++ x ++ b) = a := by
    rw [List.append_assoc, List.take_left]
  have h2 : List.drop (a.length + src.length) (a ++ x ++ b) = b := by
    rw [← hx, ← List.length_append, List.drop_left]
  unfold memcpy
  rw [h1, h2]

theorem realloc_grow (buf : List Nat) (k : Nat) :
    realloc buf (buf.length + k) = buf ++ List.replicate k 0 := by
  unfold realloc
  rw [List.take_of_length_le (by omega)]
  congr 2
  omega

theorem record_write (p k f a b c : List Nat) (pos : Nat) (hpos : pos = p.length)
    (hk : k.length = 4) (hf : f.length = 4) (ha : a.length = 4) (hb : b.length = 4)
    (hc : c.length = 4) :
    memcpy (memcpy (memcpy (memcpy (memcpy (realloc p (pos + 20)) pos k) (pos + 4) f)
      (pos + 8) a) (pos + 12) b) (pos + 16) c = p ++ (k ++ f ++ a ++ b ++ c) := by
  subst hpos
  have z : List.replicate 20 0 = [0, 0, 0, 0] ++ ([0, 0, 0, 0] ++ ([0, 0, 0, 0] ++
      ([0, 0, 0, 0] ++ [0, 0, 0, 0]))) := by decide
  rw [realloc_grow, z]
  have e1 := memcpy_mid p [0, 0, 0, 0] ([0, 0, 0, 0] ++ ([0, 0, 0, 0] ++
      ([0, 0, 0, 0] ++ [0, 0, 0, 0]))) k p.length rfl (by simp [hk])
  have e2 := memcpy_mid (p ++ k) [0, 0, 0, 0] ([0, 0, 0, 0] ++
      ([0, 0, 0, 0] ++ [0, 0, 0, 0])) f (p.length + 4) (by simp [hk]) (by simp [hf])
  have e3 := memcpy_mid (p ++ k ++ f) [0, 0, 0, 0]
      ([0, 0, 0, 0] ++ [0, 0, 0, 0]) a (p.length + 8) (by simp [hk, hf]) (by simp [ha])
  have e4 := memcpy_mid (p ++ k ++ f ++ a) [0, 0, 0, 0]
      [0, 0, 0, 0] b (p.length + 12) (by simp [hk, hf, ha]) (by simp [hb])
  have e5 := memcpy_mid (p ++ k ++ f ++ a ++ b) [0, 0, 0, 0]
      [] c (p.length + 16) (by simp [hk, hf, ha, hb]) (by simp [hc])
  simp only [List.append_assoc, List.append_nil] at e1 e2 e3 e4 e5 ⊢
  rw [e1, e2, e3, e4, e5]

theorem trackRecord_length (st : dshow_stream_t) : (trackRecord st).length = 20 := by
  unfold trackRecord
  split <;> simp [cstr]

theorem records_length (l : List dshow_stream_t) :
    (l.map trackRecord).flatten.length = 20 * l.length := by
  induction l with
  | nil => rfl
  | cons st l ih => simp [trackRecord_length, ih]; omega

/-- What a successful `OpenDevice` does to a session whose header buffer is
full (`i_header_pos = i_header_size =` the buffer's length). -/
theorem OpenDevice_some (s s1 : access_sys_t) (dev : CaptureDevice)
    (hlen : s.p_header.length = s.i_header_size) (hpos : s.i_header_pos = s.i_header_size)
    (h : OpenDevice s dev = some s1) :
    ∃ st, ValidStream st ∧ st.i_data_size = 0 ∧ st.i_data_pos = 0 ∧
      s1.pp_streams = s.pp_streams ++ [st] ∧
      s1.p_header = memcpy (s.p_header ++ trackRecord st) 4
        (SetDWBE (toUInt32 (s.pp_streams.length + 1))) ∧
      s1.i_header_size = s.i_header_size + 20 ∧ s1.i_header_pos = s.i_header_size + 20 ∧
      s1.i_current_stream = s.i_current_stream := by
  unfold OpenDevice at h
  split at h
  · cases h
  split at h
  · cases h
  split at h
  · rename_i hv
    split at h
    · cases h
    · rename_i fcc hf
      injection h with h
      subst h
      refine ⟨{ mt := dev.mt, i_fourcc := fcc, i_data_size := 0, i_data_pos := 0, p_data := [] },
        Or.inl ⟨hv, hf⟩, rfl, rfl, ?_, ?_, rfl, rfl, rfl⟩
      · simp [addStream]
      · simp only [addStream, trackRecord, hv, if_true, List.length_append, List.length_singleton]
        rw [hpos, ← hlen, record_write s.p_header (cstr "vids") (fourccBytes fcc)
          (SetDWBE (toUInt32 dev.mt.biWidth)) (SetDWBE (toUInt32 dev.mt.biHeight)) (SetDWBE 0)
          _ rfl rfl rfl rfl rfl rfl, Nat.cast_add, Nat.cast_one]
  split at h
  · rename_i hv ha
    split at h
    · cases h
    · rename_i fcc hf
      injection h with h
      subst h
      refine ⟨{ mt := dev.mt, i_fourcc := fcc, i_data_size := 0, i_data_pos := 0, p_data := [] },
        Or.inr ⟨ha.1, ha.2, hf⟩, rfl, rfl, ?_, ?_, rfl, rfl, rfl⟩
      · simp [addStream]
      · simp only [addStream, trackRecord, hv, if_false, List.length_append, List.length_singleton]
        rw [hpos, ← hlen, record_write s.p_header (cstr "auds") (fourccBytes fcc)
          (SetDWBE dev.mt.nChannels) (SetDWBE dev.mt.nSamplesPerSec)
          (SetDWBE dev.mt.wBitsPerSample) _ rfl rfl rfl rfl rfl rfl, Nat.cast_add, Nat.cast_one]
  · cases h

theorem HeaderInv.length {s : access_sys_t} (h : HeaderInv s) :
    s.p_header.length = s.i_header_size := by
  obtain ⟨cnt, hc, _, hh⟩ := h.hdr
  rw [hh, h.size, List.length_append, List.length_append, records_length, hc]
  simp [cstr]

theorem HeaderInv_init : HeaderInv initSys where
  size := rfl
  pos := rfl
  hdr := ⟨SetDWBE 1, rfl, fun h => absurd rfl h, by decide⟩
  valid := fun st h => by simp [initSys] at h
  cur := rfl

theorem HeaderInv_OpenDevice {s s1 : access_sys_t} {dev : CaptureDevice} (h : HeaderInv s)
    (ho : OpenDevice s dev = some s1) :
    HeaderInv s1 ∧ s1.pp_streams.length = s.pp_streams.length + 1 := by
  obtain ⟨st, hv, hsz, hps, hpp, hhd, hs, hp, hc⟩ := OpenDevice_some s s1 dev h.length h.pos ho
  obtain ⟨cnt, hcl, _, hh⟩ := h.hdr
  refine ⟨⟨?_, ?_, ?_, ?_, ?_⟩, ?_⟩
  · rw [hs, h.size, hpp]; simp; omega
  · rw [hp, hs]
  · refine ⟨SetDWBE (toUInt32 s1.pp_streams.length), rfl, fun _ => rfl, ?_⟩
    rw [hhd, hh, hpp, List.append_assoc,
      memcpy_mid (cstr ".dsh") cnt _ _ 4 rfl (by simp [hcl])]
    simp
  · intro x hx
    rw [hpp, List.mem_append, List.mem_singleton] at hx
    rcases hx with hx | hx
    · exact h.valid x hx
    · subst hx; exact ⟨hv, hsz, hps⟩
  · rw [hc, h.cur]
  · rw [hpp]; simp

theorem HeaderInv_tryOpen {s : access_sys_t} (dev : CaptureDevice) (h : HeaderInv s) :
    HeaderInv (tryOpen s dev) ∧ (tryOpen s dev).pp_streams.length ≤ s.pp_streams.length + 1 := by
  unfold tryOpen
  cases ho : OpenDevice s dev with
  | none => exact ⟨h, Nat.le_succ _⟩
  | some s1 =>
    obtain ⟨h1, h2⟩ := HeaderInv_OpenDevice h ho
    exact ⟨h1, le_of_eq h2⟩

theorem HeaderInv_foldl (devs : List CaptureDevice) :
    ∀ s : access_sys_t, HeaderInv s → HeaderInv (devs.foldl tryOpen s) := by
  induction devs with
  | nil => intro s h; exact h
  | cons d ds ih => intro s h; exact ih _ (HeaderInv_tryOpen d h).1

/-- The header of a session with at least one stream is the container header
of its streams. -/
theorem HeaderInv.header {s : access_sys_t} (h : HeaderInv s) (hn : s.pp_streams ≠ []) :
    s.p_header = containerHeader s.pp_streams := by
  obtain ⟨cnt, _, hc, hh⟩ := h.hdr
  rw [hh, hc hn]
  rfl

/-- What `AccessOpen` leaves on success. -/
theorem AccessOpen_some {vdev adev : CaptureDevice} {s : access_sys_t}
    (h : AccessOpen vdev adev = some s) :
    s.pp_streams ≠ [] ∧ s.pp_streams.length ≤ 2 ∧
    s.p_header = containerHeader s.pp_streams ∧
    s.i_header_size = 8 + 20 * s.pp_streams.length ∧ s.i_header_pos = 0 ∧
    s.i_current_stream = 0 ∧
    (∀ st ∈ s.pp_streams, ValidStream st ∧ st.i_data_size = 0 ∧ st.i_data_pos = 0) ∧
    s.pp_streams = (tryOpen (tryOpen initSys vdev) adev).pp_streams := by
  unfold AccessOpen at h
  have h1 := HeaderInv_tryOpen vdev HeaderInv_init
  have h2 := HeaderInv_tryOpen adev h1.1
  simp only at h
  split at h
  · cases h
  · rename_i hne
    injection h with h
    subst h
    have hne1 : (tryOpen (tryOpen initSys vdev) adev).pp_streams ≠ [] := by
      intro h0
      apply hne
      simp [access_sys_t.i_streams, h0]
    refine ⟨hne1, ?_, h2.1.header hne1, h2.1.size, rfl, rfl, h2.1.valid, rfl⟩
    have := h1.2
    have := h2.2
    simp only [initSys, List.length_nil] at *
    omega

theorem records_drop (l : List dshow_stream_t) (i : Nat) :
    (l.map trackRecord).flatten.drop (20 * i) = ((l.drop i).map trackRecord).flatten := by
  induction l generalizing i with
  | nil => simp
  | cons st l ih =>
    cases i with
    | zero => simp
    | succ i =>
      have e : 20 * (i + 1) = (trackRecord st).length + 20 * i := by
        rw [trackRecord_length]; omega
      simp only [List.map_cons, List.flatten_cons, List.drop_succ_cons]
      rw [e, ← List.drop_drop, List.drop_left, ih]

theorem records_drop_take (l : List dshow_stream_t) (i : Nat) (hi : i < l.length) :
    ((l.map trackRecord).flatten.drop (20 * i)).take 20 = trackRecord (l.get ⟨i, hi⟩) := by
  rw [records_drop]
  have hd : l.drop i = l.get ⟨i, hi⟩ :: l.drop (i + 1) := by
    simp
  rw [hd]
  simp only [List.map_cons, List.flatten_cons]
  rw [← trackRecord_length (l.get ⟨i, hi⟩), List.take_left]

theorem containerHeader_length (l : List dshow_stream_t) :
    (containerHeader l).length = 8 + 20 * l.length := by
  unfold containerHeader
  rw [List.length_append, List.length_append, records_length]
  simp [cstr]

theorem containerHeader_drop (l : List dshow_stream_t) (k : Nat) :
    (containerHeader l).drop (8 + k) = (l.map trackRecord).flatten.drop k := by
  unfold containerHeader
  have e : 8 + k = (cstr ".dsh" ++ SetDWBE (toUInt32 l.length)).length + k := by
    simp [cstr]
  rw [e, ← List.drop_drop, List.drop_left]

theorem toUInt32_natCast (n : Nat) : toUInt32 (n : Int) = n % 4294967296 := by
  unfold toUInt32
  omega

/-- C4. After `AccessOpen` has opened `n ≥ 1` tracks the header buffer is
`8 + 20 * n` bytes long: bytes 0-3 are the magic `".dsh"`, bytes 4-7 are `n`
as a big-endian u32, and the 20 bytes at offset `8 + 20 * i` are the record of
track `i`: kind tag, fourcc bytes, then width, height, 0 for a video track
and channels, sample rate, bits per sample for an audio track, each as a
big-endian u32. -/
theorem C4_header_layout (vdev adev : CaptureDevice) (p_sys : access_sys_t)
    (h : AccessOpen vdev adev = some p_sys) :
    1 ≤ p_sys.i_streams ∧
    p_sys.p_header.length = 8 + 20 * p_sys.i_streams ∧
    p_sys.i_header_size = 8 + 20 * p_sys.i_streams ∧
    p_sys.p_header.take 4 = cstr ".dsh" ∧
    (p_sys.p_header.drop 4).take 4 = SetDWBE p_sys.i_streams ∧
    ∀ (i : Nat) (hi : i < p_sys.pp_streams.length),
      (p_sys.p_header.drop (8 + 20 * i)).take 20 = trackRecord (p_sys.pp_streams.get ⟨i, hi⟩) ∧
      (trackRecord (p_sys.pp_streams.get ⟨i, hi⟩) =
          cstr "vids" ++ fourccBytes (p_sys.pp_streams.get ⟨i, hi⟩).i_fourcc ++
            SetDWBE (toUInt32 (p_sys.pp_streams.get ⟨i, hi⟩).mt.biWidth) ++
            SetDWBE (toUInt32 (p_sys.pp_streams.get ⟨i, hi⟩).mt.biHeight) ++ SetDWBE 0 ∨
        trackRecord (p_sys.pp_streams.get ⟨i, hi⟩) =
          cstr "auds" ++ fourccBytes (p_sys.pp_streams.get ⟨i, hi⟩).i_fourcc ++
            SetDWBE (p_sys.pp_streams.get ⟨i, hi⟩).mt.nChannels ++
            SetDWBE (p_sys.pp_streams.get ⟨i, hi⟩).mt.nSamplesPerSec ++
            SetDWBE (p_sys.pp_streams.get ⟨i, hi⟩).mt.wBitsPerSample) := by
  obtain ⟨hne, hle, hh, hs, _, _, _, _⟩ := AccessOpen_some h
  have hpos : 1 ≤ p_sys.pp_streams.length := by
    cases hl : p_sys.pp_streams with
    | nil => exact absurd hl hne
    | cons a l => simp
  have hcnt : toUInt32 (p_sys.pp_streams.length : Int) = p_sys.pp_streams.length := by
    rw [toUInt32_natCast]; omega
  refine ⟨hpos, ?_, hs, ?_, ?_, ?_⟩
  · rw [hh, containerHeader_length]; rfl
  · rw [hh]; rfl
  · rw [hh]
    unfold containerHeader
    rw [List.append_assoc, hcnt]
    rfl
  · intro i hi
    refine ⟨?_, ?_⟩
    · rw [hh, containerHeader_drop, records_drop_take]
    · unfold trackRecord
      split
      · exact Or.inl rfl
      · exact Or.inr rfl

theorem AccessOpen_scenario : AccessOpen rv24Device arawDevice = some scenarioSys := by
  decide

/-- C4 at the concrete scenario (one video and one audio track). -/
theorem C4_header_layout_witness :
    AccessOpen rv24Device arawDevice = some scenarioSys ∧
    1 ≤ scenarioSys.i_streams ∧
    scenarioSys.p_header.length = 8 + 20 * scenarioSys.i_streams ∧
    scenarioSys.p_header.take 4 = cstr ".dsh" :=
  have h := C4_header_layout rv24Device arawDevice scenarioSys AccessOpen_scenario
  ⟨AccessOpen_scenario, h.1, h.2.1, h.2.2.2.1⟩

/-! ## Machine-integer lemmas -/

theorem toInt32_small (n : Nat) (h : n < 2147483648) : toInt32 n = n := by
  unfold toInt32
  have : n % 4294967296 = n := Nat.mod_eq_of_lt (by omega)
  rw [this, if_pos h]

theorem wrap32_small (i : Int) (h0 : -2147483648 ≤ i) (h1 : i < 2147483648) : wrap32 i = i := by
  unfold wrap32 toInt32 toUInt32
  split <;> omega

theorem toUInt32_small (i : Int) (h0 : 0 ≤ i) (h1 : i < 4294967296) : (toUInt32 i : Int) = i := by
  unfold toUInt32
  omega

theorem GetDWBE_lt (p : List Nat) : GetDWBE p < 4294967296 := by
  unfold GetDWBE
  split <;> omega

theorem GetDWBE_SetDWBE (dw : Nat) (t : List Nat) :
    GetDWBE (SetDWBE dw ++ t) = dw % 4294967296 := by
  simp only [SetDWBE, GetDWBE, List.cons_append, List.nil_append]
  omega

theorem cstring_cons_zero (t : List Nat) : cstring (0 :: t) = [] := by
  simp [cstring]

theorem cstring_cons_pos (a : Nat) (t : List Nat) (h : a ≠ 0) :
    cstring (a :: t) = a :: cstring t := by
  unfold cstring
  rw [List.takeWhile_cons_of_pos]
  simpa using h

theorem strcmp_dsh (a b c d e : Nat) (t : List Nat) :
    strcmp (a :: b :: c :: d :: e :: t) ".dsh" = false ↔
      a = 46 ∧ b = 100 ∧ c = 115 ∧ d = 104 ∧ e = 0 := by
  have hc : cstr ".dsh" = [46, 100, 115, 104] := by decide
  simp only [strcmp, hc, bne_eq_false_iff_eq]
  by_cases ha : a = 0
  · subst ha; simp [cstring_cons_zero]
  rw [cstring_cons_pos a _ ha]
  by_cases hb : b = 0
  · subst hb; simp [cstring_cons_zero]
  rw [cstring_cons_pos b _ hb]
  by_cases hcc : c = 0
  · subst hcc; simp [cstring_cons_zero]
  rw [cstring_cons_pos c _ hcc]
  by_cases hd : d = 0
  · subst hd; simp [cstring_cons_zero]
  rw [cstring_cons_pos d _ hd]
  by_cases he : e = 0
  · subst he; simp [cstring_cons_zero]
  · rw [cstring_cons_pos e _ he]; simp [he]

/-! ## `DemuxOpen` -/

theorem list_len8 (l : List Nat) (h : 8 ≤ l.length) :
    ∃ a b c d e f g k t, l = a :: b :: c :: d :: e :: f :: g :: k :: t := by
  match l, h with
  | a :: b :: c :: d :: e :: f :: g :: k :: t, _ => exact ⟨a, b, c, d, e, f, g, k, t, rfl⟩

/-- Exactly when `DemuxOpen` succeeds, and what it leaves. -/
theorem DemuxOpen_some_iff (host : Host) (p_input r : input_thread_t) :
    DemuxOpen host p_input = some r ↔
      8 ≤ p_input.stream.length ∧ p_input.stream.take 5 = [46, 100, 115, 104, 0] ∧
      0 < GetDWBE (p_input.stream.drop 4) ∧ host.initStream = true ∧ host.addProgram = true ∧
      8 + 20 * GetDWBE (p_input.stream.drop 4) ≤ p_input.stream.length ∧
      r = { stream := p_input.stream.drop (8 + 20 * GetDWBE (p_input.stream.drop 4))
            pp_es := parseRecords host (GetDWBE (p_input.stream.drop 4)) 0
              ((p_input.stream.take (8 + 20 * GetDWBE (p_input.stream.drop 4))).drop 8) []
            clockRefs := p_input.clockRefs } := by
  by_cases h8 : 8 ≤ p_input.stream.length
  swap
  · have : DemuxOpen host p_input = none := by
      unfold DemuxOpen input_Peek
      simp only [List.length_take]
      rw [if_pos (by omega)]
    rw [this]
    constructor
    · intro h; cases h
    · intro h; exact absurd h.1 h8
  obtain ⟨a, b, c, d, e, f, g, k, t, hs⟩ := list_len8 _ h8
  unfold DemuxOpen input_Peek input_SplitBuffer
  simp only [hs, List.take_succ_cons, List.take_zero, List.drop_succ_cons, List.drop_zero,
    List.length_cons, List.length_nil]
  have hg : GetDWBE (e :: f :: g :: k :: t) = GetDWBE [e, f, g, k] := rfl
  rw [hg]
  rw [if_neg (by omega)]
  by_cases hm : strcmp [a, b, c, d, e, f, g, k] ".dsh" = false
  swap
  · have hm1 : strcmp [a, b, c, d, e, f, g, k] ".dsh" = true := by
      cases hx : strcmp [a, b, c, d, e, f, g, k] ".dsh" with
      | true => rfl
      | false => exact absurd hx hm
    simp only [hm1, Bool.true_or, if_true]
    constructor
    · intro h; cases h
    · rintro ⟨_, h5, _⟩
      exfalso
      apply hm
      rw [strcmp_dsh]
      simp only [List.cons.injEq, and_true] at h5
      exact h5
  have hm2 := (strcmp_dsh a b c d e [f, g, k]).1 hm
  obtain ⟨ha, hb, hc, hd, he⟩ := hm2
  subst ha hb hc hd he
  simp only [hm, Bool.false_or]
  have hlt : GetDWBE [0, f, g, k] < 16777216 := by
    simp only [GetDWBE]; omega
  generalize hn : GetDWBE [0, f, g, k] = n at hlt ⊢
  by_cases h0 : n = 0
  · subst h0
    simp
  have hi32 : toInt32 n = (n : Int) := toInt32_small n (by omega)
  have hw1 : wrap32 (20 * (n : Int)) = 20 * (n : Int) := wrap32_small _ (by omega) (by omega)
  have hw1' : wrap32 ((n : Int) * 20) = (n : Int) * 20 := wrap32_small _ (by omega) (by omega)
  have hw2 : wrap32 (8 + 20 * (n : Int)) = 8 + 20 * (n : Int) :=
    wrap32_small _ (by omega) (by omega)
  have hw2' : wrap32 (8 + (n : Int) * 20) = 8 + (n : Int) * 20 :=
    wrap32_small _ (by omega) (by omega)
  have hu : toUInt32 (8 + 20 * (n : Int)) = 8 + 20 * n := by
    have : (8 + 20 * (n : Int)) = ((8 + 20 * n : Nat) : Int) := by push_cast; ring
    rw [this, toUInt32_natCast]
    omega
  have hu' : toUInt32 (8 + (n : Int) * 20) = 8 + 20 * n := by
    have : (8 + (n : Int) * 20) = ((8 + 20 * n : Nat) : Int) := by push_cast; ring
    rw [this, toUInt32_natCast]
    omega
  simp only [hi32, hw1, hw1', hw2, hw2', hu, hu', Int.toNat_ofNat]
  rw [if_neg (by simp; omega)]
  cases host.initStream <;> cases host.addProgram <;>
    simp only [Bool.not_true, Bool.not_false, if_true, if_false, Bool.false_eq_true] <;>
    try (simp; done)
  by_cases hp : 8 + 20 * n ≤ t.length + 8
  · have hl : ¬ (((List.take (8 + 20 * n) (46 :: 100 :: 115 :: 104 :: 0 :: f :: g :: k :: t)).length
        : Nat) : Int) < 8 + 20 * (n : Int) := by
      simp only [List.length_take, List.length_cons]
      omega
    rw [if_neg hl]
    constructor
    · intro h
      injection h with h
      subst h
      exact ⟨by omega, trivial, by omega, trivial, trivial, by omega, rfl⟩
    · rintro ⟨_, _, _, _, _, _, hr⟩
      rw [hr]
  · have hl : (((List.take (8 + 20 * n) (46 :: 100 :: 115 :: 104 :: 0 :: f :: g :: k :: t)).length
        : Nat) : Int) < 8 + 20 * (n : Int) := by
      simp only [List.length_take, List.length_cons]
      omega
    rw [if_pos hl]
    constructor
    · intro h; cases h
    · rintro ⟨_, _, _, _, _, h6, _⟩
      exfalso; apply hp; omega

/-- C6. `DemuxOpen` fails when fewer than 8 bytes can be peeked, when one of
the first four bytes differs from the magic `".dsh"`, when the declared track
count is 0, or when fewer than `8 + 20 * count` bytes can be peeked. -/
theorem C6_header_rejection (host : Host) (p_input : input_thread_t)
    (h : (input_Peek p_input 8).length < 8 ∨
      p_input.stream.take 4 ≠ cstr ".dsh" ∨
      GetDWBE (p_input.stream.drop 4) = 0 ∨
      (input_Peek p_input (8 + 20 * GetDWBE (p_input.stream.drop 4))).length <
        8 + 20 * GetDWBE (p_input.stream.drop 4)) :
    DemuxOpen host p_input = none := by
  cases hd : DemuxOpen host p_input with
  | none => rfl
  | some r =>
    exfalso
    obtain ⟨h8, h5, hpos, _, _, hlen, _⟩ := (DemuxOpen_some_iff host p_input r).1 hd
    rcases h with h | h | h | h
    · simp only [input_Peek, List.length_take] at h
      omega
    · apply h
      have e : p_input.stream.take 4 = (p_input.stream.take 5).take 4 := by
        rw [List.take_take]; rfl
      rw [e, h5]
      decide
    · omega
    · simp only [input_Peek, List.length_take] at h
      omega

/-- C6 at the empty input, at the header of the concrete scenario with its
second magic byte altered, and at an 8-byte header that declares 0 tracks. -/
theorem C6_header_rejection_witness :
    DemuxOpen okHost ⟨[], [], []⟩ = none ∧
    (scenarioSys.p_header.set 1 68).length = scenarioSys.p_header.length ∧
    DemuxOpen okHost ⟨scenarioSys.p_header.set 1 68, [], []⟩ = none ∧
    DemuxOpen okHost ⟨[46, 100, 115, 104, 0, 0, 0, 0], [], []⟩ = none :=
  ⟨C6_header_rejection okHost ⟨[], [], []⟩ (Or.inl (by decide)),
   by decide,
   C6_header_rejection okHost ⟨scenarioSys.p_header.set 1 68, [], []⟩ (Or.inr (Or.inl (by decide))),
   C6_header_rejection okHost ⟨[46, 100, 115, 104, 0, 0, 0, 0], [], []⟩
     (Or.inr (Or.inr (Or.inl (by decide))))⟩

theorem strncmp_cons4 (a b c d : Nat) (t : List Nat) (lit : String)
    (ha : a ≠ 0) (hb : b ≠ 0) (hc : c ≠ 0) (hd : d ≠ 0) :
    strncmp (a :: b :: c :: d :: t) lit 4 = ([a, b, c, d] != (cstr lit).take 4) := by
  unfold strncmp
  rw [cstring_cons_pos a _ ha, cstring_cons_pos b _ hb, cstring_cons_pos c _ hc,
    cstring_cons_pos d _ hd]
  simp

theorem videoFourcc_lt {sub : MediaSubtype} {v : Nat} (h : videoFourcc sub = some v) :
    v < 4294967296 := by
  cases sub <;> simp [videoFourcc, VLC_FOURCC] at h <;> omega

theorem audioFourcc_lt {sub : MediaSubtype} {v : Nat} (h : audioFourcc sub = some v) :
    v < 4294967296 := by
  cases sub <;> simp [audioFourcc, VLC_FOURCC] at h
  omega

theorem VLC_FOURCC_bytes (v : Nat) (h : v < 4294967296) :
    VLC_FOURCC (v % 256) ((v / 256) % 256) ((v / 65536) % 256) ((v / 16777216) % 256) = v := by
  unfold VLC_FOURCC
  omega

theorem toUInt32_lt (i : Int) : toUInt32 i < 4294967296 := by
  unfold toUInt32
  omega

theorem toInt32_toUInt32 (i : Int) (h0 : -2147483648 ≤ i) (h1 : i < 2147483648) :
    toInt32 (toUInt32 i) = i := wrap32_small i h0 h1

theorem toUInt16_small (n : Nat) (h : n < 65536) : toUInt16 (n : Int) = n := by
  unfold toUInt16
  omega

/-- The stream `DemuxOpen` builds from the record of a valid opened track. -/
theorem parseRecord_trackRecord (host : Host) (i : Nat) (st : dshow_stream_t) (tail : List Nat)
    (hv : ValidStream st) (hr : FieldsInRange st) :
    ∃ p_es, parseRecord host i (trackRecord st ++ tail) = some p_es ∧
      p_es.i_id = i + 1 ∧ p_es.i_stream_id = i + 1 ∧ p_es.i_cat = streamCat st ∧
      p_es.i_fourcc = st.i_fourcc ∧ esDescriptor p_es = some (streamDescriptor st) ∧
      p_es.p_decoder_fifo = host.selectES (streamCat st) st.i_fourcc := by
  obtain ⟨hw0, hw1, hh0, hh1, hch, hsr, hbs⟩ := hr
  have hvids : cstr "vids" = [118, 105, 100, 115] := by decide
  have hauds : cstr "auds" = [97, 117, 100, 115] := by decide
  rcases hv with ⟨hm, hf⟩ | ⟨hm, _, hf⟩
  · have hlt := videoFourcc_lt hf
    have e1 : strncmp (trackRecord st ++ tail) "auds" 4 = true := by
      simp only [trackRecord, hm, if_true, hvids, List.cons_append, List.nil_append]
      rw [strncmp_cons4 _ _ _ _ _ _ (by decide) (by decide) (by decide) (by decide)]
      decide
    have e2 : strncmp (trackRecord st ++ tail) "vids" 4 = false := by
      simp only [trackRecord, hm, if_true, hvids, List.cons_append, List.nil_append]
      rw [strncmp_cons4 _ _ _ _ _ _ (by decide) (by decide) (by decide) (by decide)]
      decide
    unfold parseRecord
    simp only [e1, e2, Bool.not_true, Bool.not_false, if_true, if_false, Bool.false_eq_true]
    have hfc : VLC_FOURCC ((trackRecord st ++ tail).getD 4 0) ((trackRecord st ++ tail).getD 5 0)
        ((trackRecord st ++ tail).getD 6 0) ((trackRecord st ++ tail).getD 7 0) = st.i_fourcc := by
      simp only [trackRecord, hm, if_true, hvids, fourccBytes, SetDWBE, List.cons_append,
        List.nil_append, List.getD_cons_succ, List.getD_cons_zero]
      exact VLC_FOURCC_bytes _ hlt
    have hwd : toInt32 (GetDWBE ((trackRecord st ++ tail).drop 8)) = st.mt.biWidth := by
      have : (trackRecord st ++ tail).drop 8 = SetDWBE (toUInt32 st.mt.biWidth) ++
          (SetDWBE (toUInt32 st.mt.biHeight) ++ SetDWBE 0 ++ tail) := by
        simp [trackRecord, hm, hvids, fourccBytes]
      rw [this, GetDWBE_SetDWBE, Nat.mod_eq_of_lt (toUInt32_lt _), toInt32_toUInt32 _ hw0 hw1]
    have hht : toInt32 (GetDWBE ((trackRecord st ++ tail).drop 12)) = st.mt.biHeight := by
      have : (trackRecord st ++ tail).drop 12 = SetDWBE (toUInt32 st.mt.biHeight) ++
          (SetDWBE 0 ++ tail) := by
        simp [trackRecord, hm, hvids, fourccBytes, SetDWBE]
      rw [this, GetDWBE_SetDWBE, Nat.mod_eq_of_lt (toUInt32_lt _), toInt32_toUInt32 _ hh0 hh1]
    refine ⟨_, rfl, rfl, rfl, ?_, hfc, ?_, ?_⟩
    · simp [streamCat, hm]
    · simp only [esDescriptor, streamDescriptor, hm, if_true, hfc, hwd, hht]
    · simp only [hfc, streamCat, hm, if_true]
  · have hlt := audioFourcc_lt hf
    have hnv : ¬ st.mt.majortype = .MEDIATYPE_Video := by rw [hm]; decide
    have e1 : strncmp (trackRecord st ++ tail) "auds" 4 = false := by
      simp only [trackRecord, hnv, if_false, hauds, List.cons_append, List.nil_append]
      rw [strncmp_cons4 _ _ _ _ _ _ (by decide) (by decide) (by decide) (by decide)]
      decide
    unfold parseRecord
    simp only [e1, Bool.not_false, if_true]
    have hfc : VLC_FOURCC ((trackRecord st ++ tail).getD 4 0) ((trackRecord st ++ tail).getD 5 0)
        ((trackRecord st ++ tail).getD 6 0) ((trackRecord st ++ tail).getD 7 0) = st.i_fourcc := by
      simp only [trackRecord, hnv, if_false, hauds, fourccBytes, SetDWBE, List.cons_append,
        List.nil_append, List.getD_cons_succ, List.getD_cons_zero]
      exact VLC_FOURCC_bytes _ hlt
    have hc : toUInt16 (GetDWBE ((trackRecord st ++ tail).drop 8)) = st.mt.nChannels := by
      have : (trackRecord st ++ tail).drop 8 = SetDWBE st.mt.nChannels ++
          (SetDWBE st.mt.nSamplesPerSec ++ SetDWBE st.mt.wBitsPerSample ++ tail) := by
        simp [trackRecord, hnv, hauds, fourccBytes]
      rw [this, GetDWBE_SetDWBE, Nat.mod_eq_of_lt (by omega), toUInt16_small _ hch]
    have hs : GetDWBE ((trackRecord st ++ tail).drop 12) = st.mt.nSamplesPerSec := by
      have : (trackRecord st ++ tail).drop 12 = SetDWBE st.mt.nSamplesPerSec ++
          (SetDWBE st.mt.wBitsPerSample ++ tail) := by
        simp [trackRecord, hnv, hauds, fourccBytes, SetDWBE]
      rw [this, GetDWBE_SetDWBE, Nat.mod_eq_of_lt hsr]
    have hb : toUInt16 (GetDWBE ((trackRecord st ++ tail).drop 16)) = st.mt.wBitsPerSample := by
      have : (trackRecord st ++ tail).drop 16 = SetDWBE st.mt.wBitsPerSample ++ tail := by
        simp [trackRecord, hnv, hauds, fourccBytes, SetDWBE]
      rw [this, GetDWBE_SetDWBE, Nat.mod_eq_of_lt (by omega), toUInt16_small _ hbs]
    refine ⟨_, rfl, rfl, rfl, ?_, hfc, ?_, ?_⟩
    · simp [streamCat, hnv]
    · simp only [esDescriptor, streamDescriptor, hnv, if_false, hfc, hc, hs, hb]
    · simp only [hfc, streamCat, hnv, if_false]

/-- The streams `DemuxOpen` builds from the records of valid opened tracks:
one per track, in order, numbered from `i + 1`. -/
theorem parseRecords_records (host : Host) (l : List dshow_stream_t) :
    ∀ (tail : List Nat) (i : Nat) (acc : List es_descriptor_t),
      (∀ st ∈ l, ValidStream st ∧ FieldsInRange st) →
      ∃ es, parseRecords host l.length i ((l.map trackRecord).flatten ++ tail) acc = acc ++ es ∧
        es.map esDescriptor = l.map (fun st => some (streamDescriptor st)) ∧
        es.map (fun p_es => p_es.i_id) = List.range' (i + 1) l.length ∧
        es.map (fun p_es => p_es.i_stream_id) = List.range' (i + 1) l.length ∧
        es.map (fun p_es => p_es.i_cat) = l.map streamCat ∧
        es.map (fun p_es => p_es.i_fourcc) = l.map (fun st => st.i_fourcc) ∧
        es.map (fun p_es => p_es.p_decoder_fifo) =
          l.map (fun st => host.selectES (streamCat st) st.i_fourcc) := by
  induction l with
  | nil =>
    intro tail i acc _
    exact ⟨[], by simp [parseRecords], rfl, rfl, rfl, rfl, rfl, rfl⟩
  | cons st l ih =>
    intro tail i acc hv
    obtain ⟨hvs, hrs⟩ := hv st (List.mem_cons_self _ _)
    obtain ⟨p_es, hp, h1, h2, h3, h4, h5, h6⟩ :=
      parseRecord_trackRecord host i st ((l.map trackRecord).flatten ++ tail) hvs hrs
    obtain ⟨es, he, k1, k2, k3, k4, k5, k6⟩ :=
      ih tail (i + 1) (acc ++ [p_es]) (fun x hx => hv x (List.mem_cons_of_mem _ hx))
    refine ⟨p_es :: es, ?_, ?_, ?_, ?_, ?_, ?_, ?_⟩
    · simp only [List.length_cons, parseRecords, List.map_cons, List.flatten_cons,
        List.append_assoc]
      rw [hp]
      have hd : List.drop 20 (trackRecord st ++ ((l.map trackRecord).flatten ++ tail)) =
          (l.map trackRecord).flatten ++ tail := by
        rw [← trackRecord_length st, List.drop_left]
      rw [hd, he]
      simp
    · simp [k1, h5]
    · simp [k2, h1, List.range'_succ]
    · simp [k3, h2, List.range'_succ]
    · simp [k4, h3]
    · simp [k5, h4]
    · simp [k6, h6]

/-- `DemuxOpen` on the container header of `n` valid tracks (`0 < n < 2^24`),
followed by any bytes. -/
theorem DemuxOpen_containerHeader (host : Host) (l : List dshow_stream_t) (rest : List Nat)
    (refs : List Int) (hinit : host.initStream = true) (hprog : host.addProgram = true)
    (hne : l ≠ []) (hlt : l.length < 16777216)
    (hv : ∀ st ∈ l, ValidStream st ∧ FieldsInRange st) :
    ∃ es, DemuxOpen host ⟨containerHeader l ++ rest, [], refs⟩ =
        some ⟨rest, es, refs⟩ ∧
      es.map esDescriptor = l.map (fun st => some (streamDescriptor st)) ∧
      es.map (fun p_es => p_es.i_id) = List.range' 1 l.length ∧
      es.map (fun p_es => p_es.i_stream_id) = List.range' 1 l.length ∧
      es.map (fun p_es => p_es.i_cat) = l.map streamCat ∧
      es.map (fun p_es => p_es.i_fourcc) = l.map (fun st => st.i_fourcc) ∧
      es.map (fun p_es => p_es.p_decoder_fifo) =
        l.map (fun st => host.selectES (streamCat st) st.i_fourcc) := by
  have hcnt : toUInt32 (l.length : Int) = l.length := by
    rw [toUInt32_natCast]; omega
  have hpos : 0 < l.length := List.length_pos.2 hne
  have hhd : containerHeader l ++ rest =
      46 :: 100 :: 115 :: 104 :: (SetDWBE l.length ++ ((l.map trackRecord).flatten ++ rest)) := by
    unfold containerHeader
    rw [hcnt]
    simp [cstr]
  have hb0 : l.length / 16777216 % 256 = 0 := by omega
  have hg : GetDWBE ((containerHeader l ++ rest).drop 4) = l.length := by
    rw [hhd]
    simp only [List.drop_succ_cons, List.drop_zero]
    rw [GetDWBE_SetDWBE]
    omega
  have hlen : (containerHeader l ++ rest).length = 8 + 20 * l.length + rest.length := by
    rw [List.length_append, containerHeader_length]
  obtain ⟨es, he, k⟩ := parseRecords_records host l [] 0 [] hv
  refine ⟨es, ?_, k⟩
  rw [DemuxOpen_some_iff]
  simp only [hg]
  refine ⟨by omega, ?_, hpos, hinit, hprog, by omega, ?_⟩
  · rw [hhd]
    simp [SetDWBE, hb0]
  · have e1 : List.drop (8 + 20 * l.length) (containerHeader l ++ rest) = rest := by
      rw [← containerHeader_length l, List.drop_left]
    have e2 : List.take (8 + 20 * l.length) (containerHeader l ++ rest) = containerHeader l := by
      rw [← containerHeader_length l, List.take_left]
    have e3 : List.drop 8 (containerHeader l) = (l.map trackRecord).flatten := by
      simpa using containerHeader_drop l 0
    rw [e1, e2, e3]
    simp only [List.append_nil, List.nil_append] at he
    rw [he]

theorem AccessOpen_eq_openDevices (vdev adev : CaptureDevice) :
    AccessOpen vdev adev =
      if (openDevices [vdev, adev]).i_streams = 0 then none
      else some (openDevices [vdev, adev]) := rfl

/-- C1. Header round trip: for the session built by calling `OpenDevice` once
per device of a list (`AccessOpen` does so for its video and its audio
device), with at least one and fewer than 2^24 opened tracks whose fields are
within the range of the types that store them, `DemuxOpen` accepts the header
bytes, consumes exactly them, and registers streams with the same
descriptors (kind, fourcc, field values) in the same order. -/
theorem C1_header_round_trip (host : Host) (devs : List CaptureDevice)
    (rest : List Nat) (refs : List Int)
    (hinit : host.initStream = true) (hprog : host.addProgram = true)
    (hne : (openDevices devs).pp_streams ≠ [])
    (hlt : (openDevices devs).pp_streams.length < 16777216)
    (hr : ∀ st ∈ (openDevices devs).pp_streams, FieldsInRange st) :
    ∃ r, DemuxOpen host ⟨(openDevices devs).p_header ++ rest, [], refs⟩ = some r ∧
      r.stream = rest ∧
      r.pp_es.map esDescriptor =
        (openDevices devs).pp_streams.map (fun st => some (streamDescriptor st)) := by
  have hinv : HeaderInv (devs.foldl tryOpen initSys) := HeaderInv_foldl devs _ HeaderInv_init
  have e1 : (openDevices devs).pp_streams = (devs.foldl tryOpen initSys).pp_streams := rfl
  have e2 : (openDevices devs).p_header = (devs.foldl tryOpen initSys).p_header := rfl
  rw [e1] at hne hlt hr ⊢
  rw [e2]
  obtain ⟨es, he, k, _⟩ := DemuxOpen_containerHeader host _ rest refs hinit hprog
    hne hlt (fun st h => ⟨(hinv.valid st h).1, hr st h⟩)
  rw [hinv.header hne]
  exact ⟨_, he, rfl, k⟩

/-- C1 at the concrete scenario: one video track ("RV24", 320x240) and one
audio track ("araw", 2 channels, 44100 Hz, 16 bits). -/
theorem C1_header_round_trip_witness :
    AccessOpen rv24Device arawDevice = some (openDevices [rv24Device, arawDevice]) ∧
    ∃ r, DemuxOpen okHost ⟨(openDevices [rv24Device, arawDevice]).p_header ++ [], [], []⟩ =
        some r ∧
      r.stream = [] ∧
      r.pp_es.map esDescriptor =
        (openDevices [rv24Device, arawDevice]).pp_streams.map
          (fun st => some (streamDescriptor st)) :=
  ⟨by decide,
   C1_header_round_trip okHost [rv24Device, arawDevice] [] [] rfl rfl
    (by decide) (by decide) (by decide)⟩

/-- C5. The code at an audio track with 2 channels and 44100 Hz: `OpenDevice`
stores the channel count at record offset 8 and the sample rate at record
offset 12, and `DemuxOpen` reads a record laid out as the format comment
says (sample rate at offset 8, channels at offset 12) the other way round. -/
theorem C5_audio_record_offsets :
    (AccessOpen noDevice arawDevice).map
        (fun p_sys => (GetDWBE (p_sys.p_header.drop (8 + 8)),
          GetDWBE (p_sys.p_header.drop (8 + 12)))) = some (2, 44100) ∧
    (DemuxOpen okHost
        ⟨[46, 100, 115, 104, 0, 0, 0, 1, 97, 117, 100, 115, 97, 114, 97, 119,
          0, 0, 172, 68, 0, 0, 0, 2, 0, 0, 0, 16], [], []⟩).map
        (fun r => r.pp_es.map (fun p_es =>
          p_es.p_waveformatex.map (fun wf => (wf.nChannels, wf.nSamplesPerSec)))) =
      some [some (44100, 2)] := by
  constructor <;> decide

/-! ## Stream registration for arbitrary accepted headers -/

theorem cstring_take4 (p : List Nat) (x1 x2 x3 x4 : Nat)
    (h1 : x1 ≠ 0) (h2 : x2 ≠ 0) (h3 : x3 ≠ 0) (h4 : x4 ≠ 0) :
    (cstring p).take 4 = [x1, x2, x3, x4] ↔ p.take 4 = [x1, x2, x3, x4] := by
  rcases p with _ | ⟨a, _ | ⟨b, _ | ⟨c, _ | ⟨d, t⟩⟩⟩⟩
  · simp [cstring]
  · by_cases ha : a = 0
    · subst ha; simp [cstring_cons_zero]
    · rw [cstring_cons_pos a _ ha]; simp [cstring]
  · by_cases ha : a = 0
    · subst ha; simp [cstring_cons_zero]
    rw [cstring_cons_pos a _ ha]
    by_cases hb : b = 0
    · subst hb; simp [cstring_cons_zero]
    · rw [cstring_cons_pos b _ hb]; simp [cstring]
  · by_cases ha : a = 0
    · subst ha; simp [cstring_cons_zero]
    rw [cstring_cons_pos a _ ha]
    by_cases hb : b = 0
    · subst hb; simp [cstring_cons_zero]
    rw [cstring_cons_pos b _ hb]
    by_cases hc : c = 0
    · subst hc; simp [cstring_cons_zero]
    · rw [cstring_cons_pos c _ hc]; simp [cstring]
  · by_cases ha : a = 0
    · subst ha; simp [cstring_cons_zero]; intro h; exact absurd h.symm h1
    rw [cstring_cons_pos a _ ha]
    by_cases hb : b = 0
    · subst hb; simp [cstring_cons_zero]; intro _ h; exact absurd h.symm h2
    rw [cstring_cons_pos b _ hb]
    by_cases hc : c = 0
    · subst hc; simp [cstring_cons_zero]; intro _ _ h; exact absurd h.symm h3
    rw [cstring_cons_pos c _ hc]
    by_cases hd : d = 0
    · subst hd; simp [cstring_cons_zero]; intro _ _ _ h; exact absurd h.symm h4
    · rw [cstring_cons_pos d _ hd]; simp

theorem strncmp_false_iff (p : List Nat) (x1 x2 x3 x4 : Nat) (lit : String)
    (hl : cstr lit = [x1, x2, x3, x4])
    (h1 : x1 ≠ 0) (h2 : x2 ≠ 0) (h3 : x3 ≠ 0) (h4 : x4 ≠ 0) :
    strncmp p lit 4 = false ↔ p.take 4 = cstr lit := by
  unfold strncmp
  rw [hl, bne_eq_false_iff_eq]
  exact cstring_take4 p x1 x2 x3 x4 h1 h2 h3 h4

/-- The id, stream id and kind of the stream `DemuxOpen` builds from a record
depend on the record's kind tag only. -/
theorem parseRecord_registration (host : Host) (i : Nat) (p : List Nat) :
    (parseRecord host i p).map (fun p_es => (p_es.i_id, p_es.i_stream_id, p_es.i_cat)) =
      registration i (p.take 4) := by
  have ha := strncmp_false_iff p 97 117 100 115 "auds" (by decide) (by decide) (by decide)
    (by decide) (by decide)
  have hv := strncmp_false_iff p 118 105 100 115 "vids" (by decide) (by decide) (by decide)
    (by decide) (by decide)
  unfold parseRecord registration
  by_cases h1 : strncmp p "auds" 4 = false
  · rw [if_pos (by simp [h1]), if_pos (ha.1 h1)]
    rfl
  · have h1' : ¬ p.take 4 = cstr "auds" := fun h => h1 (ha.2 h)
    rw [if_neg (by simpa using h1), if_neg h1']
    by_cases h2 : strncmp p "vids" 4 = false
    · rw [if_pos (by simp [h2]), if_pos (hv.1 h2)]
      rfl
    · have h2' : ¬ p.take 4 = cstr "vids" := fun h => h2 (hv.2 h)
      rw [if_neg (by simpa using h2), if_neg h2']
      rfl

theorem parseRecords_eq_filterMap (host : Host) (k : Nat) :
    ∀ (i : Nat) (p : List Nat) (acc : List es_descriptor_t),
      parseRecords host k i p acc =
        acc ++ (List.range k).filterMap (fun j => parseRecord host (i + j) (p.drop (20 * j))) := by
  induction k with
  | zero => intro i p acc; simp [parseRecords]
  | succ k ih =>
    intro i p acc
    rw [parseRecords, ih, List.range_succ_eq_map, List.filterMap_cons, List.filterMap_map]
    have e : (fun j => parseRecord host (i + 1 + j) ((p.drop 20).drop (20 * j))) =
        ((fun j => parseRecord host (i + j) (p.drop (20 * j))) ∘ Nat.succ) := by
      funext j
      simp only [Function.comp, List.drop_drop]
      have e1 : i + 1 + j = i + j.succ := by omega
      have e2 : 20 + 20 * j = 20 * j.succ := by omega
      rw [e1, e2]
    rw [e]
    simp only [Nat.mul_zero, List.drop_zero, Nat.add_zero]
    cases parseRecord host i p <;> simp

theorem window_tag (stream : List Nat) (n j : Nat) (hj : j < n) :
    (((stream.take (8 + 20 * n)).drop 8).drop (20 * j)).take 4 = kindTag stream j := by
  unfold kindTag
  rw [List.drop_drop, List.drop_take, List.take_take]
  congr 1
  omega

/-- The streams `DemuxOpen` registers on an accepted header, by id, stream id
and kind: one per record with a known kind tag, in record order. -/
theorem DemuxOpen_registers (host : Host) (p_input r : input_thread_t)
    (h : DemuxOpen host p_input = some r) :
    r.pp_es.map (fun p_es => (p_es.i_id, p_es.i_stream_id, p_es.i_cat)) =
      (List.range (GetDWBE (p_input.stream.drop 4))).filterMap
        (fun i => registration i (kindTag p_input.stream i)) := by
  obtain ⟨_, _, _, _, _, _, hr⟩ := (DemuxOpen_some_iff host p_input r).1 h
  rw [hr]
  simp only
  rw [parseRecords_eq_filterMap, List.nil_append, List.map_filterMap]
  apply List.filterMap_congr
  intro j hj
  rw [List.mem_range] at hj
  simp only [Nat.zero_add]
  rw [parseRecord_registration, window_tag _ _ _ hj]

/-- C7 as stated fails: `DemuxOpen` accepts a header that declares one track
whose record has the kind tag `"xxxx"`, and registers no stream for it. -/
theorem C7_counterexample :
    ¬ (∀ (host : Host) (p_input r : input_thread_t), DemuxOpen host p_input = some r →
        r.pp_es.length = GetDWBE (p_input.stream.drop 4)) := by
  intro h
  have h1 := h okHost ⟨unknownKindHeader, [], []⟩ ⟨[], [], []⟩ (by decide)
  revert h1
  decide

/-- C7 (amended). On a header that `DemuxOpen` accepts with declared track
count `n`, it registers one elementary stream for each record whose kind tag
is `"auds"` or `"vids"`, in record order; the stream built from record `i`
has id `i + 1` and the kind its tag names.  When every one of the `n` records
has one of the two tags, exactly `n` streams are registered and the `i`-th of
them is the one built from record `i`. -/
theorem C7_stream_registration (host : Host) (p_input r : input_thread_t)
    (h : DemuxOpen host p_input = some r) :
    r.pp_es.map (fun p_es => (p_es.i_id, p_es.i_stream_id, p_es.i_cat)) =
      (List.range (GetDWBE (p_input.stream.drop 4))).filterMap
        (fun i => registration i (kindTag p_input.stream i)) ∧
    r.pp_es.length ≤ GetDWBE (p_input.stream.drop 4) ∧
    ((∀ i, i < GetDWBE (p_input.stream.drop 4) →
        kindTag p_input.stream i = cstr "auds" ∨ kindTag p_input.stream i = cstr "vids") →
      r.pp_es.length = GetDWBE (p_input.stream.drop 4) ∧
      ∀ (i : Nat) (hi : i < r.pp_es.length),
        (r.pp_es.get ⟨i, hi⟩).i_id = i + 1 ∧ (r.pp_es.get ⟨i, hi⟩).i_stream_id = i + 1 ∧
        (r.pp_es.get ⟨i, hi⟩).i_cat =
          if kindTag p_input.stream i = cstr "auds" then .AUDIO_ES else .VIDEO_ES) := by
  have hreg := DemuxOpen_registers host p_input r h
  refine ⟨hreg, ?_, ?_⟩
  · have hl := congrArg List.length hreg
    rw [List.length_map] at hl
    rw [hl]
    calc ((List.range (GetDWBE (p_input.stream.drop 4))).filterMap
          (fun i => registration i (kindTag p_input.stream i))).length
        ≤ (List.range (GetDWBE (p_input.stream.drop 4))).length := List.length_filterMap_le _ _
      _ = GetDWBE (p_input.stream.drop 4) := List.length_range _
  · intro hall
    have hmap : (List.range (GetDWBE (p_input.stream.drop 4))).filterMap
          (fun i => registration i (kindTag p_input.stream i)) =
        (List.range (GetDWBE (p_input.stream.drop 4))).map
          (fun i => (i + 1, i + 1,
            if kindTag p_input.stream i = cstr "auds" then ESCat.AUDIO_ES else ESCat.VIDEO_ES)) := by
      rw [← List.filterMap_eq_map]
      apply List.filterMap_congr
      intro i hi
      rw [List.mem_range] at hi
      unfold registration
      rcases hall i hi with ht | ht
      · simp [ht]
      · have hne : ¬ kindTag p_input.stream i = cstr "auds" := by
          rw [ht]; decide
        rw [if_neg hne, if_pos ht]
        simp only [Function.comp, if_neg hne]
    rw [hmap] at hreg
    have hl := congrArg List.length hreg
    simp only [List.length_map, List.length_range] at hl
    refine ⟨hl, ?_⟩
    intro i hi
    have hg := congrArg (fun l => l[i]?) hreg
    simp only [List.getElem?_map, List.getElem?_range (hl ▸ hi), Option.map_some'] at hg
    rw [List.getElem?_eq_getElem hi] at hg
    simp only [Option.map_some', Option.some.injEq, Prod.mk.injEq] at hg
    exact hg

/-- C7 at the concrete scenario: the header for one video track ("RV24",
320x240) and one audio track ("araw", 2 channels, 44100 Hz, 16 bits)
registers exactly two streams with those values and the ids 1 and 2. -/
theorem C7_stream_registration_witness :
    DemuxOpen okHost ⟨scenarioSys.p_header, [], []⟩ = some ⟨[], scenarioES, []⟩ ∧
    scenarioES.map (fun p_es => (p_es.i_id, p_es.i_stream_id, p_es.i_cat)) =
      (List.range (GetDWBE (scenarioSys.p_header.drop 4))).filterMap
        (fun i => registration i (kindTag scenarioSys.p_header i)) ∧
    scenarioES.length ≤ GetDWBE (scenarioSys.p_header.drop 4) :=
  have hd : DemuxOpen okHost ⟨scenarioSys.p_header, [], []⟩ = some ⟨[], scenarioES, []⟩ := by
    decide
  ⟨hd, (C7_stream_registration okHost ⟨scenarioSys.p_header, [], []⟩ _ hd).1,
    (C7_stream_registration okHost ⟨scenarioSys.p_header, [], []⟩ _ hd).2.1⟩

/-! ## `Read` -/

theorem take_drop_take (l : List Nat) (size pos k : Nat) (h : k ≤ size - pos) :
    (l.drop pos).take k = ((l.take size).drop pos).take k := by
  rw [List.drop_take, List.take_take, Nat.min_eq_left h]

theorem copyHeader_spec (r : ReadState) (h : LoopInv r) :
    ∃ r1, copyHeader r = some r1 ∧ LoopInv r1 ∧
      r1.p_buffer ++ pendingHeader r1.p_sys = r.p_buffer ++ pendingHeader r.p_sys ∧
      r1.p_sys.pp_streams = r.p_sys.pp_streams ∧
      r1.p_sys.i_current_stream = r.p_sys.i_current_stream ∧
      r1.p_sys.p_header = r.p_sys.p_header ∧
      r1.p_sys.i_header_size = r.p_sys.i_header_size ∧
      r1.p_buffer.length + r1.i_len = r.p_buffer.length + r.i_len ∧
      (r1.i_len = 0 ∨ r1.p_sys.i_header_pos = r1.p_sys.i_header_size) := by
  obtain ⟨hinv, hdata, hlen⟩ := h
  have hpos := hinv.pos
  have hsize := hinv.size
  unfold copyHeader
  by_cases hc : 0 < r.i_len ∧ r.p_sys.i_header_pos < r.p_sys.i_header_size
  · rw [if_pos hc]
    have h32 : toInt32 r.i_len = (r.i_len : Int) := toInt32_small _ (by omega)
    have hi : min ((r.p_sys.i_header_size : Int) - r.p_sys.i_header_pos) (toInt32 r.i_len) =
        ((min (r.p_sys.i_header_size - r.p_sys.i_header_pos) r.i_len : Nat) : Int) := by
      rw [h32]; omega
    simp only [hi, Int.toNat_ofNat]
    rw [if_neg (by omega)]
    have hk : min (r.p_sys.i_header_size - r.p_sys.i_header_pos) r.i_len ≤
        r.p_sys.i_header_size - r.p_sys.i_header_pos := Nat.min_le_left _ _
    have htl : ((r.p_sys.p_header.drop r.p_sys.i_header_pos).take
        (min (r.p_sys.i_header_size - r.p_sys.i_header_pos) r.i_len)).length =
        min (r.p_sys.i_header_size - r.p_sys.i_header_pos) r.i_len := by
      rw [List.length_take, List.length_drop]
      omega
    refine ⟨_, rfl, ⟨⟨hinv.nonempty, hinv.cur, hinv.buf, hinv.size, ?_, hinv.streams⟩, ?_, ?_⟩,
      ?_, rfl, rfl, rfl, rfl, ?_, ?_⟩
    · dsimp only
      omega
    · dsimp only
      rw [hdata, List.length_append, htl, wrap32_small _ (by omega) (by omega)]
      push_cast
      rfl
    · dsimp only
      rw [List.length_append, htl]
      omega
    · unfold pendingHeader
      dsimp only
      rw [take_drop_take _ r.p_sys.i_header_size _ _ hk, List.append_assoc, ← List.drop_drop,
        List.take_append_drop]
    · dsimp only
      rw [List.length_append, htl]
      omega
    · dsimp only
      omega
  · rw [if_neg hc]
    refine ⟨r, rfl, ⟨hinv, hdata, hlen⟩, rfl, rfl, rfl, rfl, rfl, rfl, ?_⟩
    omega

theorem curStream_getElem? (p_sys : access_sys_t)
    (h : p_sys.i_current_stream < p_sys.pp_streams.length) :
    p_sys.pp_streams[p_sys.i_current_stream]? = some (curStream p_sys) := by
  unfold curStream
  rw [List.getD_eq_getElem?_getD, List.getElem?_eq_getElem h]
  rfl

theorem curStream_setCurStream (p_sys : access_sys_t) (st : dshow_stream_t)
    (h : p_sys.i_current_stream < p_sys.pp_streams.length) :
    curStream (setCurStream p_sys st) = st := by
  unfold curStream setCurStream
  dsimp only
  rw [List.getD_eq_getElem?_getD, List.getElem?_set_self h]
  rfl

/-- Storing a stream with `i_data_pos ≤ i_data_size ≤` the sample length
through `p_stream` keeps the invariant. -/
theorem ReadInv_setCurStream (p_sys : access_sys_t) (st : dshow_stream_t) (h : ReadInv p_sys)
    (h1 : st.i_data_pos ≤ st.i_data_size) (h2 : st.i_data_size ≤ st.p_data.length) :
    ReadInv (setCurStream p_sys st) := by
  refine ⟨?_, ?_, h.buf, h.size, h.pos, ?_⟩
  · simp only [setCurStream, List.length_set]; exact h.nonempty
  · simp only [setCurStream, List.length_set]; exact h.cur
  · intro i x hx
    simp only [setCurStream] at hx ⊢
    by_cases hi : p_sys.i_current_stream = i
    · subst hi
      rw [List.getElem?_set_self h.cur] at hx
      injection hx with hx
      subst hx
      exact ⟨h1, h2, fun hne => absurd rfl hne⟩
    · rw [List.getElem?_set_ne hi] at hx
      exact h.streams i x hx

theorem copyData_spec (r : ReadState) (h : LoopInv r) :
    ∃ r1, copyData r = some r1 ∧ LoopInv r1 ∧
      r1.p_buffer ++ pendingData r1.p_sys = r.p_buffer ++ pendingData r.p_sys ∧
      pendingHeader r1.p_sys = pendingHeader r.p_sys ∧
      r1.p_sys.i_header_pos = r.p_sys.i_header_pos ∧
      r1.p_sys.i_header_size = r.p_sys.i_header_size ∧
      r1.p_sys.pp_streams.length = r.p_sys.pp_streams.length ∧
      r1.p_sys.i_current_stream = r.p_sys.i_current_stream ∧
      (curStream r1.p_sys).i_data_size = (curStream r.p_sys).i_data_size ∧
      r1.p_buffer.length + r1.i_len = r.p_buffer.length + r.i_len ∧
      (r1.i_len = 0 ∨ (curStream r1.p_sys).i_data_pos = (curStream r1.p_sys).i_data_size) ∧
      (0 < r.i_len → pendingData r.p_sys ≠ [] → r.p_buffer.length < r1.p_buffer.length) ∧
      (r.i_len = 0 → r1 = r) := by
  obtain ⟨hinv, hdata, hlen⟩ := h
  obtain ⟨hps, hsl, _⟩ := hinv.streams _ _ (curStream_getElem? r.p_sys hinv.cur)
  unfold copyData
  dsimp only
  by_cases hc : 0 < r.i_len ∧ (curStream r.p_sys).i_data_pos < (curStream r.p_sys).i_data_size
  · rw [if_pos hc]
    have h32 : toInt32 r.i_len = (r.i_len : Int) := toInt32_small _ (by omega)
    have hi : min (((curStream r.p_sys).i_data_size : Int) - (curStream r.p_sys).i_data_pos)
          (toInt32 r.i_len) =
        ((min ((curStream r.p_sys).i_data_size - (curStream r.p_sys).i_data_pos) r.i_len : Nat)
          : Int) := by
      rw [h32]; omega
    simp only [hi, Int.toNat_ofNat]
    rw [if_neg (by omega)]
    have hk : min ((curStream r.p_sys).i_data_size - (curStream r.p_sys).i_data_pos) r.i_len ≤
        (curStream r.p_sys).i_data_size - (curStream r.p_sys).i_data_pos := Nat.min_le_left _ _
    have htl : (((curStream r.p_sys).p_data.drop (curStream r.p_sys).i_data_pos).take
        (min ((curStream r.p_sys).i_data_size - (curStream r.p_sys).i_data_pos) r.i_len)).length =
        min ((curStream r.p_sys).i_data_size - (curStream r.p_sys).i_data_pos) r.i_len := by
      rw [List.length_take, List.length_drop]
      omega
    refine ⟨_, rfl, ⟨?_, ?_, ?_⟩, ?_, rfl, rfl, rfl, ?_, rfl, ?_, ?_, ?_, ?_, ?_⟩
    rotate_right
    · intro h0; omega
    · dsimp only
      exact ReadInv_setCurStream _ _ hinv (by dsimp only; omega) hsl
    · dsimp only
      rw [hdata, List.length_append, htl, wrap32_small _ (by omega) (by omega)]
      push_cast
      rfl
    · dsimp only
      rw [List.length_append, htl]
      omega
    · unfold pendingData
      dsimp only
      rw [curStream_setCurStream _ _ hinv.cur]
      dsimp only
      rw [take_drop_take _ (curStream r.p_sys).i_data_size _ _ hk, List.append_assoc,
        ← List.drop_drop, List.take_append_drop]
    · simp only [setCurStream, List.length_set]
    · dsimp only
      rw [curStream_setCurStream _ _ hinv.cur]
    · dsimp only
      rw [List.length_append, htl]
      omega
    · dsimp only
      rw [curStream_setCurStream _ _ hinv.cur]
      dsimp only
      omega
    · intro _ _
      dsimp only
      rw [List.length_append, htl]
      omega
  · rw [if_neg hc]
    refine ⟨r, rfl, ⟨hinv, hdata, hlen⟩, rfl, rfl, rfl, rfl, rfl, rfl, rfl, rfl, ?_, ?_,
      fun _ => rfl⟩
    · omega
    · intro hl hp
      exfalso
      apply hp
      unfold pendingData
      have : (curStream r.p_sys).i_data_size ≤ (curStream r.p_sys).i_data_pos := by omega
      rw [List.drop_eq_nil_iff, List.length_take]
      omega

theorem pendingHeader_nil (p_sys : access_sys_t)
    (h : p_sys.i_header_pos = p_sys.i_header_size) : pendingHeader p_sys = [] := by
  unfold pendingHeader
  rw [List.drop_eq_nil_iff, List.length_take, h]
  omega

theorem pendingData_nil (p_sys : access_sys_t)
    (h : (curStream p_sys).i_data_pos = (curStream p_sys).i_data_size) :
    pendingData p_sys = [] := by
  unfold pendingData
  rw [List.drop_eq_nil_iff, List.length_take, h]
  omega

theorem pendingData_congr (p q : access_sys_t) (h1 : p.pp_streams = q.pp_streams)
    (h2 : p.i_current_stream = q.i_current_stream) : pendingData p = pendingData q := by
  unfold pendingData curStream
  rw [h1, h2]

/-- One pass through the copies and `return` tests of the loop body: either
the call returns, or every pending byte has been given out and a new sample
is asked for. -/
theorem ReadDrain_spec (r : ReadState) (h : LoopInv r) :
    (∃ r1, ReadDrain r = .ret r1 ∧ LoopInv r1 ∧
      r1.p_buffer ++ pending r1.p_sys = r.p_buffer ++ pending r.p_sys ∧
      r1.p_sys.i_current_stream = r.p_sys.i_current_stream ∧
      r1.p_sys.pp_streams.length = r.p_sys.pp_streams.length ∧
      r1.p_buffer.length + r1.i_len = r.p_buffer.length + r.i_len) ∨
    (∃ r1, ReadDrain r = .next r1 ∧ LoopInv r1 ∧
      r1.p_buffer = r.p_buffer ++ pending r.p_sys ∧ pending r1.p_sys = [] ∧
      0 < r1.i_len ∧
      r1.p_sys.i_current_stream = r.p_sys.i_current_stream ∧
      r1.p_sys.pp_streams.length = r.p_sys.pp_streams.length ∧
      pendingData r.p_sys = [] ∧
      r1.p_sys.i_header_pos = r1.p_sys.i_header_size ∧
      (curStream r1.p_sys).i_data_pos = (curStream r1.p_sys).i_data_size ∧
      r1.p_buffer.length + r1.i_len = r.p_buffer.length + r.i_len) := by
  obtain ⟨r1, e1, l1, b1, s1, c1, _, _, n1, d1⟩ := copyHeader_spec r h
  obtain ⟨r2, e2, l2, b2, ph2, hp2, hs2, sl2, c2, sz2, n2, d2, g2, z2⟩ := copyData_spec r1 l1
  have pd1 : pendingData r1.p_sys = pendingData r.p_sys := pendingData_congr _ _ s1 c1
  have hb : r2.p_buffer ++ pending r2.p_sys = r.p_buffer ++ pending r.p_sys := by
    unfold pending
    rcases d1 with d1 | d1
    · rw [z2 d1, pd1, ← List.append_assoc, b1, List.append_assoc]
    · have hn1 := pendingHeader_nil _ d1
      rw [ph2, hn1, List.nil_append, b2, pd1, ← List.append_assoc, ← b1, hn1, List.append_nil]
  unfold ReadDrain
  rw [e1]
  dsimp only
  rw [e2]
  dsimp only
  by_cases h0 : r2.i_len = 0
  · rw [if_pos h0]
    exact Or.inl ⟨r2, rfl, l2, hb, c2.trans c1, sl2.trans (congrArg List.length s1),
      n2.trans n1⟩
  rw [if_neg h0]
  have hr1 : r1.i_len ≠ 0 := by
    intro hz
    rw [z2 hz] at h0
    exact h0 hz
  have hdr : r1.p_sys.i_header_pos = r1.p_sys.i_header_size := by
    rcases d1 with d1 | d1
    · exact absurd d1 hr1
    · exact d1
  have hdt : (curStream r2.p_sys).i_data_pos = (curStream r2.p_sys).i_data_size := by
    rcases d2 with d2 | d2
    · exact absurd d2 h0
    · exact d2
  by_cases h4 : (curStream r2.p_sys).i_data_size ≠ 0 ∧ r2.i_data ≠ 0 ∧
      (curStream r2.p_sys).i_data_pos = (curStream r2.p_sys).i_data_size
  · rw [if_pos h4]
    refine Or.inl ⟨_, rfl, ⟨?_, l2.data, l2.len⟩, ?_, ?_, ?_, n2.trans n1⟩
    · dsimp only
      exact ReadInv_setCurStream _ _ l2.inv (le_refl _) (Nat.zero_le _)
    · dsimp only
      rw [← hb]
      congr 1
      unfold pending
      congr 1
      rw [pendingData_nil _ hdt]
      apply pendingData_nil
      rw [curStream_setCurStream _ _ l2.inv.cur]
    · exact c2.trans c1
    · dsimp only
      simp only [setCurStream, List.length_set]
      exact sl2.trans (congrArg List.length s1)
  · rw [if_neg h4]
    have hp0 : pending r2.p_sys = [] := by
      unfold pending
      rw [pendingHeader_nil _ (by rw [hp2, hs2]; exact hdr), pendingData_nil _ hdt]
      rfl
    refine Or.inr ⟨r2, rfl, l2, ?_, hp0, Nat.pos_of_ne_zero h0, c2.trans c1,
      sl2.trans (congrArg List.length s1), ?_, (by rw [hp2, hs2]; exact hdr), hdt,
      n2.trans n1⟩
    · rw [← hb, hp0, List.append_nil]
    · by_contra hne
      rw [← pd1] at hne
      have hlt := g2 (Nat.pos_of_ne_zero hr1) hne
      apply h4
      refine ⟨?_, ?_, hdt⟩
      · rw [sz2]
        intro hz
        apply hne
        unfold pendingData
        rw [hz]
        simp
      · rw [l2.data]
        intro hz
        have : r2.p_buffer.length = 0 := by exact_mod_cast hz
        omega

@[simp] theorem pseudoHeader_length (c n : Nat) (i_pts : Int) :
    (pseudoHeader c n i_pts).length = 16 := rfl

theorem memcpy_zero_length (buf src : List Nat) (h : src.length ≤ buf.length) :
    (memcpy buf 0 src).length = buf.length := by
  unfold memcpy
  simp only [List.take_zero, List.nil_append, List.length_append, List.length_drop]
  omega

theorem memcpy_zero_take (buf src : List Nat) :
    (memcpy buf 0 src).take src.length = src := by
  unfold memcpy
  simp

theorem curStream_of (p : access_sys_t) (l : List dshow_stream_t) (c : Nat)
    (st : dshow_stream_t) (hl : p.pp_streams = l) (hc : p.i_current_stream = c)
    (hget : l[c]? = some st) : curStream p = st := by
  unfold curStream
  rw [hl, hc, List.getD_eq_getElem?_getD, hget]
  rfl

/-- Asking the next stream for a sample, once every pending byte has been
given out: a fetched sample's frame unit becomes the pending bytes. -/
theorem ReadFetch_spec (r : ReadState) (o : Option VLCMediaSample) (h : LoopInv r)
    (hh : r.p_sys.i_header_pos = r.p_sys.i_header_size)
    (hd : (curStream r.p_sys).i_data_pos = (curStream r.p_sys).i_data_size) :
    LoopInv (ReadFetch r o) ∧
    (ReadFetch r o).p_buffer = r.p_buffer ∧ (ReadFetch r o).i_len = r.i_len ∧
    (ReadFetch r o).p_sys.i_current_stream =
      (r.p_sys.i_current_stream + 1) % r.p_sys.pp_streams.length ∧
    (ReadFetch r o).p_sys.pp_streams.length = r.p_sys.pp_streams.length ∧
    pending (ReadFetch r o).p_sys =
      (match o with
        | some s => frameUnit ((r.p_sys.i_current_stream + 1) % r.p_sys.pp_streams.length) s
        | none => []) := by
  obtain ⟨hinv, hdata, hlen⟩ := h
  have hc' : (r.p_sys.i_current_stream + 1) % r.p_sys.pp_streams.length <
      r.p_sys.pp_streams.length := Nat.mod_lt _ hinv.nonempty
  have hold : ∀ (i : Nat) (st : dshow_stream_t), r.p_sys.pp_streams[i]? = some st →
      st.i_data_pos ≤ st.i_data_size ∧ st.i_data_size ≤ st.p_data.length ∧
      st.i_data_pos = st.i_data_size := by
    intro i st hst
    obtain ⟨a, b, c⟩ := hinv.streams i st hst
    refine ⟨a, b, ?_⟩
    by_cases hi : i = r.p_sys.i_current_stream
    · subst hi
      rw [curStream_getElem? _ hinv.cur] at hst
      injection hst with hst
      rw [← hst]
      exact hd
    · exact c hi
  cases o with
  | none =>
    refine ⟨⟨⟨hinv.nonempty, hc', hinv.buf, hinv.size, hinv.pos, ?_⟩, hdata, hlen⟩,
      rfl, rfl, rfl, rfl, ?_⟩
    · intro i st hst
      obtain ⟨a, b, c⟩ := hold i st hst
      exact ⟨a, b, fun _ => c⟩
    · have e1 : pendingHeader (ReadFetch r none).p_sys = [] := pendingHeader_nil _ hh
      have hcs : (ReadFetch r none).p_sys.pp_streams[(ReadFetch r none).p_sys.i_current_stream]? =
          some (curStream (ReadFetch r none).p_sys) := curStream_getElem? _ hc'
      have e2 : pendingData (ReadFetch r none).p_sys = [] :=
        pendingData_nil _ (hold _ _ hcs).2.2
      show pendingHeader _ ++ pendingData _ = []
      rw [e1, e2]
      rfl
  | some s =>
    have hl16 : (memcpy r.p_sys.p_header 0
        (pseudoHeader ((r.p_sys.i_current_stream + 1) % r.p_sys.pp_streams.length)
          s.data.length (samplePts s))).length = r.p_sys.p_header.length :=
      memcpy_zero_length _ _ hinv.buf
    have hpp : (ReadFetch r (some s)).p_sys.pp_streams =
        r.p_sys.pp_streams.set ((r.p_sys.i_current_stream + 1) % r.p_sys.pp_streams.length)
          { curStream { r.p_sys with
              i_current_stream := (r.p_sys.i_current_stream + 1) % r.p_sys.pp_streams.length }
            with i_data_pos := 0, i_data_size := s.data.length, p_data := s.data } := rfl
    have hph : (ReadFetch r (some s)).p_sys.p_header = memcpy r.p_sys.p_header 0
        (pseudoHeader ((r.p_sys.i_current_stream + 1) % r.p_sys.pp_streams.length)
          s.data.length (samplePts s)) := rfl
    refine ⟨⟨⟨?_, ?_, ?_, ?_, ?_, ?_⟩, hdata, hlen⟩, rfl, rfl, rfl, ?_, ?_⟩
    · rw [hpp, List.length_set]
      exact hinv.nonempty
    · rw [hpp, List.length_set]
      exact hc'
    · rw [hph, hl16]
      exact hinv.buf
    · rw [hph, hl16]
      exact hinv.buf
    · exact Nat.zero_le _
    · intro i st hst
      rw [hpp] at hst
      show _ ∧ _ ∧ (i ≠ (r.p_sys.i_current_stream + 1) % r.p_sys.pp_streams.length → _)
      by_cases hi : (r.p_sys.i_current_stream + 1) % r.p_sys.pp_streams.length = i
      · subst hi
        rw [List.getElem?_set_self hc'] at hst
        injection hst with hst
        subst hst
        exact ⟨Nat.zero_le _, le_refl _, fun hne => absurd rfl hne⟩
      · rw [List.getElem?_set_ne hi] at hst
        obtain ⟨a, b, c⟩ := hold i st hst
        exact ⟨a, b, fun _ => c⟩
    · rw [hpp, List.length_set]
    · have hcs := curStream_of (ReadFetch r (some s)).p_sys _
        ((r.p_sys.i_current_stream + 1) % r.p_sys.pp_streams.length) _ hpp rfl
        (List.getElem?_set_self hc')
      have e1 : pendingHeader (ReadFetch r (some s)).p_sys =
          pseudoHeader ((r.p_sys.i_current_stream + 1) % r.p_sys.pp_streams.length)
            s.data.length (samplePts s) := by
        show ((ReadFetch r (some s)).p_sys.p_header.take 16).drop 0 = _
        rw [hph, List.drop_zero]
        exact memcpy_zero_take r.p_sys.p_header
          (pseudoHeader ((r.p_sys.i_current_stream + 1) % r.p_sys.pp_streams.length)
            s.data.length (samplePts s))
      have e2 : pendingData (ReadFetch r (some s)).p_sys = s.data := by
        unfold pendingData
        rw [hcs]
        simp
      show pendingHeader _ ++ pendingData _ = _
      rw [e1, e2]
      rfl

theorem frameUnits_nil (n c : Nat) : frameUnits n c [] = [] := rfl

theorem frameUnits_cons_some (n c : Nat) (s : VLCMediaSample) (env : List (Option VLCMediaSample)) :
    frameUnits n c (some s :: env) = frameUnit ((c + 1) % n) s ++ frameUnits n ((c + 1) % n) env := by
  simp [frameUnits, fetches]

theorem frameUnits_cons_none (n c : Nat) (env : List (Option VLCMediaSample)) :
    frameUnits n c (none :: env) = frameUnits n ((c + 1) % n) env := by
  simp [frameUnits, fetches]

theorem frameUnits_cons (n c : Nat) (o : Option VLCMediaSample)
    (env : List (Option VLCMediaSample)) :
    frameUnits n c (o :: env) =
      (match o with
        | some s => frameUnit ((c + 1) % n) s
        | none => []) ++ frameUnits n ((c + 1) % n) env := by
  cases o with
  | none => rw [frameUnits_cons_none]; rfl
  | some s => rw [frameUnits_cons_some]

/-- The loop of `Read`, from any pass on: it never runs into the undefined
`memcpy`; when it returns, the bytes written so far followed by the bytes
still pending are the bytes that were written and pending before, followed
by the frame units of the samples fetched meanwhile; and a sample with a
non-empty payload is the last answer the call uses. -/
theorem ReadLoop_spec (env : List (Option VLCMediaSample)) :
    ∀ r : ReadState, LoopInv r →
      ReadLoop env r ≠ .undefined ∧
      ∀ (i_data : Int) (out : List Nat) (p_sys1 : access_sys_t)
        (rest : List (Option VLCMediaSample)),
        ReadLoop env r = .returned i_data out p_sys1 rest →
        ∃ used, env = used ++ rest ∧ ReadInv p_sys1 ∧ i_data = out.length ∧
          out.length ≤ r.p_buffer.length + r.i_len ∧
          out ++ pending p_sys1 = r.p_buffer ++ pending r.p_sys ++
            frameUnits r.p_sys.pp_streams.length r.p_sys.i_current_stream used ∧
          p_sys1.i_current_stream =
            (r.p_sys.i_current_stream + used.length) % r.p_sys.pp_streams.length ∧
          p_sys1.pp_streams.length = r.p_sys.pp_streams.length ∧
          (0 < r.i_len → pendingData r.p_sys ≠ [] → used = []) ∧
          (∀ pre s post, used = pre ++ some s :: post → s.data ≠ [] → post = []) := by
  induction env with
  | nil =>
    intro r h
    rw [ReadLoop]
    by_cases h0 : r.i_len = 0
    · rw [if_pos h0]
      refine ⟨(by intro hc; cases hc), ?_⟩
      intro i_data out p_sys1 rest he
      injection he with e1 e2 e3 e4
      subst e1 e2 e3 e4
      refine ⟨[], rfl, h.inv, h.data, by omega, ?_, ?_, rfl, fun hp => absurd h0 (by omega), ?_⟩
      · rw [frameUnits_nil, List.append_nil]
      · rw [List.length_nil, Nat.add_zero, Nat.mod_eq_of_lt h.inv.cur]
      · intro pre s post hp; simp at hp
    · rw [if_neg h0]
      rcases ReadDrain_spec r h with ⟨r1, e, l1, hb, hc, hn, hle⟩ | ⟨r1, e, _⟩
      · rw [e]
        refine ⟨(by intro hc; cases hc), ?_⟩
        intro i_data out p_sys1 rest he
        injection he with e1 e2 e3 e4
        subst e1 e2 e3 e4
        refine ⟨[], rfl, l1.inv, l1.data, by omega, ?_, ?_, hn, fun _ _ => rfl, ?_⟩
        · rw [frameUnits_nil, List.append_nil, hb]
        · rw [hc, List.length_nil, Nat.add_zero, Nat.mod_eq_of_lt h.inv.cur]
        · intro pre s post hp; simp at hp
      · rw [e]
        refine ⟨(by intro hc; cases hc), ?_⟩
        intro i_data out p_sys1 rest he
        cases he
  | cons o env ih =>
    intro r h
    rw [ReadLoop]
    by_cases h0 : r.i_len = 0
    · rw [if_pos h0]
      refine ⟨(by intro hc; cases hc), ?_⟩
      intro i_data out p_sys1 rest he
      injection he with e1 e2 e3 e4
      subst e1 e2 e3 e4
      refine ⟨[], rfl, h.inv, h.data, by omega, ?_, ?_, rfl, fun hp => absurd h0 (by omega), ?_⟩
      · rw [frameUnits_nil, List.append_nil]
      · rw [List.length_nil, Nat.add_zero, Nat.mod_eq_of_lt h.inv.cur]
      · intro pre s post hp; simp at hp
    · rw [if_neg h0]
      rcases ReadDrain_spec r h with ⟨r1, e, l1, hb, hc, hn, hle⟩ |
        ⟨r1, e, l1, hb, hp0, hl1, hc, hn, hpd, hh, hd, hle⟩
      · rw [e]
        refine ⟨(by intro hc; cases hc), ?_⟩
        intro i_data out p_sys1 rest he
        injection he with e1 e2 e3 e4
        subst e1 e2 e3 e4
        refine ⟨[], rfl, l1.inv, l1.data, by omega, ?_, ?_, hn, fun _ _ => rfl, ?_⟩
        · rw [frameUnits_nil, List.append_nil, hb]
        · rw [hc, List.length_nil, Nat.add_zero, Nat.mod_eq_of_lt h.inv.cur]
        · intro pre s post hp; simp at hp
      · rw [e]
        dsimp only
        obtain ⟨f1, f2, f3, f4, f5, f6⟩ := ReadFetch_spec r1 o l1 hh hd
        obtain ⟨g1, g2⟩ := ih (ReadFetch r1 o) f1
        refine ⟨g1, ?_⟩
        intro i_data out p_sys1 rest he
        obtain ⟨used, u1, u2, u3, u4, u5, u6, u7, u8, u9⟩ := g2 i_data out p_sys1 rest he
        rw [f2, f3] at u4
        rw [f2, f4, f5, f6, hn, hc, hb] at u5
        rw [f4, f5, hn, hc] at u6
        rw [f5, hn] at u7
        rw [f3] at u8
        refine ⟨o :: used, by rw [u1]; rfl, u2, u3, by omega, ?_, ?_, u7, ?_, ?_⟩
        · rw [u5, frameUnits_cons]
          simp only [List.append_assoc]
        · rw [u6, List.length_cons, Nat.mod_add_mod]
          congr 1
          omega
        · intro _ hne
          exact absurd hpd hne
        · intro pre s post hp hs
          cases pre with
          | nil =>
            simp only [List.nil_append, List.cons.injEq] at hp
            obtain ⟨ho, hu⟩ := hp
            subst ho
            have hpd1 : pendingData (ReadFetch r1 (some s)).p_sys = s.data := by
              have hps : pending (ReadFetch r1 (some s)).p_sys =
                  pendingHeader (ReadFetch r1 (some s)).p_sys ++
                    pendingData (ReadFetch r1 (some s)).p_sys := rfl
              have hph : pendingHeader (ReadFetch r1 (some s)).p_sys =
                  pseudoHeader ((r1.p_sys.i_current_stream + 1) % r1.p_sys.pp_streams.length)
                    s.data.length (samplePts s) := by
                show ((ReadFetch r1 (some s)).p_sys.p_header.take 16).drop 0 = _
                rw [List.drop_zero]
                exact memcpy_zero_take r1.p_sys.p_header
                  (pseudoHeader ((r1.p_sys.i_current_stream + 1) % r1.p_sys.pp_streams.length)
                    s.data.length (samplePts s))
              rw [f6, hph] at hps
              exact (List.append_cancel_left hps).symm
            have := u8 hl1 (by rw [hpd1]; exact hs)
            rw [this] at hu
            exact hu.symm
          | cons p pre =>
            simp only [List.cons_append, List.cons.injEq] at hp
            exact u9 pre s post hp.2 hs

/-- One `Read` call from a session that satisfies the invariant, with a
requested length in the range of `int`. -/
theorem Read_spec (p_sys : access_sys_t) (env : List (Option VLCMediaSample)) (i_len : Nat)
    (h : ReadInv p_sys) (hl : i_len < 2147483648) :
    Read p_sys env i_len ≠ .undefined ∧
    ∀ (i_data : Int) (out : List Nat) (p_sys1 : access_sys_t)
      (rest : List (Option VLCMediaSample)),
      Read p_sys env i_len = .returned i_data out p_sys1 rest →
      ∃ used, env = used ++ rest ∧ ReadInv p_sys1 ∧ i_data = out.length ∧
        out.length ≤ i_len ∧
        out ++ pending p_sys1 = pending p_sys ++
          frameUnits p_sys.pp_streams.length p_sys.i_current_stream used ∧
        p_sys1.i_current_stream =
          (p_sys.i_current_stream + used.length) % p_sys.pp_streams.length ∧
        p_sys1.pp_streams.length = p_sys.pp_streams.length ∧
        (0 < i_len → pendingData p_sys ≠ [] → used = []) ∧
        (∀ pre s post, used = pre ++ some s :: post → s.data ≠ [] → post = []) := by
  have hli : LoopInv { p_sys := p_sys, p_buffer := [], i_len := i_len, i_data := 0 } :=
    ⟨h, rfl, by simpa using hl⟩
  obtain ⟨g1, g2⟩ := ReadLoop_spec env _ hli
  refine ⟨g1, ?_⟩
  intro i_data out p_sys1 rest he
  obtain ⟨used, u1, u2, u3, u4, u5, u6, u7, u8, u9⟩ := g2 i_data out p_sys1 rest he
  refine ⟨used, u1, u2, u3, ?_, ?_, u6, u7, u8, u9⟩
  · simpa using u4
  · simpa using u5

theorem ReadInv_AccessOpen {vdev adev : CaptureDevice} {p_sys : access_sys_t}
    (h : AccessOpen vdev adev = some p_sys) : ReadInv p_sys := by
  obtain ⟨hne, _, hh, hs, hp, hc, hv, _⟩ := AccessOpen_some h
  have hpos : 0 < p_sys.pp_streams.length := List.length_pos.2 hne
  have hlen : p_sys.p_header.length = 8 + 20 * p_sys.pp_streams.length := by
    rw [hh, containerHeader_length]
  refine ⟨hpos, by rw [hc]; exact hpos, by omega, by omega, by omega, ?_⟩
  intro i st hst
  obtain ⟨_, h1, h2⟩ := hv st (List.getElem?_mem hst)
  rw [h1, h2]
  exact ⟨le_refl _, Nat.zero_le _, fun _ => rfl⟩

theorem Reachable.inv {p_sys : access_sys_t} (h : Reachable p_sys) : ReadInv p_sys := by
  induction h with
  | opened vdev adev p_sys ho => exact ReadInv_AccessOpen ho
  | read p_sys p_sys1 env rest i_len i_data p_buffer _ hl hr ih =>
    obtain ⟨_, _, u2, _⟩ := (Read_spec p_sys env i_len ih hl).2 _ _ _ _ hr
    exact u2

theorem pending_AccessOpen {vdev adev : CaptureDevice} {p_sys : access_sys_t}
    (h : AccessOpen vdev adev = some p_sys) : pending p_sys = containerHeader p_sys.pp_streams := by
  obtain ⟨hne, _, hh, hs, hp, hc, hv, _⟩ := AccessOpen_some h
  have hpos : 0 < p_sys.pp_streams.length := List.length_pos.2 hne
  have hcs := curStream_getElem? p_sys (by rw [hc]; exact hpos)
  obtain ⟨_, h1, h2⟩ := hv _ (List.getElem?_mem hcs)
  unfold pending
  rw [pendingData_nil _ (by rw [h1, h2]), List.append_nil]
  unfold pendingHeader
  rw [hp, List.drop_zero, hs, ← containerHeader_length, ← hh, List.take_length]

theorem fetches_append (n : Nat) (u1 : List (Option VLCMediaSample)) :
    ∀ (c : Nat) (u2 : List (Option VLCMediaSample)), c < n →
      fetches n c (u1 ++ u2) = fetches n c u1 ++ fetches n ((c + u1.length) % n) u2 := by
  induction u1 with
  | nil =>
    intro c u2 hc
    simp [fetches, Nat.mod_eq_of_lt hc]
  | cons o u1 ih =>
    intro c u2 hc
    have hc1 : (c + 1) % n < n := Nat.mod_lt _ (by omega)
    have e : ((c + 1) % n + u1.length) % n = (c + (o :: u1).length) % n := by
      rw [List.length_cons, Nat.mod_add_mod]
      congr 1
      omega
    cases o with
    | none =>
      show fetches n ((c + 1) % n) (u1 ++ u2) = fetches n ((c + 1) % n) u1 ++ _
      rw [ih _ _ hc1, e]
    | some s =>
      show ((c + 1) % n, s) :: fetches n ((c + 1) % n) (u1 ++ u2) =
        ((c + 1) % n, s) :: fetches n ((c + 1) % n) u1 ++ _
      rw [ih _ _ hc1, e]
      rfl

theorem frameUnits_append (n c : Nat) (u1 u2 : List (Option VLCMediaSample)) (hc : c < n) :
    frameUnits n c (u1 ++ u2) =
      frameUnits n c u1 ++ frameUnits n ((c + u1.length) % n) u2 := by
  unfold frameUnits
  rw [fetches_append n u1 c u2 hc, List.map_append, List.flatten_append]

/-- A sequence of `Read` calls that all return, from a session that satisfies
the invariant. -/
theorem ReadCalls_spec (lens : List Nat) :
    ∀ (p_sys : access_sys_t) (env : List (Option VLCMediaSample)) (out : List Nat)
      (p_sys1 : access_sys_t) (rest : List (Option VLCMediaSample)),
      ReadInv p_sys → (∀ i_len ∈ lens, i_len < 2147483648) →
      ReadCalls p_sys env lens = some (out, p_sys1, rest) →
      ∃ used, env = used ++ rest ∧ ReadInv p_sys1 ∧
        out ++ pending p_sys1 = pending p_sys ++
          frameUnits p_sys.pp_streams.length p_sys.i_current_stream used ∧
        p_sys1.i_current_stream =
          (p_sys.i_current_stream + used.length) % p_sys.pp_streams.length ∧
        p_sys1.pp_streams.length = p_sys.pp_streams.length := by
  induction lens with
  | nil =>
    intro p_sys env out p_sys1 rest h _ he
    simp only [ReadCalls, Option.some.injEq, Prod.mk.injEq] at he
    obtain ⟨e1, e2, e3⟩ := he
    subst e1 e2 e3
    exact ⟨[], rfl, h, by simp [frameUnits_nil], by simp [Nat.mod_eq_of_lt h.cur], rfl⟩
  | cons i_len lens ih =>
    intro p_sys env out p_sys1 rest h hl he
    rw [ReadCalls] at he
    cases hr : Read p_sys env i_len with
    | undefined => rw [hr] at he; cases he
    | polling x => rw [hr] at he; cases he
    | returned i_data buf p_sys2 rest2 =>
      rw [hr] at he
      dsimp only at he
      obtain ⟨used, u1, u2, _, _, u5, u6, u7, _, _⟩ :=
        (Read_spec p_sys env i_len h (hl _ (List.mem_cons_self _ _))).2 _ _ _ _ hr
      cases hc : ReadCalls p_sys2 rest2 lens with
      | none => rw [hc] at he; cases he
      | some t =>
        obtain ⟨out2, p_sys3, rest3⟩ := t
        rw [hc] at he
        simp only [Option.some.injEq, Prod.mk.injEq] at he
        obtain ⟨e1, e2, e3⟩ := he
        subst e1 e2 e3
        obtain ⟨used2, v1, v2, v3, v4, v5⟩ := ih p_sys2 rest2 out2 p_sys3 rest3 u2
          (fun x hx => hl x (List.mem_cons_of_mem _ hx)) hc
        refine ⟨used ++ used2, by rw [u1, v1, List.append_assoc], v2, ?_, ?_, v5.trans u7⟩
        · rw [frameUnits_append _ _ _ _ h.cur, List.append_assoc, v3, u7, u6,
            ← List.append_assoc, ← List.append_assoc, u5]
        · rw [v4, u7, u6, List.length_append, Nat.mod_add_mod, Nat.add_assoc]

/-- C2. Output stream well-formedness: after a successful `AccessOpen`, for
every sequence of `Read` calls that return (requested lengths in the range of
`int`), the concatenation of the returned bytes, followed by the bytes still
pending in the session, is the container header followed by the frame units
(16-byte micro-header, then the payload) of the samples fetched so far, in
fetch order; so the returned bytes are a prefix of that stream. -/
theorem C2_output_stream (vdev adev : CaptureDevice) (p_sys p_sys1 : access_sys_t)
    (env rest : List (Option VLCMediaSample)) (lens : List Nat) (out : List Nat)
    (ho : AccessOpen vdev adev = some p_sys)
    (hl : ∀ i_len ∈ lens, i_len < 2147483648)
    (hr : ReadCalls p_sys env lens = some (out, p_sys1, rest)) :
    ∃ used, env = used ++ rest ∧
      out ++ pending p_sys1 =
        containerHeader p_sys.pp_streams ++ frameUnits p_sys.i_streams 0 used ∧
      out <+: containerHeader p_sys.pp_streams ++ frameUnits p_sys.i_streams 0 used := by
  obtain ⟨used, u1, _, u3, _, _⟩ :=
    ReadCalls_spec lens p_sys env out p_sys1 rest (ReadInv_AccessOpen ho) hl hr
  have hc : p_sys.i_current_stream = 0 := (AccessOpen_some ho).2.2.2.2.2.1
  rw [pending_AccessOpen ho, hc] at u3
  exact ⟨used, u1, u3, ⟨pending p_sys1, u3⟩⟩

/-- C2 at the concrete scenario: four `Read` calls of 10, 100, 7 and 50 bytes
while the filters answer with a sample, no sample, and a sample. -/
theorem C2_output_stream_witness :
    ∃ out p_sys1 rest,
      ReadCalls scenarioSys [some sampleA, none, some sampleB] [10, 100, 7, 50] =
        some (out, p_sys1, rest) ∧
      ∃ used, [some sampleA, none, some sampleB] = used ++ rest ∧
        out ++ pending p_sys1 =
          containerHeader scenarioSys.pp_streams ++ frameUnits scenarioSys.i_streams 0 used ∧
        out <+: containerHeader scenarioSys.pp_streams ++ frameUnits scenarioSys.i_streams 0 used := by
  obtain ⟨⟨out, p_sys1, rest⟩, hx⟩ := Option.isSome_iff_exists.1
    (by decide! : (ReadCalls scenarioSys [some sampleA, none, some sampleB]
      [10, 100, 7, 50]).isSome = true)
  exact ⟨out, p_sys1, rest, hx,
    C2_output_stream rv24Device arawDevice scenarioSys p_sys1 _ rest _ out AccessOpen_scenario
      (by decide) hx⟩

/-- C9. The early return of `Read` under the comment "Read no more than one
frame at a time, otherwise we kill latency" is guarded by
`p_stream->i_data_size`, so it does not fire for a frame with an empty
payload.  In the concrete scenario, after a first call has returned the 48
header bytes, one `Read` call that is answered with a sample of length 0
(track 1) goes on to fetch the next sample (track 0) and returns both frame
units, 16 + 19 bytes; answered with the five-byte sample instead, it returns
that one frame unit and leaves the next answer unused. -/
theorem C9_zero_length_sample :
    (Read scenarioSys [] 48).result = some (48, scenarioSys.p_header, []) ∧
    (Read scenarioSys [] 48).session = some scenarioDrained ∧
    (Read scenarioDrained [some sampleZ, some sampleB] 100).result =
      some (35, frameUnit 1 sampleZ ++ frameUnit 0 sampleB, []) ∧
    (Read scenarioDrained [some sampleA, some sampleB] 100).result =
      some (21, frameUnit 1 sampleA, [some sampleB]) :=
  ⟨by decide!, by decide!, by decide!, by decide!⟩

/-- What does hold of the frames per call: in every reachable state and for
every requested length in the range of `int`, a `Read` call that returns has given out the pending
bytes in order followed by the frame units of the samples it fetched; it
fetches no sample while payload bytes of the frame in flight are still
pending, and after it has fetched a sample with a non-empty payload it
fetches nothing more.  So among frame units with a non-empty payload the call
returns bytes of at most one, unless the earlier unit was fully drained by an
earlier call. -/
theorem Read_latency_bound (p_sys p_sys1 : access_sys_t) (env rest : List (Option VLCMediaSample))
    (i_len : Nat) (i_data : Int) (out : List Nat)
    (hreach : Reachable p_sys) (hl : i_len < 2147483648)
    (hr : Read p_sys env i_len = .returned i_data out p_sys1 rest) :
    ∃ used, env = used ++ rest ∧ out.length ≤ i_len ∧
      out ++ pending p_sys1 =
        pending p_sys ++ frameUnits p_sys.i_streams p_sys.i_current_stream used ∧
      (0 < i_len → pendingData p_sys ≠ [] → used = []) ∧
      (∀ pre s post, used = pre ++ some s :: post → s.data ≠ [] → post = []) := by
  obtain ⟨used, u1, _, _, u4, u5, _, _, u8, u9⟩ :=
    (Read_spec p_sys env i_len hreach.inv hl).2 _ _ _ _ hr
  exact ⟨used, u1, u4, u5, u8, u9⟩

/-- The bound at the concrete scenario: the call that fetches the
five-byte sample does not go on to the next answer. -/
theorem Read_latency_bound_scenario :
    ∃ i_data out p_sys1,
      Read scenarioDrained [some sampleA, some sampleB] 100 =
        .returned i_data out p_sys1 [some sampleB] ∧
      ∃ used, [some sampleA, some sampleB] = used ++ [some sampleB] ∧ out.length ≤ 100 ∧
        out ++ pending p_sys1 = pending scenarioDrained ++
          frameUnits scenarioDrained.i_streams scenarioDrained.i_current_stream used ∧
        (0 < 100 → pendingData scenarioDrained ≠ [] → used = []) ∧
        (∀ pre s post, used = pre ++ some s :: post → s.data ≠ [] → post = []) := by
  have hreach : Reachable scenarioDrained :=
    Reachable.read scenarioSys scenarioDrained [] [] 48 48 scenarioSys.p_header
      (Reachable.opened rv24Device arawDevice scenarioSys AccessOpen_scenario) (by decide)
      (by decide!)
  cases hx : Read scenarioDrained [some sampleA, some sampleB] 100 with
  | undefined => exact absurd hx (by decide!)
  | polling x =>
    have : (Read scenarioDrained [some sampleA, some sampleB] 100).result ≠ none := by decide!
    rw [hx] at this
    exact absurd rfl this
  | returned i_data out p_sys1 rest =>
    have hrest : (Read scenarioDrained [some sampleA, some sampleB] 100).result.map
        (fun t => t.2.2) = some [some sampleB] := by decide!
    rw [hx] at hrest
    simp only [ReadOutcome.result, Option.map_some', Option.some.injEq] at hrest
    subst hrest
    exact ⟨i_data, out, p_sys1, rfl,
      Read_latency_bound scenarioDrained p_sys1 _ _ 100 i_data out hreach (by decide) hx⟩

/-! ## Round-robin order -/

theorem fetches_all_some (n : Nat) (used : List (Option VLCMediaSample)) :
    ∀ c : Nat, (∀ o ∈ used, o ≠ none) →
      (fetches n c used).map Prod.fst = (List.range used.length).map (fun j => (c + 1 + j) % n) := by
  induction used with
  | nil => intro c _; rfl
  | cons o used ih =>
    intro c h
    cases o with
    | none => exact absurd rfl (h none (List.mem_cons_self _ _))
    | some s =>
      rw [fetches, List.map_cons, ih _ (fun x hx => h x (List.mem_cons_of_mem _ hx)),
        List.length_cons, List.range_succ_eq_map, List.map_cons, List.map_map]
      congr 1
      apply List.map_congr_left
      intro j _
      simp only [Function.comp, Nat.succ_eq_add_one]
      rw [Nat.add_assoc ((c + 1) % n), Nat.mod_add_mod]
      congr 1
      omega

theorem window_range (m a k : Nat) (f : Nat → Nat) (h : a + k ≤ m) :
    (((List.range m).map f).drop a).take k = (List.range k).map (fun j => f (a + j)) := by
  apply List.ext_getElem?
  intro i
  by_cases hi : i < k
  · rw [List.getElem?_take_of_lt hi, List.getElem?_drop, List.getElem?_map, List.getElem?_map,
      List.getElem?_range (by omega), List.getElem?_range hi]
    rfl
  · rw [List.getElem?_eq_none (by simp; omega), List.getElem?_eq_none (by simp; omega)]

theorem cyclic_perm (k m : Nat) :
    ((List.range k).map (fun j => (m + j) % k)).Perm (List.range k) := by
  have e : (List.range k).map (fun j => (m + j) % k) = (List.range k).rotate m := by
    apply List.ext_getElem
    · simp
    · intro i h1 h2
      rw [List.getElem_rotate]
      simp only [List.getElem_map, List.getElem_range, List.length_range]
      rw [Nat.add_comm]
  rw [e]
  exact List.rotate_perm _ _

/-- C10. Round-robin fairness: in a reachable session with `k` tracks whose
cursor stands at `p`, when every request for a sample is answered with one,
the samples fetched by a sequence of `Read` calls come from the tracks
`(p + 1) % k, (p + 2) % k, ...` in this order (the frame units are given out
in the same order); any `k` consecutive fetches start at the track after the
previously served one, go up by one cyclically, and visit each track index in
`0 .. k - 1` exactly once.  After `AccessOpen` the cursor is 0. -/
theorem C10_round_robin (p_sys p_sys1 : access_sys_t) (env rest : List (Option VLCMediaSample))
    (lens : List Nat) (out : List Nat)
    (hreach : Reachable p_sys) (hl : ∀ i_len ∈ lens, i_len < 2147483648)
    (hall : ∀ o ∈ env, o ≠ none)
    (hr : ReadCalls p_sys env lens = some (out, p_sys1, rest)) :
    ∃ used, env = used ++ rest ∧
      out ++ pending p_sys1 =
        pending p_sys ++ frameUnits p_sys.i_streams p_sys.i_current_stream used ∧
      (fetches p_sys.i_streams p_sys.i_current_stream used).map Prod.fst =
        (List.range used.length).map (fun j => (p_sys.i_current_stream + 1 + j) % p_sys.i_streams) ∧
      p_sys1.i_current_stream = (p_sys.i_current_stream + used.length) % p_sys.i_streams ∧
      (∀ a, a + p_sys.i_streams ≤ used.length →
        ((((fetches p_sys.i_streams p_sys.i_current_stream used).map Prod.fst).drop a).take
            p_sys.i_streams =
          (List.range p_sys.i_streams).map
            (fun j => ((p_sys.i_current_stream + a) % p_sys.i_streams + 1 + j) % p_sys.i_streams)) ∧
        ((((fetches p_sys.i_streams p_sys.i_current_stream used).map Prod.fst).drop a).take
            p_sys.i_streams).Perm (List.range p_sys.i_streams)) ∧
      (∀ vdev adev, AccessOpen vdev adev = some p_sys → p_sys.i_current_stream = 0) := by
  obtain ⟨used, u1, _, u3, u4, _⟩ := ReadCalls_spec lens p_sys env out p_sys1 rest hreach.inv hl hr
  have hu : ∀ o ∈ used, o ≠ none := fun o ho => hall o (by rw [u1]; exact List.mem_append_left _ ho)
  have hf := fetches_all_some p_sys.i_streams used p_sys.i_current_stream hu
  refine ⟨used, u1, u3, hf, u4, ?_, fun vdev adev ho => (AccessOpen_some ho).2.2.2.2.2.1⟩
  intro a ha
  have hw : ((((fetches p_sys.i_streams p_sys.i_current_stream used).map Prod.fst).drop a).take
      p_sys.i_streams) = (List.range p_sys.i_streams).map
        (fun j => (p_sys.i_current_stream + 1 + a + j) % p_sys.i_streams) := by
    rw [hf, window_range _ _ _ _ ha]
    apply List.map_congr_left
    intro j _
    congr 1
    omega
  constructor
  · rw [hw]
    apply List.map_congr_left
    intro j _
    rw [Nat.add_assoc ((p_sys.i_current_stream + a) % p_sys.i_streams), Nat.mod_add_mod]
    congr 1
    omega
  · rw [hw]
    exact cyclic_perm _ _

/-! ## `Demux` -/

/-- The `while( i_size > 0 )` loop of `Demux` when the input holds at least
the `n` bytes asked for: it takes exactly the next `n` bytes, in data packets
of at most 10000 bytes, and counts them in `i_pes_size`. -/
theorem pullPES_full : ∀ (fuel n : Nat) (p_input : input_thread_t) (acc : List (List Nat)),
    n ≤ fuel → n ≤ p_input.stream.length →
    ∃ chunks, pullPES fuel (n : Int) p_input acc (acc.flatten.length : Int) =
        (true, acc ++ chunks, (((acc ++ chunks).flatten.length : Nat) : Int),
          { p_input with stream := p_input.stream.drop n }) ∧
      chunks.flatten = p_input.stream.take n ∧
      (0 < n → chunks.head? = some (p_input.stream.take (min n 10000))) := by
  intro fuel
  induction fuel with
  | zero =>
    intro n p_input acc hn _
    have h0 : n = 0 := by omega
    subst h0
    exact ⟨[], by simp [pullPES], by simp, fun h => absurd h (by omega)⟩
  | succ fuel ih =>
    intro n p_input acc hn hlen
    by_cases h0 : n = 0
    · subst h0
      refine ⟨[], ?_, by simp, fun h => absurd h (by omega)⟩
      rw [pullPES, if_neg (by simp)]
      simp
    · have hpos : (0 : Int) < (n : Int) := by omega
      have hm : (min (n : Int) 10000).toNat = min n 10000 := by omega
      have hmpos : 0 < min n 10000 := by omega
      have hmle : min n 10000 ≤ n := Nat.min_le_left _ _
      have htl : (p_input.stream.take (min n 10000)).length = min n 10000 := by
        rw [List.length_take]; omega
      rw [pullPES, if_pos hpos]
      simp only [input_SplitBuffer, hm, htl]
      rw [if_neg (by omega)]
      have hsz : (if acc = [] then ((min n 10000 : Nat) : Int)
          else (acc.flatten.length : Int) + ((min n 10000 : Nat) : Int)) =
          (((acc ++ [p_input.stream.take (min n 10000)]).flatten.length : Nat) : Int) := by
        rw [List.flatten_append, List.length_append]
        simp only [List.flatten_cons, List.flatten_nil, List.append_nil, htl]
        split
        · rename_i he; subst he; simp
        · push_cast; rfl
      have hsub : (n : Int) - ((min n 10000 : Nat) : Int) = ((n - min n 10000 : Nat) : Int) := by
        omega
      rw [hsz, hsub]
      obtain ⟨chunks, hc, hf, _⟩ := ih (n - min n 10000)
        { p_input with stream := p_input.stream.drop (min n 10000) }
        (acc ++ [p_input.stream.take (min n 10000)]) (by omega)
        (by simp only [List.length_drop]; omega)
      refine ⟨p_input.stream.take (min n 10000) :: chunks, ?_, ?_, fun _ => rfl⟩
      · rw [hc]
        simp only [List.append_assoc, List.singleton_append, List.drop_drop]
        have e : min n 10000 + (n - min n 10000) = n := by omega
        rw [e]
      · rw [List.flatten_cons, hf]
        simp only [List.take_drop]
        have e : min n 10000 + (n - min n 10000) = n := by omega
        rw [e]
        conv_rhs => rw [← List.take_append_drop (min n 10000) (p_input.stream.take n)]
        rw [List.take_take, Nat.min_eq_left hmle, List.drop_take]

/-- `Demux` on an input that starts with a complete frame unit whose track
index is in the stream table, when a packet can be allocated. -/
theorem Demux_frame (host : Host) (p_input : input_thread_t) (hdr payload tail : List Nat)
    (p_es : es_descriptor_t)
    (hs : p_input.stream = hdr ++ payload ++ tail) (hh : hdr.length = 16)
    (hsz : GetDWBE (hdr.drop 4) = payload.length) (hlim : payload.length + 16 < 2147483648)
    (htr : GetDWBE hdr < 2147483648) (hes : p_input.pp_es[GetDWBE hdr]? = some p_es)
    (hpes : host.newPES = true) :
    ∃ (first : List Nat) (more : List (List Nat)), (first.drop 16 :: more).flatten = payload ∧
      Demux host p_input =
        if p_es.p_decoder_fifo then
          .returned 1
            { stream := tail, pp_es := p_input.pp_es,
              clockRefs := p_input.clockRefs ++ [toInt64 (GetQWBE (hdr.drop 8))] }
            (some (p_es,
              { p_first := first.drop 16 :: more
                i_nb_data := more.length + 1
                i_pes_size := payload.length
                i_pts := if toInt64 (GetQWBE (hdr.drop 8)) ≤ 0 then 0
                  else host.clockGetTS (p_input.clockRefs ++ [toInt64 (GetQWBE (hdr.drop 8))])
                    (toInt64 (GetQWBE (hdr.drop 8)))
                i_dts := if toInt64 (GetQWBE (hdr.drop 8)) ≤ 0 then 0
                  else host.clockGetTS (p_input.clockRefs ++ [toInt64 (GetQWBE (hdr.drop 8))])
                    (toInt64 (GetQWBE (hdr.drop 8))) }))
        else .returned 1 { stream := tail, pp_es := p_input.pp_es, clockRefs := p_input.clockRefs }
          none := by
  have hlen : payload.length + 16 ≤ p_input.stream.length := by
    rw [hs]; simp only [List.length_append]; omega
  have hpeek : input_Peek p_input 16 = hdr := by
    unfold input_Peek
    rw [hs, List.append_assoc, ← hh, List.take_left]
  have htake : p_input.stream.take (payload.length + 16) = hdr ++ payload := by
    have e : payload.length + 16 = (hdr ++ payload).length := by
      rw [List.length_append]; omega
    rw [hs, e, List.take_left]
  have hdrop : p_input.stream.drop (payload.length + 16) = tail := by
    have e : payload.length + 16 = (hdr ++ payload).length := by
      rw [List.length_append]; omega
    rw [hs, e, List.drop_left]
  obtain ⟨chunks, hc, hf, hhead⟩ := pullPES_full (payload.length + 16) (payload.length + 16)
    p_input [] (le_refl _) hlen
  have hfirst := hhead (by omega)
  cases chunks with
  | nil => simp at hfirst
  | cons first more =>
    simp only [List.head?_cons, Option.some.injEq] at hfirst
    have hfl : 16 ≤ first.length := by
      rw [hfirst, List.length_take]
      omega
    have hpay : (first.drop 16 :: more).flatten = payload := by
      rw [List.flatten_cons, ← List.drop_append_of_le_length hfl, ← List.flatten_cons, hf, htake,
        ← hh, List.drop_left]
    refine ⟨first, more, hpay, ?_⟩
    have htotal : (((first :: more).flatten.length : Nat) : Int) = (payload.length : Int) + 16 := by
      rw [hf, htake, List.length_append, hh]
      push_cast
      omega
    unfold Demux
    simp only [hpeek, hh, lt_irrefl, if_false]
    rw [toInt32_small _ htr, hsz, toInt32_small _ (by omega)]
    rw [if_neg (by omega), Int.toNat_ofNat, hes]
    simp only [hpes, Bool.not_true, Bool.false_eq_true, if_false]
    rw [wrap32_small _ (by omega) (by omega)]
    have e1 : ((payload.length : Int) + 16).toNat = payload.length + 16 := by omega
    have e2 : ((payload.length : Int) + 16) = ((payload.length + 16 : Nat) : Int) := by
      push_cast; rfl
    rw [e1, e2]
    simp only [List.flatten_nil, List.length_nil, Nat.cast_zero, List.nil_append] at hc
    rw [hc]
    simp only [htotal, hdrop]
    rw [wrap32_small _ (by omega) (by omega)]
    simp only [add_sub_cancel_right]

theorem GetQWBE_SetQWBE (qw : Nat) (t : List Nat) :
    GetQWBE (SetQWBE qw ++ t) = qw % 18446744073709551616 := by
  have e : SetQWBE qw ++ t = SetDWBE ((qw / 4294967296) % 4294967296) ++
      (SetDWBE (qw % 4294967296) ++ t) := by
    unfold SetQWBE
    rw [List.append_assoc]
  have e4 : (SetDWBE ((qw / 4294967296) % 4294967296) ++ (SetDWBE (qw % 4294967296) ++ t)).drop 4 =
      SetDWBE (qw % 4294967296) ++ t := by
    rw [← SetDWBE_length ((qw / 4294967296) % 4294967296), List.drop_left]
  unfold GetQWBE
  rw [e, e4, GetDWBE_SetDWBE, GetDWBE_SetDWBE]
  omega

theorem tdiv_1000_bounds (a : Int) (h0 : -9223372036854775808 ≤ a)
    (h1 : a < 9223372036854775808) :
    -9223372036854775808 ≤ Int.tdiv a 1000 ∧ Int.tdiv a 1000 < 9223372036854775808 := by
  by_cases ha : 0 ≤ a
  · rw [Int.tdiv_eq_ediv ha (by omega)]
    omega
  · have e : Int.tdiv a 1000 = -((-a) / 1000) := by
      have := Int.neg_tdiv (-a) 1000
      rw [Int.neg_neg] at this
      rw [this, Int.tdiv_eq_ediv (by omega) (by omega)]
    rw [e]
    omega

theorem wrap64_bounds (i : Int) :
    -9223372036854775808 ≤ wrap64 i ∧ wrap64 i < 9223372036854775808 := by
  unfold wrap64 toInt64 toUInt64
  split <;> omega

theorem toInt64_toUInt64 (i : Int) (h0 : -9223372036854775808 ≤ i)
    (h1 : i < 9223372036854775808) : toInt64 (toUInt64 i) = i := by
  unfold toInt64 toUInt64
  split <;> omega

theorem toUInt64_lt (i : Int) : toUInt64 i < 18446744073709551616 := by
  unfold toUInt64
  omega

/-- The clock value `Demux` reads back from a micro-header is the one `Read`
computed. -/
theorem clock_round_trip (i_pts : Int) (t : List Nat) :
    toInt64 (GetQWBE (SetQWBE (toUInt64 (clock90k i_pts)) ++ t)) = clock90k i_pts := by
  obtain ⟨a, b⟩ := wrap64_bounds (i_pts * 9)
  obtain ⟨c, d⟩ := tdiv_1000_bounds _ a b
  rw [GetQWBE_SetQWBE, Nat.mod_eq_of_lt (toUInt64_lt _)]
  exact toInt64_toUInt64 _ c d

/-- `Demux` on an input that starts with a frame unit written by `Read`. -/
theorem Demux_frameUnit (host : Host) (pp_es : List es_descriptor_t) (refs : List Int)
    (c : Nat) (s : VLCMediaSample) (tail : List Nat) (p_es : es_descriptor_t)
    (hc : c < 2147483648) (hlim : s.data.length + 16 < 2147483648)
    (hes : pp_es[c]? = some p_es) (hdec : p_es.p_decoder_fifo = true)
    (hpes : host.newPES = true) :
    ∃ p_pes, Demux host ⟨frameUnit c s ++ tail, pp_es, refs⟩ =
        .returned 1 ⟨tail, pp_es, refs ++ [clock90k (samplePts s)]⟩ (some (p_es, p_pes)) ∧
      p_pes.p_first.flatten = s.data ∧ p_pes.i_pes_size = s.data.length ∧
      p_pes.i_pts = (if clock90k (samplePts s) ≤ 0 then 0
        else host.clockGetTS (refs ++ [clock90k (samplePts s)]) (clock90k (samplePts s))) ∧
      p_pes.i_dts = p_pes.i_pts := by
  have hu : toUInt32 (c : Int) = c := by rw [toUInt32_natCast]; omega
  have hl : toUInt32 (s.data.length : Int) = s.data.length := by rw [toUInt32_natCast]; omega
  have h1 : GetDWBE (pseudoHeader c s.data.length (samplePts s)) = c := by
    unfold pseudoHeader
    rw [List.append_assoc, GetDWBE_SetDWBE, hu]
    omega
  have h2 : GetDWBE ((pseudoHeader c s.data.length (samplePts s)).drop 4) = s.data.length := by
    unfold pseudoHeader
    rw [List.append_assoc, ← SetDWBE_length (toUInt32 (c : Int)), List.drop_left,
      GetDWBE_SetDWBE, hl]
    omega
  have h3 : toInt64 (GetQWBE ((pseudoHeader c s.data.length (samplePts s)).drop 8)) =
      clock90k (samplePts s) := by
    have e : (pseudoHeader c s.data.length (samplePts s)).drop 8 =
        SetQWBE (toUInt64 (clock90k (samplePts s))) ++ [] := by
      unfold pseudoHeader
      have e8 : 8 = (SetDWBE (toUInt32 (c : Int)) ++ SetDWBE (toUInt32 (s.data.length : Int))).length :=
        rfl
      rw [List.append_nil]
      conv_lhs => rw [e8]
      rw [List.drop_left]
    rw [e, clock_round_trip]
  obtain ⟨first, more, hpay, hd⟩ := Demux_frame host ⟨frameUnit c s ++ tail, pp_es, refs⟩
    (pseudoHeader c s.data.length (samplePts s)) s.data tail p_es rfl rfl h2 hlim
    (by rw [h1]; exact hc) (by rw [h1]; exact hes) hpes
  rw [hdec, if_pos rfl, h3] at hd
  exact ⟨_, hd, hpay, rfl, rfl, rfl⟩

/-- `Demux` called once per frame unit on a stream of frame units written by
`Read`: one packet per unit, in order, with the unit's payload, handed to the
stream at the unit's track index; the clock values read are the ones
stamped, and exactly the units are consumed. -/
theorem DemuxRun_frameUnits (host : Host) (pp_es : List es_descriptor_t) (tail : List Nat)
    (hpes : host.newPES = true) (fs : List (Nat × VLCMediaSample)) :
    ∀ refs : List Int,
      (∀ f ∈ fs, f.1 < 2147483648 ∧ f.2.data.length + 16 < 2147483648 ∧
        ∃ p_es, pp_es[f.1]? = some p_es ∧ p_es.p_decoder_fifo = true ∧ p_es.i_id = f.1 + 1) →
      (DemuxRun host fs.length
          ⟨(fs.map (fun f => frameUnit f.1 f.2)).flatten ++ tail, pp_es, refs⟩).2 =
        ⟨tail, pp_es, refs ++ fs.map (fun f => clock90k (samplePts f.2))⟩ ∧
      (DemuxRun host fs.length
          ⟨(fs.map (fun f => frameUnit f.1 f.2)).flatten ++ tail, pp_es, refs⟩).1.map
          (fun p => (some p.1, p.1.i_id, p.2.p_first.flatten, p.2.i_pes_size)) =
        fs.map (fun f => (pp_es[f.1]?, f.1 + 1, f.2.data, (f.2.data.length : Int))) := by
  induction fs with
  | nil =>
    intro refs _
    simp [DemuxRun]
  | cons f fs ih =>
    intro refs h
    obtain ⟨hc, hlim, p_es, hes, hdec, hid⟩ := h f (List.mem_cons_self _ _)
    obtain ⟨p_pes, hd, hpay, hsz, _, _⟩ := Demux_frameUnit host pp_es refs f.1 f.2
      ((fs.map (fun f => frameUnit f.1 f.2)).flatten ++ tail) p_es hc hlim hes hdec hpes
    obtain ⟨i1, i2⟩ := ih (refs ++ [clock90k (samplePts f.2)])
      (fun x hx => h x (List.mem_cons_of_mem _ hx))
    have e : ((f :: fs).map (fun f => frameUnit f.1 f.2)).flatten ++ tail =
        frameUnit f.1 f.2 ++ ((fs.map (fun f => frameUnit f.1 f.2)).flatten ++ tail) := by
      simp
    rw [e, List.length_cons, DemuxRun, hd]
    dsimp only
    rw [if_pos rfl]
    constructor
    · dsimp only
      rw [i1]
      simp
    · dsimp only
      rw [Option.toList, List.singleton_append, List.map_cons, i2, List.map_cons, hes, hpay, hsz,
        hid]

theorem fetches_mem (n : Nat) (hn : 0 < n) (env : List (Option VLCMediaSample)) :
    ∀ (c : Nat) (f : Nat × VLCMediaSample), f ∈ fetches n c env → f.1 < n ∧ some f.2 ∈ env := by
  induction env with
  | nil => intro c f h; simp [fetches] at h
  | cons o env ih =>
    intro c f h
    cases o with
    | none =>
      rw [fetches] at h
      obtain ⟨a, b⟩ := ih _ f h
      exact ⟨a, List.mem_cons_of_mem _ b⟩
    | some s =>
      rw [fetches, List.mem_cons] at h
      rcases h with h | h
      · subst h
        exact ⟨Nat.mod_lt _ hn, List.mem_cons_self _ _⟩
      · obtain ⟨a, b⟩ := ih _ f h
        exact ⟨a, List.mem_cons_of_mem _ b⟩

/-- C3. Mux/demux round trip: after a successful `AccessOpen` (fields within
the range of their types) and a sequence of `Read` calls that leaves no byte
pending (samples shorter than 2^31 - 16 bytes, requested lengths in the range
of `int`), on a host whose set-up succeeds, that allocates packets and that
starts a decoder for every stream, `DemuxOpen` on the concatenated output
registers one stream per track (ids 1 .. n), and `Demux` called once per
fetched sample consumes the whole output and yields, for each fetched sample
in fetch order, one packet whose payload is the sample's bytes, handed to
the stream at the sample's track index (id: track index + 1), the clock
values it reads being the ones `Read` stamped. -/
theorem C3_mux_demux_round_trip (host : Host) (vdev adev : CaptureDevice)
    (p_sys p_sys1 : access_sys_t) (env rest : List (Option VLCMediaSample))
    (lens : List Nat) (out : List Nat)
    (ho : AccessOpen vdev adev = some p_sys)
    (hfr : ∀ st ∈ p_sys.pp_streams, FieldsInRange st)
    (hl : ∀ i_len ∈ lens, i_len < 2147483648)
    (hsmall : ∀ s, some s ∈ env → s.data.length + 16 < 2147483648)
    (hrc : ReadCalls p_sys env lens = some (out, p_sys1, rest))
    (hdone : pending p_sys1 = [])
    (hinit : host.initStream = true) (hprog : host.addProgram = true)
    (hpes : host.newPES = true) (hsel : ∀ cat fcc, host.selectES cat fcc = true) :
    ∃ used p_input, env = used ++ rest ∧
      DemuxOpen host ⟨out, [], []⟩ = some p_input ∧
      p_input.pp_es.map (fun p_es => p_es.i_id) = List.range' 1 p_sys.i_streams ∧
      (DemuxRun host (fetches p_sys.i_streams 0 used).length p_input).2 =
        ⟨[], p_input.pp_es,
          (fetches p_sys.i_streams 0 used).map (fun f => clock90k (samplePts f.2))⟩ ∧
      (DemuxRun host (fetches p_sys.i_streams 0 used).length p_input).1.map
          (fun p => (some p.1, p.1.i_id, p.2.p_first.flatten, p.2.i_pes_size)) =
        (fetches p_sys.i_streams 0 used).map
          (fun f => (p_input.pp_es[f.1]?, f.1 + 1, f.2.data, (f.2.data.length : Int))) := by
  obtain ⟨used, u1, _, u2, _, _⟩ :=
    ReadCalls_spec lens p_sys env out p_sys1 rest (ReadInv_AccessOpen ho) hl hrc
  have hcur : p_sys.i_current_stream = 0 := (AccessOpen_some ho).2.2.2.2.2.1
  rw [pending_AccessOpen ho, hcur, hdone, List.append_nil] at u2
  change out = containerHeader p_sys.pp_streams ++ frameUnits p_sys.i_streams 0 used at u2
  obtain ⟨hne, hle, _, _, _, _, hv, _⟩ := AccessOpen_some ho
  have hpos : 0 < p_sys.pp_streams.length := List.length_pos.2 hne
  obtain ⟨es, he, _, k2, _, _, _, k6⟩ := DemuxOpen_containerHeader host p_sys.pp_streams
    (frameUnits p_sys.i_streams 0 used) [] hinit hprog hne (by omega)
    (fun st h => ⟨(hv st h).1, hfr st h⟩)
  have hlen : es.length = p_sys.pp_streams.length := by
    have := congrArg List.length k2
    simpa using this
  have hes : ∀ f ∈ fetches p_sys.i_streams 0 used,
      f.1 < 2147483648 ∧ f.2.data.length + 16 < 2147483648 ∧
        ∃ p_es, es[f.1]? = some p_es ∧ p_es.p_decoder_fifo = true ∧ p_es.i_id = f.1 + 1 := by
    intro f hf
    obtain ⟨a, b⟩ := fetches_mem p_sys.i_streams hpos used 0 f hf
    have ha1 : f.1 < es.length := by rw [hlen]; exact a
    have ha2 : f.1 < p_sys.pp_streams.length := a
    refine ⟨by omega, hsmall _ (by rw [u1]; exact List.mem_append_left _ b), es[f.1],
      List.getElem?_eq_getElem ha1, ?_, ?_⟩
    · have h6 := congrArg (fun l => l[f.1]?) k6
      simp only [List.getElem?_map, List.getElem?_eq_getElem ha1, List.getElem?_eq_getElem ha2,
        Option.map_some', hsel, Option.some.injEq] at h6
      exact h6
    · have h2 := congrArg (fun l => l[f.1]?) k2
      simp only [List.getElem?_map, List.getElem?_eq_getElem ha1, Option.map_some'] at h2
      rw [List.getElem?_range' _ _ ha2] at h2
      simp only [Option.some.injEq] at h2
      omega
  obtain ⟨r1, r2⟩ := DemuxRun_frameUnits host es [] hpes (fetches p_sys.i_streams 0 used) [] hes
  have hfu : ((fetches p_sys.i_streams 0 used).map (fun f => frameUnit f.1 f.2)).flatten ++ [] =
      frameUnits p_sys.i_streams 0 used := by
    rw [List.append_nil]; rfl
  rw [hfu] at r1 r2
  rw [List.nil_append] at r1
  refine ⟨used, ⟨frameUnits p_sys.i_streams 0 used, es, []⟩, u1, ?_, k2, r1, r2⟩
  rw [u2]
  exact he

/-- C3 at the concrete scenario: four `Read` calls of 10, 100, 7 and 50 bytes
while the filters answer with a sample, no sample, and a sample. -/
theorem C3_mux_demux_round_trip_witness :
    ∃ out p_sys1,
      ReadCalls scenarioSys scenarioAnswers [10, 100, 7, 50] = some (out, p_sys1, []) ∧
      pending p_sys1 = [] ∧
      ∃ used p_input, scenarioAnswers = used ++ [] ∧
        DemuxOpen okHost ⟨out, [], []⟩ = some p_input ∧
        p_input.pp_es.map (fun p_es => p_es.i_id) = List.range' 1 scenarioSys.i_streams ∧
        (DemuxRun okHost (fetches scenarioSys.i_streams 0 used).length p_input).2 =
          ⟨[], p_input.pp_es,
            (fetches scenarioSys.i_streams 0 used).map (fun f => clock90k (samplePts f.2))⟩ ∧
        (DemuxRun okHost (fetches scenarioSys.i_streams 0 used).length p_input).1.map
            (fun p => (some p.1, p.1.i_id, p.2.p_first.flatten, p.2.i_pes_size)) =
          (fetches scenarioSys.i_streams 0 used).map
            (fun f => (p_input.pp_es[f.1]?, f.1 + 1, f.2.data, (f.2.data.length : Int))) := by
  have h1 : (ReadCalls scenarioSys scenarioAnswers [10, 100, 7, 50]).map
      (fun t => (pending t.2.1, t.2.2)) = some ([], []) := by decide!
  have hsmall : ∀ s, some s ∈ scenarioAnswers → s.data.length + 16 < 2147483648 := by
    intro s hs
    simp only [scenarioAnswers, List.mem_cons, Option.some.injEq, List.mem_singleton,
      reduceCtorEq, false_or, List.not_mem_nil, or_false] at hs
    rcases hs with hs | hs <;> subst hs <;> decide
  cases hx : ReadCalls scenarioSys scenarioAnswers [10, 100, 7, 50] with
  | none => rw [hx] at h1; cases h1
  | some t =>
    obtain ⟨out, p_sys1, rest⟩ := t
    rw [hx] at h1
    simp only [Option.map_some', Option.some.injEq, Prod.mk.injEq] at h1
    obtain ⟨hp, hrest⟩ := h1
    subst hrest
    exact ⟨out, p_sys1, rfl, hp,
      C3_mux_demux_round_trip okHost rv24Device arawDevice scenarioSys p_sys1 scenarioAnswers []
        [10, 100, 7, 50] out AccessOpen_scenario (by decide) (by decide) hsmall hx hp rfl rfl rfl
        (fun _ _ => rfl)⟩

/-- C10 at the concrete scenario (two tracks): four `Read` calls of 200 bytes,
every request answered with a sample. -/
theorem C10_round_robin_witness :
    ∃ out p_sys1 rest,
      ReadCalls scenarioSys readyAnswers [200, 200, 200, 200] = some (out, p_sys1, rest) ∧
      ∃ used, readyAnswers = used ++ rest ∧
        out ++ pending p_sys1 =
          pending scenarioSys ++ frameUnits scenarioSys.i_streams scenarioSys.i_current_stream used ∧
        (fetches scenarioSys.i_streams scenarioSys.i_current_stream used).map Prod.fst =
          (List.range used.length).map
            (fun j => (scenarioSys.i_current_stream + 1 + j) % scenarioSys.i_streams) ∧
        p_sys1.i_current_stream =
          (scenarioSys.i_current_stream + used.length) % scenarioSys.i_streams ∧
        (∀ a, a + scenarioSys.i_streams ≤ used.length →
          ((((fetches scenarioSys.i_streams scenarioSys.i_current_stream used).map Prod.fst).drop
              a).take scenarioSys.i_streams =
            (List.range scenarioSys.i_streams).map
              (fun j => ((scenarioSys.i_current_stream + a) % scenarioSys.i_streams + 1 + j) %
                scenarioSys.i_streams)) ∧
          ((((fetches scenarioSys.i_streams scenarioSys.i_current_stream used).map Prod.fst).drop
              a).take scenarioSys.i_streams).Perm (List.range scenarioSys.i_streams)) ∧
        (∀ vdev adev, AccessOpen vdev adev = some scenarioSys →
          scenarioSys.i_current_stream = 0) := by
  obtain ⟨⟨out, p_sys1, rest⟩, hx⟩ := Option.isSome_iff_exists.1
    (by decide! : (ReadCalls scenarioSys readyAnswers [200, 200, 200, 200]).isSome = true)
  have hall : ∀ o ∈ readyAnswers, o ≠ none := by decide
  exact ⟨out, p_sys1, rest, hx,
    C10_round_robin scenarioSys p_sys1 readyAnswers rest [200, 200, 200, 200] out
      (Reachable.opened rv24Device arawDevice scenarioSys AccessOpen_scenario) (by decide) hall hx⟩

/-! ## What `Read` does when a stream has no sample -/

theorem ReadLoop_next (o : Option VLCMediaSample) (env : List (Option VLCMediaSample))
    (r r1 : ReadState) (hl : 0 < r.i_len) (hd : ReadDrain r = .next r1) :
    ReadLoop (o :: env) r = ReadLoop env (ReadFetch r1 o) := by
  rw [ReadLoop, if_neg (by omega), hd]

theorem ReadLoop_ret (env : List (Option VLCMediaSample)) (r r1 : ReadState) (hl : 0 < r.i_len)
    (hd : ReadDrain r = .ret r1) :
    ReadLoop env r = .returned r1.i_data r1.p_buffer r1.p_sys env := by
  cases env with
  | nil => rw [ReadLoop, if_neg (by omega), hd]
  | cons o env => rw [ReadLoop, if_neg (by omega), hd]

/-- C11 as stated fails: in the concrete scenario (two tracks, cursor at 0,
nothing pending) the first request goes to track 1, which has no sample; the
next request is answered with the five-byte sample, and the frame unit that
`Read` returns carries track index 0, not 1. -/
theorem C11_counterexample :
    (Read scenarioDrained [none, some sampleA] 100).result =
      some (21, frameUnit 0 sampleA, []) ∧
    frameUnit 0 sampleA ≠ frameUnit 1 sampleA := by
  decide!

/-- C11 (amended). At the point where `Read` asks for a new sample (every
pending byte given out, `i_len > 0`), when the cursor moves to track `t` and
`t` has no sample, the next pass of the loop either returns, with the cursor
still at `t`, or moves the cursor on to `(t + 1) % i_streams` and asks that
track; a sample it then gets is stamped with that track index.  The track
asked is `t` again only when there is a single track. -/
theorem C11_after_no_sample (r : ReadState) (o : Option VLCMediaSample)
    (env : List (Option VLCMediaSample)) (h : LoopInv r) (hl : 0 < r.i_len)
    (hh : r.p_sys.i_header_pos = r.p_sys.i_header_size)
    (hd : (curStream r.p_sys).i_data_pos = (curStream r.p_sys).i_data_size) :
    (ReadFetch r none).p_sys.i_current_stream =
      (r.p_sys.i_current_stream + 1) % r.p_sys.i_streams ∧
    ((∃ r2, ReadDrain (ReadFetch r none) = .ret r2 ∧
        ReadLoop (o :: env) (ReadFetch r none) =
          .returned r2.i_data r2.p_buffer r2.p_sys (o :: env) ∧
        r2.p_sys.i_current_stream = (ReadFetch r none).p_sys.i_current_stream) ∨
      (∃ r2, ReadDrain (ReadFetch r none) = .next r2 ∧
        ReadLoop (o :: env) (ReadFetch r none) = ReadLoop env (ReadFetch r2 o) ∧
        (ReadFetch r2 o).p_sys.i_current_stream =
          ((ReadFetch r none).p_sys.i_current_stream + 1) % r.p_sys.i_streams ∧
        pending (ReadFetch r2 o).p_sys =
          (match o with
            | some s =>
              frameUnit (((ReadFetch r none).p_sys.i_current_stream + 1) % r.p_sys.i_streams) s
            | none => []))) ∧
    (((ReadFetch r none).p_sys.i_current_stream + 1) % r.p_sys.i_streams =
        (ReadFetch r none).p_sys.i_current_stream ↔ r.p_sys.i_streams = 1) := by
  obtain ⟨f1, _, f3, f4, f5, _⟩ := ReadFetch_spec r none h hh hd
  have hl1 : 0 < (ReadFetch r none).i_len := by rw [f3]; exact hl
  refine ⟨f4, ?_, ?_⟩
  · rcases ReadDrain_spec (ReadFetch r none) f1 with ⟨r2, e, _, _, hc, _, _⟩ |
      ⟨r2, e, l2, _, _, _, hc, hn, _, hh2, hd2, _⟩
    · exact Or.inl ⟨r2, e, ReadLoop_ret _ _ _ hl1 e, hc⟩
    · obtain ⟨_, _, _, g4, _, g6⟩ := ReadFetch_spec r2 o l2 hh2 hd2
      refine Or.inr ⟨r2, e, ReadLoop_next o env _ _ hl1 e, ?_, ?_⟩
      · rw [g4, hc, hn, f5]; rfl
      · rw [g6, hc, hn, f5]; rfl
  · have hn := h.inv.nonempty
    have ht : (ReadFetch r none).p_sys.i_current_stream < r.p_sys.pp_streams.length := by
      rw [f4]; exact Nat.mod_lt _ hn
    show ((ReadFetch r none).p_sys.i_current_stream + 1) % r.p_sys.pp_streams.length =
      (ReadFetch r none).p_sys.i_current_stream ↔ r.p_sys.pp_streams.length = 1
    constructor
    · intro he
      by_contra hne
      by_cases hlt : (ReadFetch r none).p_sys.i_current_stream + 1 < r.p_sys.pp_streams.length
      · rw [Nat.mod_eq_of_lt hlt] at he
        omega
      · have heq : (ReadFetch r none).p_sys.i_current_stream + 1 = r.p_sys.pp_streams.length := by
          omega
        rw [heq, Nat.mod_self] at he
        omega
    · intro h1
      rw [h1] at ht ⊢
      omega

theorem scenarioDrained_reachable : Reachable scenarioDrained :=
  Reachable.read scenarioSys scenarioDrained [] [] 48 48 scenarioSys.p_header
    (Reachable.opened rv24Device arawDevice scenarioSys AccessOpen_scenario) (by decide)
    (by decide!)

theorem scenarioLoop_inv : LoopInv scenarioLoop :=
  ⟨scenarioDrained_reachable.inv, rfl, by decide⟩

/-- C11 (amended) at the concrete scenario: track 1 has no sample, the next
request goes to track 0. -/
theorem C11_after_no_sample_witness :
    (ReadFetch scenarioLoop none).p_sys.i_current_stream =
      (scenarioLoop.p_sys.i_current_stream + 1) % scenarioLoop.p_sys.i_streams ∧
    ((∃ r2, ReadDrain (ReadFetch scenarioLoop none) = .ret r2 ∧
        ReadLoop [some sampleA] (ReadFetch scenarioLoop none) =
          .returned r2.i_data r2.p_buffer r2.p_sys [some sampleA] ∧
        r2.p_sys.i_current_stream = (ReadFetch scenarioLoop none).p_sys.i_current_stream) ∨
      (∃ r2, ReadDrain (ReadFetch scenarioLoop none) = .next r2 ∧
        ReadLoop [some sampleA] (ReadFetch scenarioLoop none) =
          ReadLoop [] (ReadFetch r2 (some sampleA)) ∧
        (ReadFetch r2 (some sampleA)).p_sys.i_current_stream =
          ((ReadFetch scenarioLoop none).p_sys.i_current_stream + 1) %
            scenarioLoop.p_sys.i_streams ∧
        pending (ReadFetch r2 (some sampleA)).p_sys =
          frameUnit (((ReadFetch scenarioLoop none).p_sys.i_current_stream + 1) %
            scenarioLoop.p_sys.i_streams) sampleA)) ∧
    (((ReadFetch scenarioLoop none).p_sys.i_current_stream + 1) % scenarioLoop.p_sys.i_streams =
        (ReadFetch scenarioLoop none).p_sys.i_current_stream ↔
      scenarioLoop.p_sys.i_streams = 1) :=
  C11_after_no_sample scenarioLoop (some sampleA) [] scenarioLoop_inv (by decide) (by decide)
    (by decide)

/-! ## The micro-header -/

theorem SetDWBE_bigEndian (dw : Nat) : SetDWBE dw = bigEndian 4 dw := by
  simp [SetDWBE, bigEndian]

theorem SetDWBE_toUInt32 (n : Nat) : SetDWBE (toUInt32 (n : Int)) = bigEndian 4 n := by
  rw [toUInt32_natCast, ← SetDWBE_bigEndian]
  unfold SetDWBE
  have h1 : n % 4294967296 / 16777216 % 256 = n / 16777216 % 256 := by omega
  have h2 : n % 4294967296 / 65536 % 256 = n / 65536 % 256 := by omega
  have h3 : n % 4294967296 / 256 % 256 = n / 256 % 256 := by omega
  have h4 : n % 4294967296 % 256 = n % 256 := by omega
  rw [h1, h2, h3, h4]

theorem SetQWBE_bigEndian (qw : Nat) : SetQWBE qw = bigEndian 8 qw := by
  have h0 : (qw / 4294967296 % 4294967296) / 16777216 % 256 = qw / 72057594037927936 % 256 := by
    omega
  have h1 : (qw / 4294967296 % 4294967296) / 65536 % 256 = qw / 281474976710656 % 256 := by omega
  have h2 : (qw / 4294967296 % 4294967296) / 256 % 256 = qw / 1099511627776 % 256 := by omega
  have h3 : (qw / 4294967296 % 4294967296) % 256 = qw / 4294967296 % 256 := by omega
  have h4 : (qw % 4294967296) / 16777216 % 256 = qw / 16777216 % 256 := by omega
  have h5 : (qw % 4294967296) / 65536 % 256 = qw / 65536 % 256 := by omega
  have h6 : (qw % 4294967296) / 256 % 256 = qw / 256 % 256 := by omega
  have h7 : (qw % 4294967296) % 256 = qw % 256 := by omega
  simp only [SetQWBE, SetDWBE, h0, h1, h2, h3, h4, h5, h6, h7]
  simp [bigEndian]

/-- The clock value `Read` stamps for a non-negative time stamp `t` (100 ns
units) with `9 * t` below 2^63 is `floor (9 * t / 1000)`. -/
theorem clock90k_nonneg (t : Int) (h0 : 0 ≤ t) (h1 : 9 * t < 9223372036854775808) :
    clock90k t = 9 * t / 1000 ∧ toUInt64 (clock90k t) = (9 * t / 1000).toNat := by
  have hw : wrap64 (t * 9) = 9 * t := by
    unfold wrap64
    rw [toInt64_toUInt64 _ (by omega) (by omega)]
    omega
  have hc : clock90k t = 9 * t / 1000 := by
    unfold clock90k
    rw [hw, Int.tdiv_eq_ediv (by omega) (by omega)]
  refine ⟨hc, ?_⟩
  rw [hc]
  unfold toUInt64
  congr 1
  omega

/-- C12. Micro-header encoding: when `Read` fetches a sample (every pending
byte given out), with `c` the cursor after the move, `s` the sample length
and `t` the chosen time stamp (non-negative, `9 * t` below 2^63), the header
bytes it then has to give out are `c` as a big-endian u32, `s` as a
big-endian u32 and `floor (9 * t / 1000)` as a big-endian u64 (most
significant byte first), 16 bytes in all, and the payload follows them. -/
theorem C12_micro_header (r : ReadState) (smp : VLCMediaSample) (h : LoopInv r)
    (hh : r.p_sys.i_header_pos = r.p_sys.i_header_size)
    (hd : (curStream r.p_sys).i_data_pos = (curStream r.p_sys).i_data_size)
    (h0 : 0 ≤ samplePts smp) (h1 : 9 * samplePts smp < 9223372036854775808) :
    (ReadFetch r (some smp)).p_sys.i_current_stream =
      (r.p_sys.i_current_stream + 1) % r.p_sys.i_streams ∧
    pendingHeader (ReadFetch r (some smp)).p_sys =
      bigEndian 4 (ReadFetch r (some smp)).p_sys.i_current_stream ++
        bigEndian 4 smp.data.length ++ bigEndian 8 (9 * samplePts smp / 1000).toNat ∧
    (pendingHeader (ReadFetch r (some smp)).p_sys).length = 16 ∧
    pending (ReadFetch r (some smp)).p_sys =
      pendingHeader (ReadFetch r (some smp)).p_sys ++ smp.data ∧
    SetQWBE (9 * samplePts smp / 1000).toNat =
      bigEndian 8 (9 * samplePts smp / 1000).toNat := by
  obtain ⟨_, _, _, f4, _, f6⟩ := ReadFetch_spec r (some smp) h hh hd
  have hph : pendingHeader (ReadFetch r (some smp)).p_sys =
      pseudoHeader ((r.p_sys.i_current_stream + 1) % r.p_sys.pp_streams.length)
        smp.data.length (samplePts smp) := by
    show ((ReadFetch r (some smp)).p_sys.p_header.take 16).drop 0 = _
    rw [List.drop_zero]
    exact memcpy_zero_take r.p_sys.p_header
      (pseudoHeader ((r.p_sys.i_current_stream + 1) % r.p_sys.pp_streams.length)
        smp.data.length (samplePts smp))
  have hbe : pseudoHeader ((r.p_sys.i_current_stream + 1) % r.p_sys.pp_streams.length)
        smp.data.length (samplePts smp) =
      bigEndian 4 ((r.p_sys.i_current_stream + 1) % r.p_sys.pp_streams.length) ++
        bigEndian 4 smp.data.length ++ bigEndian 8 (9 * samplePts smp / 1000).toNat := by
    unfold pseudoHeader
    rw [SetDWBE_toUInt32, SetDWBE_toUInt32, (clock90k_nonneg _ h0 h1).2, SetQWBE_bigEndian]
  refine ⟨f4, ?_, ?_, ?_, SetQWBE_bigEndian _⟩
  · rw [hph, hbe, f4]
  · rw [hph]; rfl
  · rw [hph, f6]; rfl

/-- C12 at the concrete scenario: the five-byte sample with start time 10000
fetched from track 1 gets the micro-header 1, 5, 90. -/
theorem C12_micro_header_witness :
    (ReadFetch scenarioLoop (some sampleA)).p_sys.i_current_stream =
      (scenarioLoop.p_sys.i_current_stream + 1) % scenarioLoop.p_sys.i_streams ∧
    pendingHeader (ReadFetch scenarioLoop (some sampleA)).p_sys =
      bigEndian 4 (ReadFetch scenarioLoop (some sampleA)).p_sys.i_current_stream ++
        bigEndian 4 sampleA.data.length ++ bigEndian 8 (9 * samplePts sampleA / 1000).toNat ∧
    (pendingHeader (ReadFetch scenarioLoop (some sampleA)).p_sys).length = 16 ∧
    pending (ReadFetch scenarioLoop (some sampleA)).p_sys =
      pendingHeader (ReadFetch scenarioLoop (some sampleA)).p_sys ++ sampleA.data ∧
    SetQWBE (9 * samplePts sampleA / 1000).toNat =
      bigEndian 8 (9 * samplePts sampleA / 1000).toNat :=
  C12_micro_header scenarioLoop sampleA scenarioLoop_inv (by decide) (by decide) (by decide)
    (by decide)

/-! ## The frame-unit invariant -/

theorem Reachable.origin {p_sys : access_sys_t} (h : Reachable p_sys) :
    ∃ vdev adev p0, AccessOpen vdev adev = some p0 ∧
      p_sys.pp_streams.length = p0.pp_streams.length := by
  induction h with
  | opened vdev adev p_sys ho => exact ⟨vdev, adev, p_sys, ho, rfl⟩
  | read p_sys p_sys1 env rest i_len i_data p_buffer hre hl hr ih =>
    obtain ⟨vdev, adev, p0, ho, hn⟩ := ih
    obtain ⟨_, _, _, _, _, _, _, u7, _⟩ := (Read_spec p_sys env i_len hre.inv hl).2 _ _ _ _ hr
    exact ⟨vdev, adev, p0, ho, u7.trans hn⟩

theorem AccessOpen_count {vdev adev : CaptureDevice} {p0 : access_sys_t}
    (ho : AccessOpen vdev adev = some p0) :
    GetDWBE (p0.p_header.drop 4) = p0.pp_streams.length ∧ p0.pp_streams.length ≤ 2 := by
  obtain ⟨_, hle, hh, _⟩ := AccessOpen_some ho
  refine ⟨?_, hle⟩
  have e : (containerHeader p0.pp_streams).drop 4 =
      SetDWBE (toUInt32 p0.pp_streams.length) ++ (p0.pp_streams.map trackRecord).flatten := by
    unfold containerHeader
    rw [List.append_assoc]
    exact List.drop_left (cstr ".dsh") _
  rw [hh, e, GetDWBE_SetDWBE, toUInt32_natCast]
  omega

theorem frameUnit_track (c : Nat) (s : VLCMediaSample) (hc : c < 4294967296) :
    GetDWBE (frameUnit c s) = c := by
  unfold frameUnit pseudoHeader
  rw [List.append_assoc, List.append_assoc, GetDWBE_SetDWBE, toUInt32_natCast]
  omega

theorem frameUnit_size (c : Nat) (s : VLCMediaSample) (hs : s.data.length < 4294967296) :
    GetDWBE ((frameUnit c s).drop 4) = s.data.length := by
  unfold frameUnit pseudoHeader
  rw [List.append_assoc, List.append_assoc, ← SetDWBE_length (toUInt32 (c : Int)), List.drop_left,
    GetDWBE_SetDWBE, toUInt32_natCast]
  omega

theorem frameUnit_payload (c : Nat) (s : VLCMediaSample) :
    (frameUnit c s).drop 16 = s.data ∧ (frameUnit c s).length = 16 + s.data.length := by
  unfold frameUnit
  constructor
  · rw [← pseudoHeader_length c s.data.length (samplePts s), List.drop_left]
  · rw [List.length_append, pseudoHeader_length]

/-- C13. Frame-unit invariant: in every state reachable from a successful
`AccessOpen` by `Read` calls the cursor is below the track count, which is
the count declared in the container header; so for every sample fetched by
further `Read` calls (samples shorter than 2^32 bytes) the track index
written in its micro-header is below the track count, and the payload length
written in it is the number of payload bytes that follow in the frame unit
`Read` gives out. -/
theorem C13_frame_unit_invariant (p_sys p_sys1 : access_sys_t)
    (env rest : List (Option VLCMediaSample)) (lens : List Nat) (out : List Nat)
    (hreach : Reachable p_sys) (hl : ∀ i_len ∈ lens, i_len < 2147483648)
    (hsz : ∀ s, some s ∈ env → s.data.length < 4294967296)
    (hr : ReadCalls p_sys env lens = some (out, p_sys1, rest)) :
    p_sys.i_current_stream < p_sys.i_streams ∧
    p_sys1.i_current_stream < p_sys1.i_streams ∧ p_sys1.i_streams = p_sys.i_streams ∧
    (∃ vdev adev p0, AccessOpen vdev adev = some p0 ∧
      GetDWBE (p0.p_header.drop 4) = p_sys.i_streams) ∧
    ∃ used, env = used ++ rest ∧
      out ++ pending p_sys1 =
        pending p_sys ++ frameUnits p_sys.i_streams p_sys.i_current_stream used ∧
      ∀ f ∈ fetches p_sys.i_streams p_sys.i_current_stream used,
        f.1 < p_sys.i_streams ∧ GetDWBE (frameUnit f.1 f.2) = f.1 ∧
        GetDWBE ((frameUnit f.1 f.2).drop 4) = f.2.data.length ∧
        (frameUnit f.1 f.2).drop 16 = f.2.data ∧
        (frameUnit f.1 f.2).length = 16 + f.2.data.length := by
  obtain ⟨used, u1, u2, u3, _, u5⟩ := ReadCalls_spec lens p_sys env out p_sys1 rest hreach.inv hl hr
  obtain ⟨vdev, adev, p0, ho, hn⟩ := hreach.origin
  obtain ⟨hc0, hle⟩ := AccessOpen_count ho
  have hlen2 : p_sys.pp_streams.length ≤ 2 := by rw [hn]; exact hle
  refine ⟨hreach.inv.cur, u2.cur, u5, ⟨vdev, adev, p0, ho, by rw [hc0]; exact hn.symm⟩,
    used, u1, u3, ?_⟩
  intro f hf
  obtain ⟨a, b⟩ := fetches_mem p_sys.i_streams hreach.inv.nonempty used _ f hf
  have ha : f.1 < p_sys.pp_streams.length := a
  exact ⟨a, frameUnit_track _ _ (by omega),
    frameUnit_size _ _ (hsz _ (by rw [u1]; exact List.mem_append_left _ b)),
    (frameUnit_payload _ _).1, (frameUnit_payload _ _).2⟩

theorem C13_frame_unit_invariant_witness :
    ∃ out p_sys1 rest,
      ReadCalls scenarioDrained [some sampleA, none, some sampleB] [10, 100] =
        some (out, p_sys1, rest) ∧
      scenarioDrained.i_current_stream < scenarioDrained.i_streams ∧
      p_sys1.i_current_stream < p_sys1.i_streams ∧
      p_sys1.i_streams = scenarioDrained.i_streams ∧
      (∃ vdev adev p0, AccessOpen vdev adev = some p0 ∧
        GetDWBE (p0.p_header.drop 4) = scenarioDrained.i_streams) ∧
      ∃ used, [some sampleA, none, some sampleB] = used ++ rest ∧
        out ++ pending p_sys1 =
          pending scenarioDrained ++
            frameUnits scenarioDrained.i_streams scenarioDrained.i_current_stream used ∧
        ∀ f ∈ fetches scenarioDrained.i_streams scenarioDrained.i_current_stream used,
          f.1 < scenarioDrained.i_streams ∧ GetDWBE (frameUnit f.1 f.2) = f.1 ∧
          GetDWBE ((frameUnit f.1 f.2).drop 4) = f.2.data.length ∧
          (frameUnit f.1 f.2).drop 16 = f.2.data ∧
          (frameUnit f.1 f.2).length = 16 + f.2.data.length := by
  obtain ⟨⟨out, p_sys1, rest⟩, hx⟩ := Option.isSome_iff_exists.1
    (by decide! : (ReadCalls scenarioDrained [some sampleA, none, some sampleB]
      [10, 100]).isSome = true)
  exact ⟨out, p_sys1, rest, hx,
    C13_frame_unit_invariant scenarioDrained p_sys1 _ rest _ out scenarioDrained_reachable
      (by decide)
      (by
        intro s hs
        simp only [List.mem_cons, Option.some.injEq, List.mem_singleton, List.mem_nil_iff,
          or_false] at hs
        rcases hs with h | h | h
        · subst h; decide
        · cases h
        · subst h; decide)
      hx⟩

/-! ## Packet routing -/

theorem filterMap_range_prefix {α : Type} (f : Nat → Option α) :
    ∀ m, (∀ j, j < m → (f j).isSome = true) →
      ((List.range m).filterMap f).length = m ∧
      ∀ i, i < m → ((List.range m).filterMap f)[i]? = f i := by
  intro m
  induction m with
  | zero =>
    intro _
    exact ⟨rfl, fun i hi => absurd hi (Nat.not_lt_zero i)⟩
  | succ m ih =>
    intro h
    obtain ⟨hl, hg⟩ := ih (fun j hj => h j (Nat.lt_succ_of_lt hj))
    obtain ⟨v, hv⟩ := Option.isSome_iff_exists.1 (h m (Nat.lt_succ_self m))
    have e : (List.range (m + 1)).filterMap f = (List.range m).filterMap f ++ [v] := by
      rw [List.range_succ, List.filterMap_append]
      simp [List.filterMap_cons, hv]
    rw [e]
    refine ⟨by rw [List.length_append, hl]; rfl, ?_⟩
    intro i hi
    by_cases him : i < m
    · rw [List.getElem?_append_left (by rw [hl]; exact him)]
      exact hg i him
    · have : i = m := by omega
      subst this
      rw [List.getElem?_append_right (by rw [hl]), hl, Nat.sub_self, hv]
      rfl

theorem filterMap_range_getElem? {α : Type} (f : Nat → Option α) (n i : Nat) (hi : i < n)
    (h : ∀ j, j ≤ i → (f j).isSome = true) : ((List.range n).filterMap f)[i]? = f i := by
  obtain ⟨hl, hg⟩ := filterMap_range_prefix f (i + 1) (fun j hj => h j (Nat.le_of_lt_succ hj))
  have e : n = (i + 1) + (n - (i + 1)) := by omega
  rw [e, List.range_add, List.filterMap_append,
    List.getElem?_append_left (by rw [hl]; exact Nat.lt_succ_self i)]
  exact hg i (Nat.lt_succ_self i)

theorem parseRecord_id (host : Host) (i : Nat) (p : List Nat) (q : es_descriptor_t)
    (h : parseRecord host i p = some q) : q.i_id = i + 1 ∧ q.i_stream_id = i + 1 := by
  have hr := parseRecord_registration host i p
  rw [h] at hr
  unfold registration at hr
  simp only [Option.map_some'] at hr
  split_ifs at hr
  · simp only [Option.some.injEq, Prod.mk.injEq] at hr
    exact ⟨hr.1, hr.2.1⟩
  · simp only [Option.some.injEq, Prod.mk.injEq] at hr
    exact ⟨hr.1, hr.2.1⟩

theorem DemuxOpen_count_lt (host : Host) (p_input r : input_thread_t)
    (h : DemuxOpen host p_input = some r) : GetDWBE (p_input.stream.drop 4) < 16777216 := by
  obtain ⟨h8, h5, _⟩ := (DemuxOpen_some_iff host p_input r).1 h
  obtain ⟨a, b, c, d, e, f, g, k, t, hs⟩ := list_len8 _ h8
  rw [hs] at h5 ⊢
  simp only [List.take_succ_cons, List.take_zero, List.cons.injEq, and_true] at h5
  obtain ⟨_, _, _, _, he⟩ := h5
  subst he
  simp only [List.drop_succ_cons, List.drop_zero, GetDWBE]
  omega

/-- The table entry `pp_es[i]` after `DemuxOpen`, when the records up to `i`
all have a known kind tag: it is the stream built from record `i`, and the
only one with id `i + 1`. -/
theorem DemuxOpen_table (host : Host) (p_input r : input_thread_t) (i : Nat)
    (h : DemuxOpen host p_input = some r) (hi : i < GetDWBE (p_input.stream.drop 4))
    (hknown : ∀ j, j ≤ i →
      kindTag p_input.stream j = cstr "vids" ∨ kindTag p_input.stream j = cstr "auds") :
    ∃ p_es, r.pp_es[i]? = some p_es ∧
      parseRecord host i
        (((p_input.stream.take (8 + 20 * GetDWBE (p_input.stream.drop 4))).drop 8).drop
          (20 * i)) = some p_es ∧
      p_es.i_id = i + 1 ∧ p_es.i_stream_id = i + 1 ∧
      ∀ q, q ∈ r.pp_es → q.i_id = i + 1 → q = p_es := by
  obtain ⟨_, _, _, _, _, _, hr⟩ := (DemuxOpen_some_iff host p_input r).1 h
  have hpp : r.pp_es = (List.range (GetDWBE (p_input.stream.drop 4))).filterMap
      (fun j => parseRecord host j
        (((p_input.stream.take (8 + 20 * GetDWBE (p_input.stream.drop 4))).drop 8).drop
          (20 * j))) := by
    rw [hr]
    simp only
    rw [parseRecords_eq_filterMap, List.nil_append]
    simp only [Nat.zero_add]
  have hsome : ∀ j, j ≤ i → (parseRecord host j
      (((p_input.stream.take (8 + 20 * GetDWBE (p_input.stream.drop 4))).drop 8).drop
        (20 * j))).isSome = true := by
    intro j hj
    have hreg := parseRecord_registration host j
      (((p_input.stream.take (8 + 20 * GetDWBE (p_input.stream.drop 4))).drop 8).drop (20 * j))
    rw [window_tag _ _ _ (Nat.lt_of_le_of_lt hj hi)] at hreg
    have hk : (registration j (kindTag p_input.stream j)).isSome = true := by
      unfold registration
      rcases hknown j hj with hv | ha
      · rw [hv, if_neg (by decide), if_pos rfl]; rfl
      · rw [ha, if_pos rfl]; rfl
    rw [← hreg] at hk
    simpa using hk
  obtain ⟨p_es, hp⟩ := Option.isSome_iff_exists.1 (hsome i (Nat.le_refl i))
  have hget := filterMap_range_getElem? (fun j => parseRecord host j
      (((p_input.stream.take (8 + 20 * GetDWBE (p_input.stream.drop 4))).drop 8).drop
        (20 * j))) _ i hi hsome
  obtain ⟨hid, hsid⟩ := parseRecord_id host i _ p_es hp
  refine ⟨p_es, by rw [hpp, hget]; exact hp, hp, hid, hsid, ?_⟩
  intro q hq hqid
  rw [hpp, List.mem_filterMap] at hq
  obtain ⟨j, _, hj⟩ := hq
  have hjid := (parseRecord_id host j _ q hj).1
  have hji : j = i := by omega
  subst hji
  rw [hp] at hj
  exact (Option.some.inj hj).symm

/-- C14 as stated fails in three ways.  After `DemuxOpen` has accepted a
header that declares two tracks, the first with kind tag `"xxxx"`, a frame
unit with track index 0 is handed to the stream with id 2 (built from
record 1), not to one with id 1.  With the header of the concrete scenario,
a frame unit for track 0 is handed to no stream when `input_SelectES` started
no decoder, and to none when `input_NewPES` returns NULL. -/
theorem C14_counterexample :
    (0 < GetDWBE (shiftedHeader.drop 4) ∧ GetDWBE (frameUnit 0 sampleA) = 0) ∧
    (DemuxOpen okHost ⟨shiftedHeader ++ frameUnit 0 sampleA, [], []⟩).map
      (fun r => (Demux okHost r).target) = some (some (some (2, sampleA.data))) ∧
    (DemuxOpen noDecoderHost ⟨scenarioSys.p_header ++ frameUnit 0 sampleA, [], []⟩).map
      (fun r => (Demux noDecoderHost r).target) = some (some none) ∧
    (DemuxOpen noPacketHost ⟨scenarioSys.p_header ++ frameUnit 0 sampleA, [], []⟩).map
      (fun r => (Demux noPacketHost r).target) = some (some none) := by
  decide!

/-- C14 (amended). Let `DemuxOpen` accept a header in which the records up to
`i` all have the kind tag `"vids"` or `"auds"`, with `i` below the declared
track count, and let the input then start with a frame unit for track `i`
(payload shorter than 2^31 - 16 bytes) while the host can allocate a packet.
Then table entry `i` is the stream built from header record `i`, it is the
only registered stream with id `i + 1`, and `Demux` returns 1, consumes the
unit, and hands the packet with the unit's payload to that stream when a
decoder was started for it (and to no stream otherwise). -/
theorem C14_packet_routing (host : Host) (p_input r : input_thread_t) (i : Nat)
    (hdr payload tail : List Nat)
    (hopen : DemuxOpen host p_input = some r) (hi : i < GetDWBE (p_input.stream.drop 4))
    (hknown : ∀ j, j ≤ i →
      kindTag p_input.stream j = cstr "vids" ∨ kindTag p_input.stream j = cstr "auds")
    (hs : r.stream = hdr ++ payload ++ tail) (hh : hdr.length = 16) (htr : GetDWBE hdr = i)
    (hsz : GetDWBE (hdr.drop 4) = payload.length) (hlim : payload.length + 16 < 2147483648)
    (hpes : host.newPES = true) :
    ∃ p_es, r.pp_es[i]? = some p_es ∧
      parseRecord host i
        (((p_input.stream.take (8 + 20 * GetDWBE (p_input.stream.drop 4))).drop 8).drop
          (20 * i)) = some p_es ∧
      p_es.i_id = i + 1 ∧ p_es.i_stream_id = i + 1 ∧
      (∀ q, q ∈ r.pp_es → q.i_id = i + 1 → q = p_es) ∧
      (Demux host r).code = some 1 ∧
      (Demux host r).input.map (fun p => p.stream) = some tail ∧
      (Demux host r).target = some (if p_es.p_decoder_fifo then some (i + 1, payload) else none) ∧
      (p_es.p_decoder_fifo = true →
        ∃ p_input1 p_pes, Demux host r = .returned 1 p_input1 (some (p_es, p_pes))) := by
  obtain ⟨p_es, hget, hrec, hid, hsid, huniq⟩ := DemuxOpen_table host p_input r i hopen hi hknown
  have hlt := DemuxOpen_count_lt host p_input r hopen
  obtain ⟨first, more, hflat, hD⟩ := Demux_frame host r hdr payload tail p_es hs hh hsz hlim
    (by rw [htr]; omega) (by rw [htr]; exact hget) hpes
  refine ⟨p_es, hget, hrec, hid, hsid, huniq, ?_⟩
  rw [hD]
  cases hf : p_es.p_decoder_fifo
  · simp [DemuxOutcome.code, DemuxOutcome.input, DemuxOutcome.target]
  · simp [DemuxOutcome.code, DemuxOutcome.input, DemuxOutcome.target, hflat, hid]

theorem C14_packet_routing_witness :
    DemuxOpen okHost ⟨scenarioSys.p_header ++ frameUnit 1 sampleB ++ [7], [], []⟩ =
      some ⟨frameUnit 1 sampleB ++ [7], scenarioES, []⟩ ∧
    ∃ p_es, scenarioES[1]? = some p_es ∧ p_es.i_id = 2 ∧
      (Demux okHost ⟨frameUnit 1 sampleB ++ [7], scenarioES, []⟩).target =
        some (if p_es.p_decoder_fifo then some (2, sampleB.data) else none) := by
  have hd : DemuxOpen okHost ⟨scenarioSys.p_header ++ frameUnit 1 sampleB ++ [7], [], []⟩ =
      some ⟨frameUnit 1 sampleB ++ [7], scenarioES, []⟩ := by decide!
  obtain ⟨p_es, h1, _, h3, _, _, _, _, h8, _⟩ :=
    C14_packet_routing okHost ⟨scenarioSys.p_header ++ frameUnit 1 sampleB ++ [7], [], []⟩
      ⟨frameUnit 1 sampleB ++ [7], scenarioES, []⟩ 1
      (pseudoHeader 1 sampleB.data.length (samplePts sampleB)) sampleB.data [7] hd
      (by decide) (by decide) rfl (by decide) (by decide) (by decide) (by decide) rfl
  exact ⟨hd, p_es, h1, h3, h8⟩

/-! ## Frame units for a track outside the stream table -/

theorem GetDWBE_take (p : List Nat) (n : Nat) (h : 4 ≤ n) (hl : 4 ≤ p.length) :
    GetDWBE (p.take n) = GetDWBE p := by
  match p, hl with
  | a :: b :: c :: d :: t, _ =>
    obtain ⟨m, rfl⟩ : ∃ m, n = m + 4 := ⟨n - 4, by omega⟩
    simp only [List.take_succ_cons, GetDWBE]

/-- C15. `Demux` reads `pp_es[i_stream]` with the track index taken from the
frame unit and no check against the number of entries: when the input offers
16 bytes and the track index is not below the number of registered streams,
the read is outside the table (below it when the index is negative as
`int`), and the call has no defined result. -/
theorem C15_unknown_track (host : Host) (p_input : input_thread_t)
    (h16 : 16 ≤ p_input.stream.length)
    (hidx : p_input.pp_es.length ≤ GetDWBE p_input.stream) :
    Demux host p_input = .undefined := by
  have hpeek : (input_Peek p_input 16).length = 16 := by
    unfold input_Peek
    rw [List.length_take]
    omega
  have hg : GetDWBE (input_Peek p_input 16) = GetDWBE p_input.stream := by
    unfold input_Peek
    exact GetDWBE_take _ _ (by omega) (by omega)
  unfold Demux
  simp only [hpeek, hg, lt_self_iff_false, if_false]
  by_cases hneg : toInt32 (GetDWBE p_input.stream) < 0
  · rw [if_pos hneg]
  · rw [if_neg hneg]
    have hsmall : GetDWBE p_input.stream < 2147483648 := by
      by_contra hc
      apply hneg
      unfold toInt32
      have := GetDWBE_lt p_input.stream
      rw [Nat.mod_eq_of_lt this, if_neg (by omega)]
      omega
    rw [toInt32_small _ hsmall, Int.toNat_ofNat, List.getElem?_eq_none hidx]

theorem C15_unknown_track_witness :
    16 ≤ (frameUnit 5 sampleA ++ frameUnit 1 sampleB).length ∧
    GetDWBE (frameUnit 5 sampleA ++ frameUnit 1 sampleB) = 5 ∧ scenarioES.length = 2 ∧
    Demux okHost ⟨frameUnit 5 sampleA ++ frameUnit 1 sampleB, scenarioES, []⟩ = .undefined :=
  ⟨by decide, by decide, rfl,
    C15_unknown_track okHost ⟨frameUnit 5 sampleA ++ frameUnit 1 sampleB, scenarioES, []⟩
      (by decide) (by decide)⟩

/-! ## Short reads -/

/-- The `while( i_size > 0 )` loop of `Demux` when the input holds fewer than
the `n` bytes asked for: it takes all of them and then leaves through the
`return( 0 )` on an empty `input_SplitBuffer`. -/
theorem pullPES_short : ∀ (fuel n : Nat) (p_input : input_thread_t) (acc : List (List Nat))
    (sz : Int), n ≤ fuel → p_input.stream.length < n →
    ∃ acc1 sz1, pullPES fuel (n : Int) p_input acc sz =
      (false, acc1, sz1, { p_input with stream := [] }) := by
  intro fuel
  induction fuel with
  | zero =>
    intro n p_input acc sz hn hlen
    omega
  | succ fuel ih =>
    intro n p_input acc sz hn hlen
    have hpos : (0 : Int) < (n : Int) := by omega
    have hm : (min (n : Int) 10000).toNat = min n 10000 := by omega
    rw [pullPES, if_pos hpos]
    simp only [input_SplitBuffer, hm]
    by_cases h0 : p_input.stream.length = 0
    · have hnil : p_input.stream = [] := List.length_eq_zero.1 h0
      refine ⟨acc, sz, ?_⟩
      simp [hnil]
    · have htl : (p_input.stream.take (min n 10000)).length =
          min (min n 10000) p_input.stream.length := List.length_take _ _
      rw [if_neg (by rw [htl]; omega)]
      have hsub : (n : Int) - ((p_input.stream.take (min n 10000)).length : Int) =
          ((n - min (min n 10000) p_input.stream.length : Nat) : Int) := by
        rw [htl]; omega
      rw [hsub]
      obtain ⟨acc1, sz1, hr⟩ := ih (n - min (min n 10000) p_input.stream.length)
        { p_input with stream := p_input.stream.drop (min n 10000) }
        (acc ++ [p_input.stream.take (min n 10000)])
        (if acc = [] then ((p_input.stream.take (min n 10000)).length : Int)
          else sz + ((p_input.stream.take (min n 10000)).length : Int))
        (by omega) (by simp only [List.length_drop]; omega)
      exact ⟨acc1, sz1, hr⟩

/-- `Demux` when the pull of the declared bytes comes up short. -/
theorem Demux_short_pull (host : Host) (p_input : input_thread_t) (p_es : es_descriptor_t)
    (h16 : 16 ≤ p_input.stream.length)
    (hshort : p_input.stream.length < 16 + GetDWBE (p_input.stream.drop 4))
    (hlim : GetDWBE (p_input.stream.drop 4) + 16 < 2147483648)
    (htr : GetDWBE p_input.stream < 2147483648)
    (hes : p_input.pp_es[GetDWBE p_input.stream]? = some p_es)
    (hpes : host.newPES = true) :
    Demux host p_input = .returned 0 { p_input with stream := [] } none := by
  have hpeek : (input_Peek p_input 16).length = 16 := by
    unfold input_Peek
    rw [List.length_take]
    omega
  have hg : GetDWBE (input_Peek p_input 16) = GetDWBE p_input.stream := by
    unfold input_Peek
    exact GetDWBE_take _ _ (by omega) (by omega)
  have hg4 : GetDWBE ((input_Peek p_input 16).drop 4) = GetDWBE (p_input.stream.drop 4) := by
    unfold input_Peek
    rw [List.drop_take]
    exact GetDWBE_take _ _ (by omega) (by rw [List.length_drop]; omega)
  obtain ⟨acc1, sz1, hp⟩ := pullPES_short (GetDWBE (p_input.stream.drop 4) + 16)
    (GetDWBE (p_input.stream.drop 4) + 16) p_input [] 0 (le_refl _) (by omega)
  unfold Demux
  simp only [hpeek, hg, hg4, lt_self_iff_false, if_false]
  rw [toInt32_small _ htr, toInt32_small _ (by omega)]
  rw [if_neg (by omega), Int.toNat_ofNat, hes]
  simp only [hpes, Bool.not_true, Bool.false_eq_true, if_false]
  rw [wrap32_small _ (by omega) (by omega)]
  have e1 : ((GetDWBE (p_input.stream.drop 4) : Int) + 16).toNat =
      GetDWBE (p_input.stream.drop 4) + 16 := by omega
  have e2 : ((GetDWBE (p_input.stream.drop 4) : Int) + 16) =
      ((GetDWBE (p_input.stream.drop 4) + 16 : Nat) : Int) := by
    push_cast; rfl
  rw [e1, e2, hp]

/-- C16. Short read: when the input offers at least 16 bytes but fewer than
the `16 + s` bytes the micro-header declares (`s + 16` in the range of `int`),
the track index is inside the stream table and the host hands out a packet,
`Demux` takes what is left of the input, hands no packet to any decoder and
returns 0. -/
theorem C16_short_read (host : Host) (p_input : input_thread_t) (p_es : es_descriptor_t)
    (h16 : 16 ≤ p_input.stream.length)
    (hshort : p_input.stream.length < 16 + GetDWBE (p_input.stream.drop 4))
    (hlim : GetDWBE (p_input.stream.drop 4) + 16 < 2147483648)
    (htr : GetDWBE p_input.stream < 2147483648)
    (hes : p_input.pp_es[GetDWBE p_input.stream]? = some p_es)
    (hpes : host.newPES = true) :
    Demux host p_input = .returned 0 { p_input with stream := [] } none :=
  Demux_short_pull host p_input p_es h16 hshort hlim htr hes hpes

theorem C16_short_read_witness :
    Demux okHost ⟨(frameUnit 1 sampleA).take 19, scenarioES, []⟩ =
      .returned 0 ⟨[], scenarioES, []⟩ none :=
  C16_short_read okHost ⟨(frameUnit 1 sampleA).take 19, scenarioES, []⟩ arawES
    (by decide) (by decide) (by decide) (by decide) (by decide) rfl

/-- C17 as stated fails: on an input of three bytes `Demux` returns 0, and on
an input whose payload pull comes up short it returns 0 as well; the two
results are not distinct. -/
theorem C17_counterexample :
    (Demux okHost ⟨[0, 0, 0], scenarioES, []⟩).code = some 0 ∧
    (Demux okHost ⟨(frameUnit 1 sampleA).take 19, scenarioES, []⟩).code = some 0 := by
  decide

/-- C17 (amended). On an input on which fewer than 16 bytes can be peeked,
`Demux` consumes no input, forwards no packet and returns 0; this differs
from the continue signal 1, and it is the same value `Demux` returns when a
payload pull comes up short. -/
theorem C17_no_data (host : Host) (p_input : input_thread_t)
    (h : p_input.stream.length < 16) :
    Demux host p_input = .returned 0 p_input none ∧
    (Demux host p_input).code ≠ some 1 ∧
    ∀ (q : input_thread_t) (p_es : es_descriptor_t), 16 ≤ q.stream.length →
      q.stream.length < 16 + GetDWBE (q.stream.drop 4) →
      GetDWBE (q.stream.drop 4) + 16 < 2147483648 → GetDWBE q.stream < 2147483648 →
      q.pp_es[GetDWBE q.stream]? = some p_es → host.newPES = true →
      (Demux host q).code = (Demux host p_input).code := by
  have hD : Demux host p_input = .returned 0 p_input none := by
    unfold Demux input_Peek
    rw [if_pos (by rw [List.length_take]; omega)]
  refine ⟨hD, by rw [hD]; simp [DemuxOutcome.code], ?_⟩
  intro q p_es h16 hshort hlim htr hes hpes
  rw [hD, Demux_short_pull host q p_es h16 hshort hlim htr hes hpes]
  rfl

theorem C17_no_data_witness :
    Demux okHost ⟨[0, 0, 0], scenarioES, []⟩ = .returned 0 ⟨[0, 0, 0], scenarioES, []⟩ none ∧
    (Demux okHost ⟨[0, 0, 0], scenarioES, []⟩).code ≠ some 1 :=
  ⟨(C17_no_data okHost ⟨[0, 0, 0], scenarioES, []⟩ (by decide)).1,
    (C17_no_data okHost ⟨[0, 0, 0], scenarioES, []⟩ (by decide)).2.1⟩

/-! ## Timestamps and the reference clock -/

theorem toInt64_small (n : Nat) (h : n < 9223372036854775808) : toInt64 n = n := by
  unfold toInt64
  have : n % 18446744073709551616 = n := Nat.mod_eq_of_lt (by omega)
  rw [this, if_pos h]

/-- C18 as stated fails: a frame unit whose raw clock value is 2^64 - 1 (not
zero) is forwarded with both timestamps 0, although the host clock of the
scenario converts the value, -1 as `mtime_t`, to -1. -/
theorem C18_counterexample :
    GetQWBE ((rawUnit 0 18446744073709551615 [1]).drop 8) = 18446744073709551615 ∧
    (Demux okHost ⟨rawUnit 0 18446744073709551615 [1], scenarioES, []⟩).stamps =
      some (some (0, 0)) ∧
    okHost.clockGetTS [toInt64 18446744073709551615] (toInt64 18446744073709551615) = -1 := by
  decide

/-- C18 (amended). For every packet `Demux` forwards (a well-formed frame
unit for a registered stream with a decoder), the decode timestamp equals the
presentation timestamp; both are 0 when the raw clock value, read as a signed
64-bit number, is zero or negative, and both are the host clock's conversion
of the raw clock value when it is positive.  In particular they are 0 for
raw clock 0 and the conversion for a raw clock between 1 and 2^63 - 1.  The
packet is forwarded in either case and the input is left at the next unit. -/
theorem C18_timestamp_resolution (host : Host) (p_input : input_thread_t)
    (hdr payload tail : List Nat) (p_es : es_descriptor_t)
    (hs : p_input.stream = hdr ++ payload ++ tail) (hh : hdr.length = 16)
    (hsz : GetDWBE (hdr.drop 4) = payload.length) (hlim : payload.length + 16 < 2147483648)
    (htr : GetDWBE hdr < 2147483648) (hes : p_input.pp_es[GetDWBE hdr]? = some p_es)
    (hdec : p_es.p_decoder_fifo = true) (hpes : host.newPES = true) :
    ∃ p_input1 p_pes, Demux host p_input = .returned 1 p_input1 (some (p_es, p_pes)) ∧
      p_input1.stream = tail ∧ p_pes.i_dts = p_pes.i_pts ∧
      (toInt64 (GetQWBE (hdr.drop 8)) ≤ 0 → p_pes.i_pts = 0) ∧
      (0 < toInt64 (GetQWBE (hdr.drop 8)) →
        p_pes.i_pts = host.clockGetTS (p_input.clockRefs ++ [toInt64 (GetQWBE (hdr.drop 8))])
          (toInt64 (GetQWBE (hdr.drop 8)))) ∧
      (GetQWBE (hdr.drop 8) = 0 → p_pes.i_pts = 0) ∧
      (0 < GetQWBE (hdr.drop 8) → GetQWBE (hdr.drop 8) < 9223372036854775808 →
        p_pes.i_pts = host.clockGetTS (p_input.clockRefs ++ [(GetQWBE (hdr.drop 8) : Int)])
          (GetQWBE (hdr.drop 8) : Int)) := by
  obtain ⟨first, more, _, hd⟩ := Demux_frame host p_input hdr payload tail p_es hs hh hsz hlim
    htr hes hpes
  rw [hdec, if_pos rfl] at hd
  refine ⟨_, _, hd, rfl, rfl, ?_, ?_, ?_, ?_⟩
  · intro h
    simp only [if_pos h]
  · intro h
    simp only [if_neg (not_le.2 h)]
  · intro h
    simp only [h]
    rfl
  · intro h0 h1
    have e := toInt64_small _ h1
    simp only [e]
    rw [if_neg (by omega)]

theorem C18_timestamp_resolution_witness :
    (DemuxRun okHost 3
      ⟨rawUnit 0 0 [1] ++ (rawUnit 0 1000 [2] ++ rawUnit 0 2000 [3]), scenarioES, []⟩).1.map
      (fun d => (d.2.i_pts, d.2.i_dts)) = [(0, 0), (1000, 1000), (2000, 2000)] ∧
    ∃ p_input1 p_pes,
      Demux okHost ⟨rawUnit 0 0 [1] ++ (rawUnit 0 1000 [2] ++ rawUnit 0 2000 [3]), scenarioES, []⟩ =
        .returned 1 p_input1 (some (rv24ES, p_pes)) ∧
      p_input1.stream = rawUnit 0 1000 [2] ++ rawUnit 0 2000 [3] ∧ p_pes.i_dts = p_pes.i_pts ∧
      p_pes.i_pts = 0 := by
  refine ⟨by decide!, ?_⟩
  obtain ⟨p_input1, p_pes, h1, h2, h3, _, _, h6, _⟩ :=
    C18_timestamp_resolution okHost
      ⟨rawUnit 0 0 [1] ++ (rawUnit 0 1000 [2] ++ rawUnit 0 2000 [3]), scenarioES, []⟩
      ((rawUnit 0 0 [1]).take 16) [1] (rawUnit 0 1000 [2] ++ rawUnit 0 2000 [3]) rv24ES
      (by decide) (by decide) (by decide) (by decide) (by decide) (by decide) (by decide) rfl
  exact ⟨p_input1, p_pes, h1, h2, h3, h6 (by decide)⟩

/-- C19 as stated fails: for frame units with the raw clock values 2000, 0
and 1000 on one track, `Demux` calls `input_ClockManageRef` with 2000, then
0, then 1000. -/
theorem C19_counterexample :
    (DemuxRun okHost 3
      ⟨rawUnit 0 2000 [1] ++ (rawUnit 0 0 [2] ++ rawUnit 0 1000 [3]), scenarioES, []⟩).2.clockRefs =
      [2000, 0, 1000] := by
  decide!

/-- C19 (amended). For every frame unit `Demux` forwards to a decoder it calls
`input_ClockManageRef` once, with the unit's raw clock value (read as a signed
64-bit number) unchanged, after the values of the earlier calls; for a unit
it does not forward it makes no such call.  So the values passed stay
non-decreasing exactly as long as each forwarded unit's raw clock value is
not below the values passed before. -/
theorem C19_reference_clock (host : Host) (p_input : input_thread_t)
    (hdr payload tail : List Nat) (p_es : es_descriptor_t)
    (hs : p_input.stream = hdr ++ payload ++ tail) (hh : hdr.length = 16)
    (hsz : GetDWBE (hdr.drop 4) = payload.length) (hlim : payload.length + 16 < 2147483648)
    (htr : GetDWBE hdr < 2147483648) (hes : p_input.pp_es[GetDWBE hdr]? = some p_es)
    (hpes : host.newPES = true) :
    ∃ p_input1, (Demux host p_input).input = some p_input1 ∧
      (p_es.p_decoder_fifo = true →
        p_input1.clockRefs = p_input.clockRefs ++ [toInt64 (GetQWBE (hdr.drop 8))] ∧
        (p_input.clockRefs.Pairwise (fun a b => a ≤ b) →
          (p_input1.clockRefs.Pairwise (fun a b => a ≤ b) ↔
            ∀ a, a ∈ p_input.clockRefs → a ≤ toInt64 (GetQWBE (hdr.drop 8))))) ∧
      (p_es.p_decoder_fifo = false → p_input1.clockRefs = p_input.clockRefs) := by
  obtain ⟨first, more, _, hd⟩ := Demux_frame host p_input hdr payload tail p_es hs hh hsz hlim
    htr hes hpes
  cases hf : p_es.p_decoder_fifo
  · rw [hf] at hd
    simp only [Bool.false_eq_true, if_false] at hd
    rw [hd]
    exact ⟨_, rfl, fun h => absurd h (by simp), fun _ => rfl⟩
  · rw [hf, if_pos rfl] at hd
    rw [hd]
    refine ⟨_, rfl, fun _ => ⟨rfl, ?_⟩, fun h => absurd h (by simp)⟩
    intro hp
    simp only [List.pairwise_append, hp, List.pairwise_cons, List.not_mem_nil, false_implies,
      implies_true, List.Pairwise.nil, and_self, List.mem_singleton, forall_eq, true_and]

theorem C19_reference_clock_witness :
    ∃ p_input1,
      (Demux okHost ⟨rawUnit 0 2000 [1] ++ rawUnit 0 1000 [3], scenarioES, [500, 1500]⟩).input =
        some p_input1 ∧
      p_input1.clockRefs = [500, 1500] ++ [toInt64 (GetQWBE (((rawUnit 0 2000 [1]).take 16).drop 8))] := by
  obtain ⟨p_input1, h1, h2, _⟩ :=
    C19_reference_clock okHost ⟨rawUnit 0 2000 [1] ++ rawUnit 0 1000 [3], scenarioES, [500, 1500]⟩
      ((rawUnit 0 2000 [1]).take 16) [1] (rawUnit 0 1000 [3]) rv24ES
      (by decide) (by decide) (by decide) (by decide) (by decide) (by decide) rfl
  exact ⟨p_input1, h1, (h2 (by decide)).1⟩

/-! ## The result of `Read` -/

theorem toInt32_large (n : Nat) (h1 : 2147483648 ≤ n) (h2 : n < 4294967296) : toInt32 n < 0 := by
  unfold toInt32
  rw [Nat.mod_eq_of_lt h2, if_neg (by omega)]
  omega

theorem copyHeader_large (r : ReadState) (h1 : 2147483648 ≤ r.i_len)
    (h2 : r.i_len < 4294967296) : copyHeader r = none ∨ copyHeader r = some r := by
  have hneg := toInt32_large _ h1 h2
  unfold copyHeader
  by_cases hc : 0 < r.i_len ∧ r.p_sys.i_header_pos < r.p_sys.i_header_size
  · left
    rw [if_pos hc]
    simp only
    rw [if_pos (by omega)]
  · right
    rw [if_neg hc]

theorem copyData_large (r : ReadState) (h1 : 2147483648 ≤ r.i_len)
    (h2 : r.i_len < 4294967296) : copyData r = none ∨ copyData r = some r := by
  have hneg := toInt32_large _ h1 h2
  unfold copyData
  by_cases hc : 0 < r.i_len ∧ (curStream r.p_sys).i_data_pos < (curStream r.p_sys).i_data_size
  · left
    simp only
    rw [if_pos hc, if_pos (by omega)]
  · right
    simp only
    rw [if_neg hc]

theorem ReadDrain_large (r : ReadState) (h1 : 2147483648 ≤ r.i_len)
    (h2 : r.i_len < 4294967296) (h3 : r.i_data = 0) :
    ReadDrain r = .undefined ∨ ReadDrain r = .next r := by
  unfold ReadDrain
  rcases copyHeader_large r h1 h2 with e | e
  · left; rw [e]
  · rw [e]
    simp only
    rcases copyData_large r h1 h2 with e2 | e2
    · left; rw [e2]
    · right
      rw [e2]
      simp only
      rw [if_neg (by omega), if_neg (by rw [h3]; simp)]

/-- With a requested length from 2^31 up to 2^32 - 1, which is negative as
`int`, a `Read` call does not return: it either reaches a `memcpy` with a
negative length or keeps polling. -/
theorem ReadLoop_large (env : List (Option VLCMediaSample)) :
    ∀ r : ReadState, 2147483648 ≤ r.i_len → r.i_len < 4294967296 → r.i_data = 0 →
      ReadLoop env r = .undefined ∨ ∃ p_sys, ReadLoop env r = .polling p_sys := by
  induction env with
  | nil =>
    intro r h1 h2 h3
    rw [ReadLoop, if_neg (by omega)]
    rcases ReadDrain_large r h1 h2 h3 with e | e
    · left; rw [e]
    · right; rw [e]; exact ⟨_, rfl⟩
  | cons o env ih =>
    intro r h1 h2 h3
    rw [ReadLoop, if_neg (by omega)]
    rcases ReadDrain_large r h1 h2 h3 with e | e
    · left; rw [e]
    · rw [e]
      simp only
      apply ih
      · cases o <;> exact h1
      · cases o <;> exact h2
      · cases o <;> exact h3

/-- C20. The result of `Read`: from every session state that satisfies the
invariant of the reachable states, and for every requested length `len`
below 2^32, if `Read` returns `r` then `0 ≤ r ≤ len`, exactly `r` bytes were
written to the caller's buffer, and they are the next `r` bytes of the
stream: the bytes pending before together with the frame units of the samples
fetched during the call are the bytes written followed by the bytes still
pending afterwards. -/
theorem C20_read_result (p_sys p_sys1 : access_sys_t) (env rest : List (Option VLCMediaSample))
    (i_len : Nat) (i_data : Int) (p_buffer : List Nat)
    (h : ReadInv p_sys) (hl : i_len < 4294967296)
    (hr : Read p_sys env i_len = .returned i_data p_buffer p_sys1 rest) :
    0 ≤ i_data ∧ i_data ≤ i_len ∧ (p_buffer.length : Int) = i_data ∧
    ∃ used, env = used ++ rest ∧
      p_buffer ++ pending p_sys1 =
        pending p_sys ++ frameUnits p_sys.pp_streams.length p_sys.i_current_stream used ∧
      (((pending p_sys).length +
          (frameUnits p_sys.pp_streams.length p_sys.i_current_stream used).length : Nat) : Int) =
        i_data + (pending p_sys1).length := by
  by_cases hsmall : i_len < 2147483648
  · obtain ⟨used, u1, _, u3, u4, u5, _⟩ := (Read_spec p_sys env i_len h hsmall).2 _ _ _ _ hr
    have hlen := congrArg List.length u5
    simp only [List.length_append] at hlen
    refine ⟨by omega, by omega, u3.symm, used, u1, u5, ?_⟩
    omega
  · exfalso
    rcases ReadLoop_large env ⟨p_sys, [], i_len, 0⟩ (by simpa using hsmall) hl rfl with e | ⟨p, e⟩
    · unfold Read at hr
      rw [hr] at e
      cases e
    · unfold Read at hr
      rw [hr] at e
      cases e

theorem C20_read_result_witness :
    ∃ i_data p_buffer p_sys1 rest,
      Read scenarioSys [some sampleA, none] 60 = .returned i_data p_buffer p_sys1 rest ∧
      0 ≤ i_data ∧ i_data ≤ 60 ∧ (p_buffer.length : Int) = i_data := by
  cases hx : Read scenarioSys [some sampleA, none] 60 with
  | undefined => exact absurd hx (by decide!)
  | polling x =>
    have : (Read scenarioSys [some sampleA, none] 60).result ≠ none := by decide!
    rw [hx] at this
    exact absurd rfl this
  | returned i_data p_buffer p_sys1 rest =>
    obtain ⟨h1, h2, h3, _⟩ :=
      C20_read_result scenarioSys p_sys1 _ rest 60 i_data p_buffer
        (ReadInv_AccessOpen AccessOpen_scenario) (by decide) hx
    exact ⟨i_data, p_buffer, p_sys1, rest, rfl, h1, h2, h3⟩

/-! ## The time stamp of a fetched sample -/

theorem pendingHeader_ReadFetch (r : ReadState) (s : VLCMediaSample) :
    pendingHeader (ReadFetch r (some s)).p_sys =
      pseudoHeader ((r.p_sys.i_current_stream + 1) % r.p_sys.pp_streams.length)
        s.data.length (samplePts s) := by
  show ((ReadFetch r (some s)).p_sys.p_header.take 16).drop 0 = _
  rw [List.drop_zero]
  exact memcpy_zero_take r.p_sys.p_header
    (pseudoHeader ((r.p_sys.i_current_stream + 1) % r.p_sys.pp_streams.length)
      s.data.length (samplePts s))

theorem pseudoHeader_clock (c n : Nat) (t : Int) :
    (pseudoHeader c n t).drop 8 = SetQWBE (toUInt64 (clock90k t)) := by
  unfold pseudoHeader
  have e : (SetDWBE (toUInt32 (c : Int)) ++ SetDWBE (toUInt32 (n : Int))).length = 8 := rfl
  rw [← e, List.drop_left]

/-- C21. Timestamp choice: for every sample `Read` fetches, the clock field of
the micro-header is `t * 9 / 1000` for the chosen time `t`, and `t` is the
start time `GetTime` reports when the call succeeds (`S_OK`, or
`VFW_S_NO_STOP_TIME` when there is no stop time) with a start time other than
0, and the sample's own `i_timestamp` when `GetTime` fails or reports the
start time 0. -/
theorem C21_timestamp_choice (r : ReadState) (s : VLCMediaSample) :
    (pendingHeader (ReadFetch r (some s)).p_sys).drop 8 =
      SetQWBE (toUInt64 (clock90k (samplePts s))) ∧
    toInt64 (GetQWBE ((pendingHeader (ReadFetch r (some s)).p_sys).drop 8)) =
      Int.tdiv (wrap64 (samplePts s * 9)) 1000 ∧
    ((s.hr = .S_OK ∨ s.hr = .VFW_S_NO_STOP_TIME) → s.i_pts ≠ 0 → samplePts s = s.i_pts) ∧
    (s.hr = .failed → samplePts s = s.i_timestamp) ∧
    (s.i_pts = 0 → samplePts s = s.i_timestamp) := by
  have hclk := pseudoHeader_clock ((r.p_sys.i_current_stream + 1) % r.p_sys.pp_streams.length)
    s.data.length (samplePts s)
  rw [← pendingHeader_ReadFetch] at hclk
  refine ⟨hclk, ?_, ?_, ?_, ?_⟩
  · rw [hclk]
    have := clock_round_trip (samplePts s) []
    rw [List.append_nil] at this
    exact this
  · intro h1 h2
    unfold samplePts
    rcases h1 with h1 | h1 <;> simp [h1, h2]
  · intro h1
    unfold samplePts
    simp [h1]
  · intro h1
    unfold samplePts
    simp [h1]

/-- C21 at the samples of the scenario: `sampleA` (`GetTime` gives `S_OK` and
10000) is stamped from 10000, `sampleB` (`GetTime` fails) from its own time
stamp 20000. -/
theorem C21_timestamp_choice_witness :
    samplePts sampleA = sampleA.i_pts ∧ samplePts sampleB = sampleB.i_timestamp ∧
    toInt64 (GetQWBE ((pendingHeader (ReadFetch scenarioLoop (some sampleB)).p_sys).drop 8)) =
      Int.tdiv (wrap64 (samplePts sampleB * 9)) 1000 :=
  ⟨(C21_timestamp_choice scenarioLoop sampleA).2.2.1 (Or.inl rfl) (by decide),
    (C21_timestamp_choice scenarioLoop sampleB).2.2.2.1 rfl,
    (C21_timestamp_choice scenarioLoop sampleB).2.1⟩

/-! ## The device-selection string -/

theorem segments_eq (p : List Nat) :
    segments p = p.takeWhile (fun c => c != 58) ::
      (match p.dropWhile (fun c => c != 58) with
        | [] => []
        | _ :: rest => segments rest) := by
  induction p with
  | nil => rfl
  | cons c t ih =>
    by_cases hc : c = 58
    · subst hc
      simp [segments]
    · rw [segments, if_neg hc, ih]
      simp [List.takeWhile_cons, List.dropWhile_cons, hc]

theorem cstring_of_nonzero (p : List Nat) (hz : ∀ b, b ∈ p → b ≠ 0) : cstring p = p := by
  unfold cstring
  rw [List.takeWhile_eq_self_iff]
  intro b hb
  simpa using hz b hb

theorem takeWhile_take5 (p lit : List Nat) (hl : lit.length = 5) (hc : ∀ b, b ∈ lit → b ≠ 58) :
    p.take 5 = lit ↔ (p.takeWhile (fun c => c != 58)).take 5 = lit := by
  constructor
  · intro h
    have hp : p = lit ++ p.drop 5 := by
      conv_lhs => rw [← List.take_append_drop 5 p, h]
    have htw : (lit ++ p.drop 5).takeWhile (fun c => c != 58) =
        lit ++ (p.drop 5).takeWhile (fun c => c != 58) := by
      rw [List.takeWhile_append_of_pos]
      intro b hb
      simpa using hc b hb
    rw [hp, htw, ← hl, List.take_left]
  · intro h
    have hlen : 5 ≤ (p.takeWhile (fun c => c != 58)).length := by
      have := congrArg List.length h
      rw [List.length_take, hl] at this
      omega
    conv_lhs => rw [← List.takeWhile_append_dropWhile (fun c => c != 58) p]
    rw [List.take_append_of_le_length hlen]
    exact h

theorem take_takeWhile_length (f : Nat → Bool) (q : List Nat) :
    q.take (q.takeWhile f).length = q.takeWhile f ∧
    q.drop (q.takeWhile f).length = q.dropWhile f ∧
    (q.dropWhile f).dropWhile f = q.dropWhile f := by
  induction q with
  | nil => exact ⟨rfl, rfl, rfl⟩
  | cons c t ih =>
    cases hc : f c
    · simp [List.takeWhile_cons, List.dropWhile_cons, hc]
    · simp [List.takeWhile_cons, List.dropWhile_cons, hc, ih.1, ih.2.1, ih.2.2]

theorem option_value (p lit : List Nat) (hl : lit.length = 5) (hc : ∀ b, b ∈ lit → b ≠ 58)
    (h : p.take 5 = lit) :
    (p.drop 5).take ((p.drop 5).takeWhile (fun c => c != 58)).length =
      (p.takeWhile (fun c => c != 58)).drop 5 ∧
    ((p.drop 5).drop ((p.drop 5).takeWhile (fun c => c != 58)).length).dropWhile
        (fun c => c != 58) = p.dropWhile (fun c => c != 58) := by
  have hp : p = lit ++ p.drop 5 := by
    conv_lhs => rw [← List.take_append_drop 5 p, h]
  have hpos : ∀ b, b ∈ lit → (fun c => c != 58) b = true := by
    intro b hb
    simpa using hc b hb
  have htw : p.takeWhile (fun c => c != 58) =
      lit ++ (p.drop 5).takeWhile (fun c => c != 58) := by
    conv_lhs => rw [hp]
    rw [List.takeWhile_append_of_pos hpos]
  have hdw : p.dropWhile (fun c => c != 58) = (p.drop 5).dropWhile (fun c => c != 58) := by
    conv_lhs => rw [hp]
    rw [List.dropWhile_append_of_pos hpos]
  obtain ⟨t1, t2, t3⟩ := take_takeWhile_length (fun c => c != 58) (p.drop 5)
  constructor
  · rw [t1, htw, List.drop_left' hl]
  · rw [t2, t3, hdw]

theorem strncmp5 (p : List Nat) (lit : String) (hz : ∀ b, b ∈ p → b ≠ 0)
    (hl : (cstr lit).take 5 = cstr lit) :
    strncmp p lit 5 = false ↔ p.take 5 = cstr lit := by
  unfold strncmp
  rw [cstring_of_nonzero p hz, hl]
  simp

theorem AccessOpen_option_eq (p : List Nat) (names : List Nat × List Nat)
    (hz : ∀ b, b ∈ p → b ≠ 0) :
    (AccessOpen_option p names).1 = applySegment names (p.takeWhile (fun c => c != 58)) ∧
    (AccessOpen_option p names).2.dropWhile (fun c => c != 58) =
      p.dropWhile (fun c => c != 58) := by
  have hv := strncmp5 p "vdev=" hz (by decide)
  have ha := strncmp5 p "adev=" hz (by decide)
  have tv := takeWhile_take5 p (cstr "vdev=") (by decide) (by decide)
  have ta := takeWhile_take5 p (cstr "adev=") (by decide) (by decide)
  unfold AccessOpen_option applySegment
  by_cases h1 : p.take 5 = cstr "vdev="
  · obtain ⟨o1, o2⟩ := option_value p (cstr "vdev=") (by decide) (by decide) h1
    rw [if_pos (by rw [hv.2 h1]; rfl), if_pos (tv.1 h1)]
    exact ⟨by simp only [o1], o2⟩
  · have n1 : strncmp p "vdev=" 5 = true := by
      cases hs : strncmp p "vdev=" 5
      · exact absurd (hv.1 hs) h1
      · rfl
    rw [if_neg (by rw [n1]; decide), if_neg (fun h => h1 (tv.2 h))]
    by_cases h2 : p.take 5 = cstr "adev="
    · obtain ⟨o1, o2⟩ := option_value p (cstr "adev=") (by decide) (by decide) h2
      rw [if_pos (by rw [ha.2 h2]; rfl), if_pos (ta.1 h2)]
      exact ⟨by simp only [o1], o2⟩
    · have n2 : strncmp p "adev=" 5 = true := by
        cases hs : strncmp p "adev=" 5
        · exact absurd (ha.1 hs) h2
        · rfl
      rw [if_neg (by rw [n2]; decide), if_neg (fun h => h2 (ta.2 h))]
      exact ⟨rfl, rfl⟩

theorem AccessOpen_options_eq : ∀ (fuel : Nat) (p : List Nat) (names : List Nat × List Nat),
    (∀ b, b ∈ p → b ≠ 0) → p.length + 1 ≤ fuel →
    AccessOpen_options fuel p names = (segments p).foldl applySegment names := by
  intro fuel
  induction fuel with
  | zero => intro p names _ h; omega
  | succ fuel ih =>
    intro p names hz hf
    obtain ⟨e1, e2⟩ := AccessOpen_option_eq p names hz
    rw [AccessOpen_options, segments_eq p, List.foldl_cons, e1, e2]
    have hsplit := List.takeWhile_append_dropWhile (fun c => c != 58) p
    cases hd : p.dropWhile (fun c => c != 58) with
    | nil => rfl
    | cons c rest =>
      simp only
      rw [hd] at hsplit
      have hlen := congrArg List.length hsplit
      simp only [List.length_append, List.length_cons] at hlen
      apply ih
      · intro b hb
        apply hz
        rw [← hsplit]
        exact List.mem_append_right _ (List.mem_cons_of_mem _ hb)
      · omega

/-- C22. Selection-string parsing: for every device-selection string (a C
string, so without a NUL among its characters) the names `AccessOpen` hands
to the two `OpenDevice` calls are those of the description: both empty when
the string has no `':'`, and otherwise the result of going through the
`':'`-separated segments after the first `':'` from left to right, where a
segment starting with `"vdev="` sets the video name to the rest of the segment,
one starting with `"adev="` sets the audio name to the rest of the segment,
and any other segment changes nothing.  The parser has no failure exit.  An
empty name makes `OpenDevice` use the first enumerated device, another name
is used as it is. -/
theorem C22_selection_parsing (psz_name : List Nat) (hz : ∀ b, b ∈ psz_name → b ≠ 0) :
    AccessOpen_names psz_name = selectionNames psz_name ∧
    (∀ names seg, seg.take 5 = cstr "vdev=" → applySegment names seg = (seg.drop 5, names.2)) ∧
    (∀ names seg, seg.take 5 = cstr "adev=" → applySegment names seg = (names.1, seg.drop 5)) ∧
    (∀ names seg, seg.take 5 ≠ cstr "vdev=" → seg.take 5 ≠ cstr "adev=" →
      applySegment names seg = names) ∧
    (∀ d ds, pickDevicename [] (d :: ds) = some d) ∧
    (∀ c cs l, pickDevicename (c :: cs) l = some (c :: cs)) := by
  refine ⟨?_, ?_, ?_, ?_, fun _ _ => rfl, fun _ _ _ => rfl⟩
  · unfold AccessOpen_names selectionNames
    have hsplit := List.takeWhile_append_dropWhile (fun c => c != 58) psz_name
    cases hd : psz_name.dropWhile (fun c => c != 58) with
    | nil => rfl
    | cons c rest =>
      simp only
      apply AccessOpen_options_eq _ _ _ _ (le_refl _)
      intro b hb
      apply hz
      rw [← hsplit, hd]
      exact List.mem_append_right _ (List.mem_cons_of_mem _ hb)
  · intro names seg h
    unfold applySegment
    rw [if_pos h]
  · intro names seg h
    unfold applySegment
    rw [if_neg (by rw [h]; decide), if_pos h]
  · intro names seg h1 h2
    unfold applySegment
    rw [if_neg h1, if_neg h2]

/-- C22 at the string `"dshow:vdev=cam:x=1:adev=mic"`: the video name is
`"cam"`, the audio name `"mic"`, and the segment `"x=1"` is passed over. -/
theorem C22_selection_parsing_witness :
    AccessOpen_names (cstr "dshow:vdev=cam:x=1:adev=mic") = (cstr "cam", cstr "mic") ∧
    AccessOpen_names (cstr "dshow:vdev=cam:x=1:adev=mic") =
      selectionNames (cstr "dshow:vdev=cam:x=1:adev=mic") :=
  ⟨by decide, (C22_selection_parsing (cstr "dshow:vdev=cam:x=1:adev=mic") (by decide)).1⟩

/-! ## Partial open -/

/-- C24. `DemuxOpen` tests the magic with `strcmp( p_peek, ".dsh" )`, which
also needs the byte after the four magic bytes, the most significant byte of
the track count, to be 0.  On an input of bytes that starts with `".dsh"`,
declares a track count above 0 and offers `8 + 20 * count` bytes, with the
host set-up succeeding, `DemuxOpen` succeeds and consumes exactly
`8 + 20 * count` bytes when the count is below 2^24, and fails when the count
is 2^24 or more. -/
theorem C24_header_acceptance (host : Host) (p_input : input_thread_t)
    (hbyte : ∀ b, b ∈ p_input.stream.take 8 → b < 256)
    (h4 : p_input.stream.take 4 = cstr ".dsh")
    (hpos : 0 < GetDWBE (p_input.stream.drop 4))
    (hpeek : 8 + 20 * GetDWBE (p_input.stream.drop 4) ≤ p_input.stream.length)
    (hi : host.initStream = true) (ha : host.addProgram = true) :
    (GetDWBE (p_input.stream.drop 4) < 16777216 →
      ∃ r, DemuxOpen host p_input = some r ∧
        r.stream = p_input.stream.drop (8 + 20 * GetDWBE (p_input.stream.drop 4))) ∧
    (16777216 ≤ GetDWBE (p_input.stream.drop 4) → DemuxOpen host p_input = none) := by
  have h8 : 8 ≤ p_input.stream.length := by omega
  obtain ⟨a, b, c, d, e, f, g, k, t, hs⟩ := list_len8 _ h8
  have hcnt : GetDWBE (p_input.stream.drop 4) =
      (e % 256) * 16777216 + (f % 256) * 65536 + (g % 256) * 256 + k % 256 := by
    rw [hs]
    rfl
  have he : e < 256 := by
    apply hbyte
    rw [hs]
    simp
  have h4' : a = 46 ∧ b = 100 ∧ c = 115 ∧ d = 104 := by
    rw [hs] at h4
    have : [a, b, c, d] = [46, 100, 115, 104] := h4
    simpa using this
  obtain ⟨ea, eb, ec, ed⟩ := h4'
  constructor
  · intro hlt
    have he0 : e = 0 := by omega
    have h5 : p_input.stream.take 5 = [46, 100, 115, 104, 0] := by
      rw [hs, ea, eb, ec, ed, he0]
      rfl
    exact ⟨_, (DemuxOpen_some_iff host p_input _).2 ⟨h8, h5, hpos, hi, ha, hpeek, rfl⟩, rfl⟩
  · intro hge
    cases hD : DemuxOpen host p_input with
    | none => rfl
    | some r =>
      exfalso
      have hlt := DemuxOpen_count_lt host p_input r hD
      omega

theorem C24_header_acceptance_witness :
    bigHeader.take 4 = cstr ".dsh" ∧ GetDWBE (bigHeader.drop 4) = 16777216 ∧
    8 + 20 * 16777216 ≤ bigHeader.length ∧ DemuxOpen okHost ⟨bigHeader, [], []⟩ = none := by
  have hc : GetDWBE (bigHeader.drop 4) = 16777216 := by
    simp only [bigHeader, List.cons_append, List.drop_succ_cons, List.drop_zero, GetDWBE]
  have hl : bigHeader.length = 335544328 := by
    have e : ([46, 100, 115, 104, 1, 0, 0, 0] : List Nat).length = 8 := rfl
    unfold bigHeader
    rw [List.length_append, List.length_replicate, e]
  have ht8 : bigHeader.take 8 = [46, 100, 115, 104, 1, 0, 0, 0] := by
    simp only [bigHeader, List.cons_append, List.take_succ_cons, List.take_zero, List.nil_append]
  have ht4 : bigHeader.take 4 = cstr ".dsh" := by
    have e : bigHeader.take 4 = [46, 100, 115, 104] := by
      simp only [bigHeader, List.cons_append, List.take_succ_cons, List.take_zero]
    rw [e]
    decide
  refine ⟨ht4, hc, by rw [hl], ?_⟩
  refine (C24_header_acceptance okHost ⟨bigHeader, [], []⟩ ?_ ht4 (by rw [hc]; decide)
    (by rw [hc, hl]) rfl rfl).2 (by rw [hc])
  intro b hb
  have hb8 : b ∈ [46, 100, 115, 104, 1, 0, 0, 0] := by
    rw [← ht8]
    exact hb
  simp only [List.mem_cons, List.mem_singleton, List.mem_nil_iff, or_false] at hb8
  omega

/-! ## Waiting for a sample -/

/-- The two `return i_data` of the loop body: either the requested length is
used up, or something has been written. -/
theorem ReadDrain_ret (r r1 : ReadState) (h : ReadDrain r = .ret r1) :
    r1.i_len = 0 ∨ r1.i_data ≠ 0 := by
  unfold ReadDrain at h
  cases hc : copyHeader r with
  | none => rw [hc] at h; cases h
  | some c1 =>
    rw [hc] at h
    simp only at h
    cases hd : copyData c1 with
    | none => rw [hd] at h; cases h
    | some c2 =>
      rw [hd] at h
      simp only at h
      by_cases h0 : c2.i_len = 0
      · rw [if_pos h0] at h
        injection h with h
        subst h
        exact Or.inl h0
      · rw [if_neg h0] at h
        split at h
        · rename_i hcond
          injection h with h
          subst h
          exact Or.inr hcond.2.1
        · cases h

/-- With nothing pending and no sample ready at any of `k` fetches, the loop
of `Read` is still polling after them. -/
theorem ReadLoop_polling : ∀ (k : Nat) (r : ReadState), LoopInv r → 0 < r.i_len →
    r.p_buffer = [] → pending r.p_sys = [] →
    ∃ p_sys, ReadLoop (List.replicate k none) r = .polling p_sys := by
  intro k
  induction k with
  | zero =>
    intro r h hpos hb hp
    rw [List.replicate_zero, ReadLoop, if_neg (by omega)]
    rcases ReadDrain_spec r h with ⟨r1, e, l1, hb1, _, _, hle⟩ | ⟨r1, e, _⟩
    · exfalso
      rw [hb, hp, List.append_nil] at hb1
      have hnil : r1.p_buffer = [] := (List.append_eq_nil.1 hb1).1
      have hd := l1.data
      rw [hnil] at hd hle
      rw [hb] at hle
      simp only [List.length_nil, Nat.zero_add] at hle
      rcases ReadDrain_ret r r1 e with h0 | h0
      · omega
      · exact h0 (by simpa using hd)
    · rw [e]
      exact ⟨_, rfl⟩
  | succ k ih =>
    intro r h hpos hb hp
    rw [List.replicate_succ, ReadLoop, if_neg (by omega)]
    rcases ReadDrain_spec r h with ⟨r1, e, l1, hb1, _, _, hle⟩ |
      ⟨r1, e, l1, hb1, _, hl1, _, _, _, hh, hd, _⟩
    · exfalso
      rw [hb, hp, List.append_nil] at hb1
      have hnil : r1.p_buffer = [] := (List.append_eq_nil.1 hb1).1
      have hd := l1.data
      rw [hnil] at hd hle
      rw [hb] at hle
      simp only [List.length_nil, Nat.zero_add] at hle
      rcases ReadDrain_ret r r1 e with h0 | h0
      · omega
      · exact h0 (by simpa using hd)
    · rw [e]
      simp only
      obtain ⟨f1, f2, f3, _, _, f6⟩ := ReadFetch_spec r1 none l1 hh hd
      apply ih _ f1
      · rw [f3]; exact hl1
      · rw [f2, hb1, hb, hp]; rfl
      · exact f6

/-- A `Read` call that returns, entered with a requested length of at least
1, returns at least 1. -/
theorem ReadLoop_pos (env : List (Option VLCMediaSample)) :
    ∀ (r : ReadState), LoopInv r → 0 < r.i_len →
      ∀ (i_data : Int) (out : List Nat) (p_sys1 : access_sys_t)
        (rest : List (Option VLCMediaSample)),
        ReadLoop env r = .returned i_data out p_sys1 rest → 1 ≤ i_data := by
  have key : ∀ (r r1 : ReadState), LoopInv r1 → 0 < r.i_len → ReadDrain r = .ret r1 →
      r1.p_buffer.length + r1.i_len = r.p_buffer.length + r.i_len → 1 ≤ r1.i_data := by
    intro r r1 l1 hpos e hle
    have hd := l1.data
    rcases ReadDrain_ret r r1 e with h0 | h0
    · rw [hd]; omega
    · rw [hd] at h0 ⊢
      have : r1.p_buffer.length ≠ 0 := fun hc => h0 (by rw [hc]; rfl)
      omega
  induction env with
  | nil =>
    intro r h hpos i_data out p_sys1 rest he
    rw [ReadLoop, if_neg (by omega)] at he
    rcases ReadDrain_spec r h with ⟨r1, e, l1, _, _, _, hle⟩ | ⟨r1, e, _⟩
    · rw [e] at he
      injection he with e1 e2 e3 e4
      subst e1
      exact key r r1 l1 hpos e hle
    · rw [e] at he
      cases he
  | cons o env ih =>
    intro r h hpos i_data out p_sys1 rest he
    rw [ReadLoop, if_neg (by omega)] at he
    rcases ReadDrain_spec r h with ⟨r1, e, l1, _, _, _, hle⟩ |
      ⟨r1, e, l1, _, _, hl1, _, _, _, hh, hd, _⟩
    · rw [e] at he
      injection he with e1 e2 e3 e4
      subst e1
      exact key r r1 l1 hpos e hle
    · rw [e] at he
      simp only at he
      obtain ⟨f1, _, f3, _⟩ := ReadFetch_spec r1 o l1 hh hd
      exact ih _ f1 (by rw [f3]; exact hl1) _ _ _ _ he

/-- C25 as stated fails: with cancellation requested (`b_die` set), nothing
pending and no sample ready at three fetches in a row, the `Read` call has
not returned; it is still waiting for a sample. -/
theorem C25_counterexample :
    ReadInput ⟨true, scenarioDrained⟩ [none, none, none] 100 =
      .polling { scenarioDrained with i_current_stream := 1 } := by
  decide!

/-- C25 (amended). `Read` checks no cancellation signal: from a session state
with nothing pending and a requested length from 1 to 2^31 - 1, however many
fetches in a row find no sample ready, the call is still waiting after them
and has not returned, and what it does is the same whether or not
cancellation has been requested. -/
theorem C25_retry_without_cancel (p_input : access_input_t) (k i_len : Nat)
    (h : ReadInv p_input.p_access_data) (hp : pending p_input.p_access_data = [])
    (h0 : 0 < i_len) (hl : i_len < 2147483648) :
    (∃ p_sys, ReadInput p_input (List.replicate k none) i_len = .polling p_sys) ∧
    ∀ (b : Bool) (env : List (Option VLCMediaSample)),
      ReadInput { p_input with b_die := b } env i_len = ReadInput p_input env i_len :=
  ⟨ReadLoop_polling k ⟨p_input.p_access_data, [], i_len, 0⟩ ⟨h, rfl, by simpa using hl⟩ h0 rfl hp,
    fun _ _ => rfl⟩

theorem C25_retry_without_cancel_witness :
    ∃ p_sys, ReadInput ⟨true, scenarioDrained⟩ (List.replicate 7 none) 100 = .polling p_sys :=
  (C25_retry_without_cancel ⟨true, scenarioDrained⟩ 7 100 scenarioDrained_reachable.inv
    (by decide) (by decide) (by decide)).1

/-- C26. `Read` never reports zero bytes: from every session state that
satisfies the invariant of the reachable states and for every requested
length from 1 to 2^32 - 1, a `Read` call that returns, returns at least 1;
and (for lengths in the range of `int`) when nothing is pending and no sample
is ready at any of `k` fetches, the call is still waiting after them instead
of returning. -/
theorem C26_read_never_zero (p_sys : access_sys_t) (i_len : Nat)
    (h : ReadInv p_sys) (h1 : 1 ≤ i_len) (hl : i_len < 4294967296) :
    (∀ (env rest : List (Option VLCMediaSample)) (i_data : Int) (p_buffer : List Nat)
        (p_sys1 : access_sys_t),
        Read p_sys env i_len = .returned i_data p_buffer p_sys1 rest → 1 ≤ i_data) ∧
    (i_len < 2147483648 → pending p_sys = [] →
      ∀ k, ∃ p_sys1, Read p_sys (List.replicate k none) i_len = .polling p_sys1) := by
  constructor
  · intro env rest i_data p_buffer p_sys1 hr
    by_cases hsmall : i_len < 2147483648
    · exact ReadLoop_pos env ⟨p_sys, [], i_len, 0⟩ ⟨h, rfl, by simpa using hsmall⟩ h1 _ _ _ _ hr
    · exfalso
      rcases ReadLoop_large env ⟨p_sys, [], i_len, 0⟩ (by simpa using hsmall) hl rfl with
        e | ⟨p, e⟩
      · unfold Read at hr
        rw [hr] at e
        cases e
      · unfold Read at hr
        rw [hr] at e
        cases e
  · intro hsmall hp k
    exact ReadLoop_polling k ⟨p_sys, [], i_len, 0⟩ ⟨h, rfl, by simpa using hsmall⟩ h1 rfl hp

theorem C26_read_never_zero_witness :
    (Read scenarioDrained [none, some sampleB] 100).result = some (19, frameUnit 0 sampleB, []) ∧
    (∀ (env rest : List (Option VLCMediaSample)) (i_data : Int) (p_buffer : List Nat)
        (p_sys1 : access_sys_t),
        Read scenarioDrained env 100 = .returned i_data p_buffer p_sys1 rest → 1 ≤ i_data) ∧
    ∃ p_sys1, Read scenarioDrained (List.replicate 5 none) 100 = .polling p_sys1 :=
  ⟨by decide!,
    (C26_read_never_zero scenarioDrained 100 scenarioDrained_reachable.inv (by decide)
      (by decide)).1,
    (C26_read_never_zero scenarioDrained 100 scenarioDrained_reachable.inv (by decide)
      (by decide)).2 (by decide) (by decide) 5⟩

/-! ## The shared header buffer -/

theorem copyHeader_header (r c : ReadState) (h : copyHeader r = some c) :
    c.p_sys.p_header = r.p_sys.p_header := by
  unfold copyHeader at h
  split at h
  · simp only at h
    split at h
    · cases h
    · injection h with h
      subst h
      rfl
  · injection h with h
    subst h
    rfl

theorem copyData_header (r c : ReadState) (h : copyData r = some c) :
    c.p_sys.p_header = r.p_sys.p_header := by
  unfold copyData at h
  simp only at h
  split at h
  · split at h
    · cases h
    · injection h with h
      subst h
      rfl
  · injection h with h
    subst h
    rfl

/-- The loop body up to its two `return` tests does not write to the header
buffer. -/
theorem ReadDrain_header (r r1 : ReadState)
    (h : ReadDrain r = .ret r1 ∨ ReadDrain r = .next r1) :
    r1.p_sys.p_header = r.p_sys.p_header := by
  unfold ReadDrain at h
  cases hc : copyHeader r with
  | none =>
    rw [hc] at h
    rcases h with h | h <;> cases h
  | some c1 =>
    rw [hc] at h
    simp only at h
    have e1 := copyHeader_header r c1 hc
    cases hd : copyData c1 with
    | none =>
      rw [hd] at h
      rcases h with h | h <;> cases h
    | some c2 =>
      rw [hd] at h
      simp only at h
      have e2 := copyData_header c1 c2 hd
      by_cases h0 : c2.i_len = 0
      · rw [if_pos h0] at h
        rcases h with h | h
        · injection h with h
          subst h
          rw [e2, e1]
        · cases h
      · rw [if_neg h0] at h
        split at h
        · rcases h with h | h
          · injection h with h
            subst h
            show c2.p_sys.p_header = _
            rw [e2, e1]
          · cases h
        · rcases h with h | h
          · cases h
          · injection h with h
            subst h
            rw [e2, e1]

/-- The write of the pseudo header stays inside a buffer of at least 16
bytes: the buffer keeps its length and the bytes from offset 16 on. -/
theorem ReadFetch_header (r : ReadState) (o : Option VLCMediaSample)
    (h16 : 16 ≤ r.p_sys.p_header.length) :
    (ReadFetch r o).p_sys.p_header.length = r.p_sys.p_header.length ∧
    (ReadFetch r o).p_sys.p_header.drop 16 = r.p_sys.p_header.drop 16 ∧
    (o = none → (ReadFetch r o).p_sys.p_header = r.p_sys.p_header) := by
  cases o with
  | none => exact ⟨rfl, rfl, fun _ => rfl⟩
  | some s =>
    have e : (ReadFetch r (some s)).p_sys.p_header =
        memcpy r.p_sys.p_header 0
          (pseudoHeader ((r.p_sys.i_current_stream + 1) % r.p_sys.pp_streams.length)
            s.data.length (samplePts s)) := rfl
    refine ⟨?_, ?_, fun hc => by cases hc⟩
    · rw [e]
      exact memcpy_zero_length _ _ (by rw [pseudoHeader_length]; exact h16)
    · rw [e]
      unfold memcpy
      simp only [List.take_zero, List.nil_append, Nat.zero_add, pseudoHeader_length]
      rw [← pseudoHeader_length ((r.p_sys.i_current_stream + 1) % r.p_sys.pp_streams.length)
        s.data.length (samplePts s), List.drop_left]

theorem ReadLoop_header (env : List (Option VLCMediaSample)) :
    ∀ (r : ReadState), LoopInv r →
      ∀ (i_data : Int) (out : List Nat) (p_sys1 : access_sys_t)
        (rest : List (Option VLCMediaSample)),
        ReadLoop env r = .returned i_data out p_sys1 rest →
        p_sys1.p_header.length = r.p_sys.p_header.length := by
  induction env with
  | nil =>
    intro r h i_data out p_sys1 rest he
    rw [ReadLoop] at he
    by_cases h0 : r.i_len = 0
    · rw [if_pos h0] at he
      injection he with e1 e2 e3 e4
      subst e3
      rfl
    · rw [if_neg h0] at he
      cases hd : ReadDrain r with
      | undefined => rw [hd] at he; cases he
      | ret r1 =>
        rw [hd] at he
        injection he with e1 e2 e3 e4
        subst e3
        rw [ReadDrain_header r r1 (Or.inl hd)]
      | next r1 => rw [hd] at he; cases he
  | cons o env ih =>
    intro r h i_data out p_sys1 rest he
    rw [ReadLoop] at he
    by_cases h0 : r.i_len = 0
    · rw [if_pos h0] at he
      injection he with e1 e2 e3 e4
      subst e3
      rfl
    · rw [if_neg h0] at he
      rcases ReadDrain_spec r h with ⟨r1, e, _⟩ | ⟨r1, e, l1, _, _, _, _, _, _, hh, hd, _⟩
      · rw [e] at he
        injection he with e1 e2 e3 e4
        subst e3
        rw [ReadDrain_header r r1 (Or.inl e)]
      · rw [e] at he
        simp only at he
        obtain ⟨f1, _⟩ := ReadFetch_spec r1 o l1 hh hd
        rw [ih _ f1 _ _ _ _ he, (ReadFetch_header r1 o l1.inv.buf).1,
          ReadDrain_header r r1 (Or.inr e)]

/-- In every reachable session the header buffer has the size it was
allocated with, `8 + 20 * i_streams`. -/
theorem Reachable.alloc {p_sys : access_sys_t} (h : Reachable p_sys) :
    p_sys.p_header.length = 8 + 20 * p_sys.pp_streams.length := by
  induction h with
  | opened vdev adev p_sys ho =>
    obtain ⟨_, _, hh, _⟩ := AccessOpen_some ho
    rw [hh, containerHeader_length]
  | read p_sys p_sys1 env rest i_len i_data p_buffer hre hl hr ih =>
    obtain ⟨_, _, _, _, _, _, _, u7, _⟩ := (Read_spec p_sys env i_len hre.inv hl).2 _ _ _ _ hr
    have := ReadLoop_header env ⟨p_sys, [], i_len, 0⟩ ⟨hre.inv, rfl, by simpa using hl⟩
      _ _ _ _ hr
    rw [this, u7]
    exact ih

theorem LoopReach.loopInv {p_sys : access_sys_t} {i_len : Nat} {r : ReadState}
    (hre : Reachable p_sys) (hl : i_len < 2147483648) (h : LoopReach p_sys i_len r) :
    LoopInv r ∧ r.p_sys.p_header.length = 8 + 20 * r.p_sys.pp_streams.length := by
  induction h with
  | start => exact ⟨⟨hre.inv, rfl, by simpa using hl⟩, hre.alloc⟩
  | pass r r1 o _ h0 hd ih =>
    obtain ⟨li, ha⟩ := ih
    rcases ReadDrain_spec r li with ⟨r2, e, _⟩ | ⟨r2, e, l1, _, _, _, _, hn, _, hh, hdd, _⟩
    · rw [e] at hd; cases hd
    · rw [e] at hd
      injection hd with hd
      subst hd
      obtain ⟨f1, _, _, _, f5, _⟩ := ReadFetch_spec r2 o l1 hh hdd
      refine ⟨f1, ?_⟩
      rw [(ReadFetch_header r2 o l1.inv.buf).1, ReadDrain_header r r2 (Or.inr e), f5, hn]
      exact ha

/-- C27. The shared header buffer is used safely: in a `Read` call on a
session reachable from a successful `AccessOpen` by `Read` calls, whenever
control reaches "Get new sample" (where the pseudo header is written into
`p_header`), the header drain position equals the header size, so no header
byte is pending, and no payload byte of the current frame is pending; the
buffer has its allocated size `8 + 20 * i_streams`, which is at least 16;
and the write leaves the length of the buffer and its bytes from offset 16 on
as they were (no write at all when no sample is ready). -/
theorem C27_shared_header_buffer (p_sys : access_sys_t) (i_len : Nat) (r r1 : ReadState)
    (o : Option VLCMediaSample) (hre : Reachable p_sys) (hl : i_len < 2147483648)
    (hr : LoopReach p_sys i_len r) (hd : ReadDrain r = .next r1) :
    r1.p_sys.i_header_pos = r1.p_sys.i_header_size ∧ pendingHeader r1.p_sys = [] ∧
    (curStream r1.p_sys).i_data_pos = (curStream r1.p_sys).i_data_size ∧
    pendingData r1.p_sys = [] ∧
    r1.p_sys.p_header.length = 8 + 20 * r1.p_sys.i_streams ∧
    16 ≤ 8 + 20 * r1.p_sys.i_streams ∧
    (ReadFetch r1 o).p_sys.p_header.length = r1.p_sys.p_header.length ∧
    (ReadFetch r1 o).p_sys.p_header.drop 16 = r1.p_sys.p_header.drop 16 ∧
    (o = none → (ReadFetch r1 o).p_sys.p_header = r1.p_sys.p_header) := by
  obtain ⟨li, ha⟩ := LoopReach.loopInv hre hl hr
  rcases ReadDrain_spec r li with ⟨r2, e, _⟩ | ⟨r2, e, l1, _, hp0, _, _, hn, _, hh, hdd, _⟩
  · rw [e] at hd; cases hd
  · rw [e] at hd
    injection hd with hd
    subst hd
    have hlen : r2.p_sys.p_header.length = 8 + 20 * r2.p_sys.pp_streams.length := by
      rw [ReadDrain_header r r2 (Or.inr e), hn]
      exact ha
    have hpend := List.append_eq_nil.1 hp0
    obtain ⟨g1, g2, g3⟩ := ReadFetch_header r2 o l1.inv.buf
    refine ⟨hh, hpend.1, hdd, hpend.2, hlen, ?_, g1, g2, g3⟩
    have := l1.inv.buf
    rw [hlen] at this
    exact this

/-- C27 at the concrete scenario: the first fetch of a call on the session
whose 48 header bytes are read. -/
theorem C27_shared_header_buffer_witness :
    ReadDrain scenarioLoop = .next scenarioLoop ∧
    scenarioLoop.p_sys.i_header_pos = scenarioLoop.p_sys.i_header_size ∧
    scenarioLoop.p_sys.p_header.length = 8 + 20 * scenarioLoop.p_sys.i_streams ∧
    (ReadFetch scenarioLoop (some sampleA)).p_sys.p_header.length =
      scenarioLoop.p_sys.p_header.length ∧
    (ReadFetch scenarioLoop (some sampleA)).p_sys.p_header.drop 16 =
      scenarioLoop.p_sys.p_header.drop 16 :=
  have hd : ReadDrain scenarioLoop = .next scenarioLoop := by decide
  have h := C27_shared_header_buffer scenarioDrained 100 scenarioLoop scenarioLoop
    (some sampleA) scenarioDrained_reachable (by decide) LoopReach.start hd
  ⟨hd, h.1, h.2.2.2.2.1, h.2.2.2.2.2.2.1, h.2.2.2.2.2.2.2.1⟩

end DShow
